import Mathlib

/-!
Uptime SLA calculator
=====================

A shallow embedding of `sla-calculator/sla_calculator.go` and a verification of
its specification.

Modelling conventions.

* Go `int64` is modelled by `Int`; slices are lists.  On accepted input the
  timestamps lie between `0` and `endTime`, so every interval length, every
  excess pushed back and every sum stays within `int64` and is computed
  exactly.  The one subtraction that can leave that range is the difference
  of two counter values in `transformToSpreadedUptime`; it wraps as Go's
  `int64` subtraction does (`subInt64`).
* A body that indexes a slice runs in `Option`: `none` is the Go runtime panic
  of an index out of range.  A read `xs[i]` is `xs[i]?`, a write `xs[i] = x`
  is `setAt xs i x`.
* `for i := range xs` is `forRange body xs.length 0 init`; a `continue` is an
  early result of the body.
* The two down-counting loops (`j--`, `i--`) leave through `break` when the
  index is `0`, before the decrement, so their index is a natural number and
  the recursion is structural on it.
* A Go result pair `(value, err)` is a Lean pair whose second component is
  `none` for a `nil` error.
* `float64(a) / float64(b)` is `F64.div a b`: the exact quotient, with the
  IEEE-754 results for a zero divisor; rounding is abstracted.
-/

namespace SlaCalculator

/-! ## Data model -/

/-- The causes for which `checkArguments` returns an error, one per
`fmt.Errorf` of the source. -/
inductive ArgError where
  | negativeTime
  | emptyTimestamps
  | startAfterFirst
  | endBeforeLast
  | valuesLength
  | exceptionsLength
  | unordered
  deriving DecidableEq, Repr

/-- A `float64` value as far as the calculator produces one. -/
inductive F64 where
  | nan
  | posInf
  | negInf
  | val (q : ℚ)
  deriving DecidableEq

/-- The literal `0` returned next to an error. -/
def F64.zero : F64 := F64.val 0

/-- The Go expression `float64(a) / float64(b)`. -/
def F64.div (a b : Int) : F64 :=
  if b = 0 then
    if a = 0 then F64.nan else if 0 < a then F64.posInf else F64.negInf
  else F64.val ((a : ℚ) / (b : ℚ))

/-- StateDown is the string value of down uptime state. -/
def StateDown : String := "down"

/-- StateUp is the string value of up uptime state. -/
def StateUp : String := "up"

/-- StateOpen is the string value of open uptime state. -/
def StateOpen : String := "open"

/-! ## Control-flow helpers -/

/-- The loop `for i := lo; i < lo + n; i++` threading a state through `body`. -/
def forRange {σ : Type} (body : Nat → σ → Option σ) : Nat → Nat → σ → Option σ
  | 0, _, s => some s
  | n + 1, i, s => (body i s).bind (forRange body n (i + 1))

/-- The value of an `int64` computation whose exact result is `x`: the
representative of `x` modulo `2^64` in the range `-2^63 ≤ · < 2^63`. -/
def wrapInt64 (x : Int) : Int :=
  (x + 9223372036854775808) % 18446744073709551616 - 9223372036854775808

/-- Go's `int64` subtraction `a - b`, which wraps on overflow. -/
def subInt64 (a b : Int) : Int := wrapInt64 (a - b)

/-- The slice write `xs[i] = x`, which panics when `i` is out of range. -/
def setAt {α : Type} (xs : List α) (i : Nat) (x : α) : Option (List α) :=
  if i < xs.length then some (xs.set i x) else none

/-! ## checkArguments -/

/-- The timestamp-sequence loop of `checkArguments`: true when some
`timestamps[i] < timestamps[i-1]` makes the loop return its error. -/
def unorderedDetected : List Int → Bool
  | a :: b :: rest => if b < a then true else unorderedDetected (b :: rest)
  | _ => false

/-- The validator.  `exceptions = none` is the `nil` slice.  The reads
`timestamps[0]` and `timestamps[len(timestamps)-1]` come after the emptiness
check, so the default of `getD` is never used. -/
def checkArguments (startTime endTime : Int) (timestamps uptimeValues : List Int)
    (exceptions : Option (List Bool)) : Option ArgError :=
  if startTime < 0 ∨ endTime < 0 then some ArgError.negativeTime
  else if timestamps.length ≤ 0 then some ArgError.emptyTimestamps
  else if startTime > timestamps.getD 0 0 then some ArgError.startAfterFirst
  else if endTime < timestamps.getD (timestamps.length - 1) 0 then
    some ArgError.endBeforeLast
  else if timestamps.length ≠ uptimeValues.length then some ArgError.valuesLength
  else if (match exceptions with
      | none => false
      | some ex => decide (timestamps.length ≠ ex.length)) = true then
    some ArgError.exceptionsLength
  else if unorderedDetected timestamps = true then some ArgError.unordered
  else none

/-! ## The shared finishing protocol -/

/-- The trailing interval: `if delta := endTime - timestamps[len-1]; delta > 0`
appends `delta` to the interval lengths and `0` to the counted values.  The
state is `(deltaTimeStamps, countedVals)`. -/
def appendTrailing (endTime : Int) (timestamps : List Int)
    (s : List Int × List Int) : Option (List Int × List Int) :=
  match timestamps.length with
  | 0 => none
  | n + 1 => do
    let last ← timestamps[n]?
    let delta := endTime - last
    if delta > 0 then some (s.1 ++ [delta], s.2 ++ [0]) else some s

/-- Body of the summing loop; the state is `(sumCountedVal, sumDeltaTimestamp)`. -/
def sumStep (deltaTimeStamps countedVals : List Int) (i : Nat)
    (s : Int × Int) : Option (Int × Int) := do
  let c ← countedVals[i]?
  let d ← deltaTimeStamps[i]?
  some (s.1 + c, s.2 + d)

/-- The loop `for i := range countedVals` that sums both arrays. -/
def sumLoop (s : List Int × List Int) : Option (Int × Int) :=
  forRange (sumStep s.1 s.2) s.2.length 0 (0, 0)

/-! ## CalculateSNMPAvailability -/

/-- Body of the reconstruction loop of `CalculateSNMPAvailability`; the state
is `(deltaTimeStamps, countedVals)`. -/
def snmpStep (startTime : Int) (timestamps uptimeValues : List Int) (i : Nat)
    (s : List Int × List Int) : Option (List Int × List Int) := do
  let ti ← timestamps[i]?
  if i = 0 then
    let vi ← uptimeValues[i]?
    if vi ≤ 0 then some (s.1 ++ [ti - startTime], s.2 ++ [0])
    else some (s.1 ++ [ti - startTime], s.2 ++ [ti - startTime])
  else
    let tp ← timestamps[i - 1]?
    let vi ← uptimeValues[i]?
    if vi ≤ 0 then some (s.1 ++ [ti - tp], s.2 ++ [0])
    else some (s.1 ++ [ti - tp], s.2 ++ [ti - tp])

/-- The arrays `(deltaTimeStamps, countedVals)` that `CalculateSNMPAvailability`
sums, trailing interval included. -/
def snmpIntervals (startTime endTime : Int) (timestamps uptimeValues : List Int) :
    Option (List Int × List Int) := do
  let s ← forRange (snmpStep startTime timestamps uptimeValues) timestamps.length 0 ([], [])
  appendTrailing endTime timestamps s

/-- The pair `(sumCountedVal, sumDeltaTimestamp)` of `CalculateSNMPAvailability`. -/
def snmpSums (startTime endTime : Int) (timestamps uptimeValues : List Int) :
    Option (Int × Int) :=
  (snmpIntervals startTime endTime timestamps uptimeValues).bind sumLoop

/-- CalculateSNMPAvailability returns the availability value (SLA) based on
the existence of the data in each timestamp. -/
def CalculateSNMPAvailability (startTime endTime : Int) (timestamps uptimeValues : List Int) :
    Option (F64 × Option ArgError) :=
  match checkArguments startTime endTime timestamps uptimeValues none with
  | some err => some (F64.zero, some err)
  | none => (snmpSums startTime endTime timestamps uptimeValues).map
      fun p => (F64.div p.1 p.2, none)

/-! ## transformToSpreadedUptime -/

/-- Body of the first loop of `transformToSpreadedUptime` (raw deltas); the
state is `(deltaTimeStamps, countedVals)`. -/
def spreadStep1 (startTime : Int) (timestamps uptimeValues : List Int) (i : Nat)
    (s : List Int × List Int) : Option (List Int × List Int) := do
  let ti ← timestamps[i]?
  if i = 0 then
    let delta := ti - startTime
    let vi ← uptimeValues[i]?
    if vi ≤ 0 then some (s.1 ++ [delta], s.2 ++ [0])
    else if vi > delta then some (s.1 ++ [delta], s.2 ++ [delta])
    else some (s.1 ++ [delta], s.2 ++ [vi])
  else
    let tp ← timestamps[i - 1]?
    let delta := ti - tp
    let vi ← uptimeValues[i]?
    let vp ← uptimeValues[i - 1]?
    if subInt64 vi vp ≤ 0 then some (s.1 ++ [delta], s.2 ++ [0])
    else some (s.1 ++ [delta], s.2 ++ [subInt64 vi vp])

/-- The inner loop `for j := i; countedVals[j] > deltaTimeStamps[j]; j--` of
the redistribution, started at index `j`. -/
def pushBack (deltaTimeStamps : List Int) : Nat → List Int → Option (List Int)
  | 0, countedVals => do
    let cj ← countedVals[0]?
    let dj ← deltaTimeStamps[0]?
    if cj > dj then
      if cj > dj then setAt countedVals 0 dj else some countedVals
    else some countedVals
  | j + 1, countedVals => do
    let cj ← countedVals[j + 1]?
    let dj ← deltaTimeStamps[j + 1]?
    if cj > dj then
      let c1 ← setAt countedVals j (cj - dj)
      let c2 ← setAt c1 (j + 1) dj
      pushBack deltaTimeStamps j c2
    else some countedVals

/-- Body of the second loop of `transformToSpreadedUptime` (redistribution). -/
def spreadStep2 (deltaTimeStamps : List Int) (i : Nat) (countedVals : List Int) :
    Option (List Int) := do
  let ci ← countedVals[i]?
  let di ← deltaTimeStamps[i]?
  if ci > di then pushBack deltaTimeStamps i countedVals else some countedVals

/-- The raw deltas of Step 1, `(deltaTimeStamps, countedVals)`. -/
def spreadRaw (startTime : Int) (timestamps uptimeValues : List Int) :
    Option (List Int × List Int) :=
  forRange (spreadStep1 startTime timestamps uptimeValues) timestamps.length 0 ([], [])

/-- The spread reconstruction; it returns `(deltaTimeStamps, countedVals)`.
`endTime` is a parameter the source does not use. -/
def transformToSpreadedUptime (_startTime _endTime : Int) (timestamps uptimeValues : List Int) :
    Option (List Int × List Int) := do
  let s ← spreadRaw _startTime timestamps uptimeValues
  let c ← forRange (spreadStep2 s.1) s.1.length 0 s.2
  some (s.1, c)

/-! ## CalculateUptimeAvailability -/

/-- The arrays `(deltaTimeStamps, countedVals)` that
`CalculateUptimeAvailability` sums, trailing interval included. -/
def uptimeIntervals (startTime endTime : Int) (timestamps uptimeValues : List Int) :
    Option (List Int × List Int) := do
  let s ← transformToSpreadedUptime startTime endTime timestamps uptimeValues
  appendTrailing endTime timestamps s

/-- The pair `(sumCountedVal, sumDeltaTimestamp)` of `CalculateUptimeAvailability`. -/
def uptimeSums (startTime endTime : Int) (timestamps uptimeValues : List Int) :
    Option (Int × Int) :=
  (uptimeIntervals startTime endTime timestamps uptimeValues).bind sumLoop

/-- CalculateUptimeAvailability returns the availability value (SLA) based on
the uptime value on each timestamp, it figures the availability of a device is
UP regardless the connectivity state. -/
def CalculateUptimeAvailability (startTime endTime : Int) (timestamps uptimeValues : List Int) :
    Option (F64 × Option ArgError) :=
  match checkArguments startTime endTime timestamps uptimeValues none with
  | some err => some (F64.zero, some err)
  | none => (uptimeSums startTime endTime timestamps uptimeValues).map
      fun p => (F64.div p.1 p.2, none)

/-! ## CalculateSLA1Availability -/

/-- Body of the forward pass of `CalculateSLA1Availability`; the state is
`(open, countedVals)`. -/
def sla1Step (uptimeValues deltaTimeStamps : List Int) (i : Nat)
    (s : Bool × List Int) : Option (Bool × List Int) := do
  let vi ← uptimeValues[i]?
  let opn := if s.1 = true ∧ vi > 0 then false else s.1
  if opn = true then
    let c ← setAt s.2 i 0
    some (opn, c)
  else
    let ci ← s.2[i]?
    if vi ≤ 0 ∧ ci > 0 then
      let c ← setAt s.2 i 0
      some (opn, c)
    else
      let di ← deltaTimeStamps[i]?
      let c ← setAt s.2 i di
      some (opn, c)

/-- The loop `for i := len(timestamps) - 1; (uptimeValues[i] <= 0) && (i >= 0); i--`
started at index `i`, whose body is `arr[i] = x; if i == 0 { break }`.  It is
the "correcting open end" loop of `CalculateSLA1Availability` (`x = 0`) and the
last loop of `GetUptimeStateSeriesData` (`x = StateOpen`). -/
def correctOpenEnd {α : Type} (uptimeValues : List Int) (x : α) :
    Nat → List α → Option (List α)
  | 0, arr => do
    let vi ← uptimeValues[0]?
    if vi ≤ 0 ∧ (0 : Int) ≥ 0 then setAt arr 0 x else some arr
  | i + 1, arr => do
    let vi ← uptimeValues[i + 1]?
    if vi ≤ 0 ∧ ((i + 1 : Nat) : Int) ≥ 0 then
      let arr1 ← setAt arr (i + 1) x
      correctOpenEnd uptimeValues x i arr1
    else some arr

/-- The per-sample arrays `(deltaTimeStamps, countedVals)` of
`CalculateSLA1Availability` after the forward pass and the open-end
correction, before the trailing interval. -/
def sla1Counted (startTime endTime : Int) (timestamps uptimeValues : List Int) :
    Option (List Int × List Int) := do
  let s ← transformToSpreadedUptime startTime endTime timestamps uptimeValues
  let r ← forRange (sla1Step uptimeValues s.1) timestamps.length 0 (true, s.2)
  match timestamps.length with
  | 0 => none
  | n + 1 => do
    let c ← correctOpenEnd uptimeValues 0 n r.2
    some (s.1, c)

/-- The arrays that `CalculateSLA1Availability` sums, trailing interval included. -/
def sla1Intervals (startTime endTime : Int) (timestamps uptimeValues : List Int) :
    Option (List Int × List Int) :=
  (sla1Counted startTime endTime timestamps uptimeValues).bind
    (appendTrailing endTime timestamps)

/-- The pair `(sumCountedVal, sumDeltaTimestamp)` of `CalculateSLA1Availability`. -/
def sla1Sums (startTime endTime : Int) (timestamps uptimeValues : List Int) :
    Option (Int × Int) :=
  (sla1Intervals startTime endTime timestamps uptimeValues).bind sumLoop

/-- CalculateSLA1Availability returns the availability value (SLA) based on
the uptime value on each timestamp, it figures the availability of a
connectivity while also regarding the device state (it counts as down if device
is up but the the connectivity is down, other scenarios counted as up). -/
def CalculateSLA1Availability (startTime endTime : Int) (timestamps uptimeValues : List Int) :
    Option (F64 × Option ArgError) :=
  match checkArguments startTime endTime timestamps uptimeValues none with
  | some err => some (F64.zero, some err)
  | none => (sla1Sums startTime endTime timestamps uptimeValues).map
      fun p => (F64.div p.1 p.2, none)

/-! ## CalculateSLA2Availability -/

/-- The elements of a `[]bool` slice; the `nil` slice has none. -/
def boolSlice (exceptions : Option (List Bool)) : List Bool :=
  match exceptions with
  | none => []
  | some ex => ex

/-- Body of the forward pass of `CalculateSLA2Availability`; the state is
`(open, countedVals)`. -/
def sla2Step (uptimeValues deltaTimeStamps : List Int) (exceptions : List Bool) (i : Nat)
    (s : Bool × List Int) : Option (Bool × List Int) := do
  let ei ← exceptions[i]?
  if ei = true then
    let di ← deltaTimeStamps[i]?
    let c ← setAt s.2 i di
    some (s.1, c)
  else
    sla1Step uptimeValues deltaTimeStamps i s

/-- The open-end correction of `CalculateSLA2Availability`, started at index
`i`: a flagged sample is skipped (`continue`, or `break` at index 0). -/
def correctOpenEnd2 (uptimeValues : List Int) (exceptions : List Bool) :
    Nat → List Int → Option (List Int)
  | 0, countedVals => do
    let vi ← uptimeValues[0]?
    if vi ≤ 0 ∧ (0 : Int) ≥ 0 then
      let ei ← exceptions[0]?
      if ei = true then some countedVals else setAt countedVals 0 0
    else some countedVals
  | i + 1, countedVals => do
    let vi ← uptimeValues[i + 1]?
    if vi ≤ 0 ∧ ((i + 1 : Nat) : Int) ≥ 0 then
      let ei ← exceptions[i + 1]?
      if ei = true then correctOpenEnd2 uptimeValues exceptions i countedVals
      else
        let c ← setAt countedVals (i + 1) 0
        correctOpenEnd2 uptimeValues exceptions i c
    else some countedVals

/-- The per-sample arrays `(deltaTimeStamps, countedVals)` of
`CalculateSLA2Availability` after the forward pass and the open-end
correction, before the trailing interval. -/
def sla2Counted (startTime endTime : Int) (timestamps uptimeValues : List Int)
    (exceptions : Option (List Bool)) : Option (List Int × List Int) := do
  let s ← transformToSpreadedUptime startTime endTime timestamps uptimeValues
  let r ← forRange (sla2Step uptimeValues s.1 (boolSlice exceptions)) timestamps.length 0
    (true, s.2)
  match timestamps.length with
  | 0 => none
  | n + 1 => do
    let c ← correctOpenEnd2 uptimeValues (boolSlice exceptions) n r.2
    some (s.1, c)

/-- The arrays that `CalculateSLA2Availability` sums, trailing interval included. -/
def sla2Intervals (startTime endTime : Int) (timestamps uptimeValues : List Int)
    (exceptions : Option (List Bool)) : Option (List Int × List Int) :=
  (sla2Counted startTime endTime timestamps uptimeValues exceptions).bind
    (appendTrailing endTime timestamps)

/-- The pair `(sumCountedVal, sumDeltaTimestamp)` of `CalculateSLA2Availability`. -/
def sla2Sums (startTime endTime : Int) (timestamps uptimeValues : List Int)
    (exceptions : Option (List Bool)) : Option (Int × Int) :=
  (sla2Intervals startTime endTime timestamps uptimeValues exceptions).bind sumLoop

/-- CalculateSLA2Availability returns the availability value (SLA) based on
the Uptime SLA 1 Availability and also regards the exception (proved by
justification document in the real life, ie: scheduled maintenance). -/
def CalculateSLA2Availability (startTime endTime : Int) (timestamps uptimeValues : List Int)
    (exceptions : Option (List Bool)) : Option (F64 × Option ArgError) :=
  match checkArguments startTime endTime timestamps uptimeValues exceptions with
  | some err => some (F64.zero, some err)
  | none => (sla2Sums startTime endTime timestamps uptimeValues exceptions).map
      fun p => (F64.div p.1 p.2, none)

/-! ## GetUptimeStateSeriesData -/

/-- Body of the loop that creates the states array. -/
def stateStep (countedVals : List Int) (i : Nat) (states : List String) :
    Option (List String) := do
  let ci ← countedVals[i]?
  if ci > 0 then some (states ++ [StateUp]) else some (states ++ [StateDown])

/-- The states array of `GetUptimeStateSeriesData` once validation has passed. -/
def stateSeries (startTime endTime : Int) (timestamps uptimeValues : List Int) :
    Option (List String) := do
  let s ← transformToSpreadedUptime startTime endTime timestamps uptimeValues
  let states ← forRange (stateStep s.2) s.2.length 0 []
  match timestamps.length with
  | 0 => none
  | n + 1 => correctOpenEnd uptimeValues StateOpen n states

/-- GetUptimeStateSeriesData returns the state of every uptime series data
either up, down, or open.  The first component is `none` for the `nil` slice. -/
def GetUptimeStateSeriesData (startTime endTime : Int) (timestamps uptimeValues : List Int) :
    Option (Option (List String) × Option ArgError) :=
  match checkArguments startTime endTime timestamps uptimeValues none with
  | some err => some (none, some err)
  | none => (stateSeries startTime endTime timestamps uptimeValues).map
      fun st => (some st, none)

/-! ## Specification-level functions

These follow the words of the specification; the theorems compare them with
the functions above. -/

/-- The interval length of sample `i`: `timestamps[0] - startTime` for the
first sample and `timestamps[i] - timestamps[i-1]` after it. -/
def deltaTime (startTime : Int) (timestamps : List Int) (i : Nat) : Int :=
  if i = 0 then timestamps.getD 0 0 - startTime
  else timestamps.getD i 0 - timestamps.getD (i - 1) 0

/-- The interval lengths of all samples. -/
def deltaTimes (startTime : Int) (timestamps : List Int) : List Int :=
  (List.range timestamps.length).map (deltaTime startTime timestamps)

/-- The trailing interval `endTime - timestamps[last]` when it is positive,
else `0`. -/
def trailingTime (endTime : Int) (timestamps : List Int) : Int :=
  if endTime - timestamps.getD (timestamps.length - 1) 0 > 0 then
    endTime - timestamps.getD (timestamps.length - 1) 0
  else 0

/-- The raw Step-1 value of sample `i`: `0` if `values[0] ≤ 0` else
`min(values[0], deltaTime[0])`, and `max(values[i] - values[i-1], 0)` for
`i ≥ 1`. -/
def rawUptime (startTime : Int) (timestamps uptimeValues : List Int) (i : Nat) : Int :=
  if i = 0 then
    if uptimeValues.getD 0 0 ≤ 0 then 0
    else min (uptimeValues.getD 0 0) (deltaTime startTime timestamps 0)
  else max (uptimeValues.getD i 0 - uptimeValues.getD (i - 1) 0) 0

/-- The Step-1 value that the code computes for sample `i`: as `rawUptime`,
with the difference of the two counter values taken in `int64`. -/
def rawCounted (startTime : Int) (timestamps uptimeValues : List Int) (i : Nat) : Int :=
  if i = 0 then
    if uptimeValues.getD 0 0 ≤ 0 then 0
    else min (uptimeValues.getD 0 0) (deltaTime startTime timestamps 0)
  else max (subInt64 (uptimeValues.getD i 0) (uptimeValues.getD (i - 1) 0)) 0

/-- No difference of consecutive counter values overflows `int64`. -/
def DifferencesFit (uptimeValues : List Int) : Prop :=
  ∀ i, i < uptimeValues.length - 1 →
    -9223372036854775808 ≤ uptimeValues.getD (i + 1) 0 - uptimeValues.getD i 0 ∧
    uptimeValues.getD (i + 1) 0 - uptimeValues.getD i 0 < 9223372036854775808

instance (uptimeValues : List Int) : Decidable (DifferencesFit uptimeValues) :=
  Nat.decidableBallLT _ _

/-- Observation has begun at sample `i`: some `k ≤ i` has `values[k] > 0`. -/
def observed (uptimeValues : List Int) (i : Nat) : Prop :=
  ∃ k, k < i + 1 ∧ 0 < uptimeValues.getD k 0

/-- Sample `i` is not in the trailing run of non-positive readings: some
`k ≥ i` has `values[k] > 0`. -/
def positiveAhead (uptimeValues : List Int) (i : Nat) : Prop :=
  ∃ k, k < uptimeValues.length ∧ (i ≤ k ∧ 0 < uptimeValues.getD k 0)

instance (uptimeValues : List Int) (i : Nat) : Decidable (observed uptimeValues i) :=
  Nat.decidableExistsLT (i + 1)

instance (uptimeValues : List Int) (i : Nat) : Decidable (positiveAhead uptimeValues i) :=
  Nat.decidableExistsLT uptimeValues.length

/-- Sample `i` is counted by Policy-1, given the spread-reconstructed values
`spread`: observation has begun, the sample is not in the trailing run of
non-positive readings, and it is not a non-positive reading whose
reconstructed uptime is positive. -/
def countedByPolicy1 (uptimeValues spread : List Int) (i : Nat) : Prop :=
  observed uptimeValues i ∧ positiveAhead uptimeValues i ∧
    ¬ (uptimeValues.getD i 0 ≤ 0 ∧ 0 < spread.getD i 0)

instance (uptimeValues spread : List Int) (i : Nat) :
    Decidable (countedByPolicy1 uptimeValues spread i) :=
  inferInstanceAs (Decidable (_ ∧ _ ∧ ¬ _))

/-- Before index `k` some sample that is not exception-flagged has a positive
value: the `open` flag of the Policy-2 forward pass has been cleared when
sample `k` is reached. -/
def observedBefore (uptimeValues : List Int) (exceptions : List Bool) (k : Nat) : Prop :=
  ∃ j, j < k ∧ (exceptions.getD j false = false ∧ 0 < uptimeValues.getD j 0)

instance (uptimeValues : List Int) (exceptions : List Bool) (k : Nat) :
    Decidable (observedBefore uptimeValues exceptions k) :=
  Nat.decidableExistsLT k

/-- The value that the Policy-2 forward pass leaves at sample `i`, given the
spread-reconstructed values `spread` and the interval lengths `delta`. -/
def forwardCount2 (uptimeValues spread delta : List Int) (exceptions : List Bool)
    (i : Nat) : Int :=
  if exceptions.getD i false = true then delta.getD i 0
  else if observedBefore uptimeValues exceptions (i + 1) ∧
      ¬ (uptimeValues.getD i 0 ≤ 0 ∧ 0 < spread.getD i 0) then delta.getD i 0
  else 0

/-- The per-sample counted value of Policy-2: the full interval for a flagged
sample; for the others the forward-pass value, zeroed in the trailing run of
non-positive readings. -/
def policy2Count (uptimeValues spread delta : List Int) (exceptions : List Bool)
    (i : Nat) : Int :=
  if exceptions.getD i false = true then delta.getD i 0
  else if positiveAhead uptimeValues i then
    forwardCount2 uptimeValues spread delta exceptions i
  else 0

/-- The per-sample counted value of Policy-1: the full interval for a counted
sample, else `0`. -/
def policy1Count (uptimeValues spread delta : List Int) (i : Nat) : Int :=
  if countedByPolicy1 uptimeValues spread i then delta.getD i 0 else 0

/-- The label of sample `i`: `open` in the trailing run of non-positive
readings, else `up` where the reconstructed uptime is positive and `down`
where it is not. -/
def stateLabel (uptimeValues spread : List Int) (i : Nat) : String :=
  if positiveAhead uptimeValues i then
    if 0 < spread.getD i 0 then StateUp else StateDown
  else StateOpen

/-- What the specification asks of an accumulator, given the sums it divides
and its result: the sums `(n, d)` satisfy `0 ≤ n ≤ d`, the result is
`float64(n) / float64(d)` with no error, and the ratio lies in `[0, 1]`
whenever `d` is not zero. -/
def RatioWithinUnit (sums : Option (Int × Int))
    (result : Option (F64 × Option ArgError)) : Prop :=
  ∃ n d, sums = some (n, d) ∧ 0 ≤ n ∧ n ≤ d ∧ result = some (F64.div n d, none) ∧
    (d ≠ 0 → ∃ q : ℚ, F64.div n d = F64.val q ∧ 0 ≤ q ∧ q ≤ 1)

/-- The sums of an accumulator have `d` as their divisor (second component). -/
def HasDivisor (sums : Option (Int × Int)) (d : Int) : Prop :=
  ∃ n, sums = some (n, d)

/-! ## The example program

The fixture of `_example/example_001.go` and the three arrays its `main`
builds from it. -/

/-- One row of the example data. -/
structure UptimeData where
  Timestamp : Int
  Value : Int
  Exception : Bool

/-- The start of the example window. -/
def Example.startTime : Int := 10000

/-- The end of the example window. -/
def Example.endTime : Int := 13000

/-- The thirty samples of the example. -/
def Example.uptimeSeriesData : List UptimeData :=
  [
    ⟨10100, 0, false⟩,
    ⟨10200, 0, false⟩,
    ⟨10300, 0, false⟩,
    ⟨10400, 0, false⟩,
    ⟨10500, 270, false⟩,
    ⟨10600, 370, false⟩,
    ⟨10700, 470, false⟩,
    ⟨10800, 570, false⟩,
    ⟨10900, 670, false⟩,
    ⟨11000, 40, false⟩,
    ⟨11100, 140, false⟩,
    ⟨11200, 240, false⟩,
    ⟨11300, 340, false⟩,
    ⟨11400, 440, false⟩,
    ⟨11500, 540, false⟩,
    ⟨11600, 0, false⟩,
    ⟨11700, 0, false⟩,
    ⟨11800, 840, false⟩,
    ⟨11900, 940, false⟩,
    ⟨12000, 1040, false⟩,
    ⟨12100, 1140, false⟩,
    ⟨12200, 0, false⟩,
    ⟨12300, 0, false⟩,
    ⟨12400, 0, false⟩,
    ⟨12500, 10, false⟩,
    ⟨12600, 110, false⟩,
    ⟨12700, 210, false⟩,
    ⟨12800, 0, true⟩,
    ⟨12900, 0, true⟩,
    ⟨13000, 0, false⟩
  ]

/-- The `timestamps` array that `main` prepares. -/
def Example.timestamps : List Int :=
  Example.uptimeSeriesData.map fun val => val.Timestamp

/-- The `uptimeVals` array that `main` prepares. -/
def Example.uptimeVals : List Int :=
  Example.uptimeSeriesData.map fun val => val.Value

/-- The `exceptions` array that `main` prepares. -/
def Example.exceptions : List Bool :=
  Example.uptimeSeriesData.map fun val => val.Exception

/-! ## Basic lemmas on loops and slices -/

/-- Invariant rule for `forRange`: an invariant that every iteration
re-establishes (without panicking) holds at the end, and the loop returns. -/
theorem forRange_inv {σ : Type} (body : Nat → σ → Option σ) (Inv : Nat → σ → Prop) :
    ∀ (n i : Nat) (s : σ), Inv i s →
      (∀ k t, i ≤ k → k < i + n → Inv k t → ∃ t', body k t = some t' ∧ Inv (k + 1) t') →
      ∃ t, forRange body n i s = some t ∧ Inv (i + n) t
  | 0, i, s, h, _ => ⟨s, rfl, by simpa using h⟩
  | n + 1, i, s, h, hstep => by
    obtain ⟨t', ht', hInv⟩ := hstep i s (le_refl _) (by omega) h
    obtain ⟨t, ht, hI⟩ := forRange_inv body Inv n (i + 1) t' hInv
      (fun k t hk hk2 hI => hstep k t (by omega) (by omega) hI)
    refine ⟨t, ?_, ?_⟩
    · simp [forRange, ht', ht]
    · have hidx : i + (n + 1) = i + 1 + n := by omega
      rw [hidx]; exact hI

/-- Two loops whose bodies agree on the indices they visit agree. -/
theorem forRange_congr {σ : Type} (f g : Nat → σ → Option σ) :
    ∀ (n i : Nat) (s : σ), (∀ k t, i ≤ k → k < i + n → f k t = g k t) →
      forRange f n i s = forRange g n i s
  | 0, _, _, _ => rfl
  | n + 1, i, s, h => by
    have hfun : forRange f n (i + 1) = forRange g n (i + 1) := by
      funext t
      exact forRange_congr f g n (i + 1) t (fun k t hk hk2 => h k t (by omega) (by omega))
    simp [forRange, h i s (le_refl _) (by omega), hfun]

theorem getElem?_eq_some_getD {α : Type} (xs : List α) (d : α) {i : Nat}
    (h : i < xs.length) : xs[i]? = some (xs.getD i d) := by
  simp [List.getD_eq_getElem?_getD, List.getElem?_eq_getElem h]

theorem getD_of_getElem? {α : Type} (xs : List α) (d : α) {i : Nat} {a : α}
    (h : xs[i]? = some a) : xs.getD i d = a := by
  simp [List.getD_eq_getElem?_getD, h]

theorem getD_set_eq {α : Type} (xs : List α) (d x : α) (i m : Nat) :
    (xs.set i x).getD m d = if m = i ∧ i < xs.length then x else xs.getD m d := by
  simp only [List.getD_eq_getElem?_getD, List.getElem?_set]
  by_cases h : i = m
  · subst h
    by_cases h2 : i < xs.length
    · simp [h2]
    · simp [h2, List.getElem?_eq_none (Nat.le_of_not_lt h2)]
  · have h3 : ¬ m = i := fun e => h e.symm
    simp [h, h3]

theorem getD_append_one {α : Type} (xs : List α) (d x : α) (m : Nat) :
    (xs ++ [x]).getD m d =
      if m < xs.length then xs.getD m d else if m = xs.length then x else d := by
  simp only [List.getD_eq_getElem?_getD, List.getElem?_append]
  by_cases h : m < xs.length
  · simp [h]
  · by_cases h2 : m = xs.length
    · subst h2; simp
    · have h3 : ([x] : List α)[m - xs.length]? = none :=
        List.getElem?_eq_none (by simp; omega)
      simp [h, h2, h3]

theorem getD_map_range {α : Type} (f : Nat → α) (d : α) {n m : Nat} (h : m < n) :
    ((List.range n).map f).getD m d = f m := by
  simp [List.getD_eq_getElem?_getD, List.getElem?_map, List.getElem?_range h]

theorem eq_map_range_of_getD {α : Type} (xs : List α) (d : α) (f : Nat → α) (n : Nat)
    (hlen : xs.length = n) (h : ∀ m, m < n → xs.getD m d = f m) :
    xs = (List.range n).map f := by
  apply List.ext_getElem?
  intro m
  by_cases hm : m < n
  · rw [getElem?_eq_some_getD xs d (by omega), h m hm]
    simp [List.getElem?_map, List.getElem?_range hm]
  · have h1 : xs[m]? = none := List.getElem?_eq_none (by omega)
    have h2 : ((List.range n).map f)[m]? = none :=
      List.getElem?_eq_none (by simp; omega)
    rw [h1, h2]

theorem setAt_eq_some {α : Type} (xs : List α) (x : α) {i : Nat} (h : i < xs.length) :
    setAt xs i x = some (xs.set i x) := by
  simp [setAt, h]

/-! ## Validation -/

theorem unorderedDetected_false (ts : List Int) :
    unorderedDetected ts = false ↔
      ∀ i, i + 1 < ts.length → ts.getD i 0 ≤ ts.getD (i + 1) 0 := by
  induction ts with
  | nil => simp [unorderedDetected]
  | cons a t ih =>
    cases t with
    | nil => simp [unorderedDetected]
    | cons b r =>
      constructor
      · intro h i hi
        by_cases hba : b < a
        · simp [unorderedDetected, hba] at h
        · simp only [unorderedDetected, hba, if_false] at h
          cases i with
          | zero => simpa using not_lt.mp hba
          | succ k =>
            have hk := (ih.mp h) k (by simpa using hi)
            simpa using hk
      · intro h
        have h0 := h 0 (by simp)
        have hba : ¬ b < a := not_lt.mpr (by simpa using h0)
        simp only [unorderedDetected, hba, if_false]
        apply ih.mpr
        intro k hk
        have := h (k + 1) (by simpa using hk)
        simpa using this

/-- What an accepted input satisfies. -/
theorem checkArguments_none_iff (startTime endTime : Int) (timestamps uptimeValues : List Int)
    (exceptions : Option (List Bool)) :
    checkArguments startTime endTime timestamps uptimeValues exceptions = none ↔
      0 ≤ startTime ∧ 0 ≤ endTime ∧ 0 < timestamps.length ∧
      startTime ≤ timestamps.getD 0 0 ∧
      timestamps.getD (timestamps.length - 1) 0 ≤ endTime ∧
      timestamps.length = uptimeValues.length ∧
      (∀ ex, exceptions = some ex → timestamps.length = ex.length) ∧
      (∀ i, i + 1 < timestamps.length → timestamps.getD i 0 ≤ timestamps.getD (i + 1) 0) := by
  rw [← unorderedDetected_false]
  unfold checkArguments
  generalize timestamps.getD 0 0 = t0
  generalize timestamps.getD (timestamps.length - 1) 0 = tl
  generalize unorderedDetected timestamps = u
  generalize timestamps.length = n
  generalize uptimeValues.length = m
  cases exceptions with
  | none =>
    split_ifs <;> simp_all <;> omega
  | some ex =>
    generalize hk : ex.length = k
    have hex : ∀ ex' : List Bool, ex = ex' → ex'.length = k := fun _ h => h ▸ hk
    split_ifs <;> simp_all <;> omega

/-- An input accepted with some exceptions argument is accepted without one. -/
theorem checkArguments_none_of_none {startTime endTime : Int} {timestamps uptimeValues : List Int}
    {exceptions : Option (List Bool)}
    (h : checkArguments startTime endTime timestamps uptimeValues exceptions = none) :
    checkArguments startTime endTime timestamps uptimeValues none = none := by
  rw [checkArguments_none_iff] at h ⊢
  obtain ⟨h1, h2, h3, h4, h5, h6, -, h8⟩ := h
  exact ⟨h1, h2, h3, h4, h5, h6, by simp, h8⟩

/-! ## Closed forms of the reconstruction loops -/

theorem read_lt {α : Type} (xs : List α) (d : α) {i : Nat} (h : i < xs.length) :
    ∃ a, xs[i]? = some a ∧ xs.getD i d = a :=
  ⟨xs.getD i d, getElem?_eq_some_getD xs d h, rfl⟩

theorem spreadStep1_eq (startTime : Int) (ts vs : List Int) (hlen : ts.length = vs.length)
    (k : Nat) (hk : k < ts.length) (s : List Int × List Int) :
    spreadStep1 startTime ts vs k s =
      some (s.1 ++ [deltaTime startTime ts k], s.2 ++ [rawCounted startTime ts vs k]) := by
  obtain ⟨a, h1, h1'⟩ := read_lt ts 0 hk
  obtain ⟨v, h2, h2'⟩ := read_lt vs 0 (hlen ▸ hk)
  cases k with
  | zero =>
    simp only [spreadStep1, h1, h2, h1', h2', deltaTime, rawCounted, if_true,
      Option.bind_eq_bind, Option.some_bind]
    by_cases hv : v ≤ 0
    · simp [hv]
    · by_cases hd : v > a - startTime
      · simp [hv, hd, min_eq_right (le_of_lt hd)]
      · simp [hv, hd, min_eq_left (not_lt.mp hd)]
  | succ j =>
    obtain ⟨b, h3, h3'⟩ := read_lt ts 0 (show j < ts.length by omega)
    obtain ⟨w, h4, h4'⟩ := read_lt vs 0 (show j < vs.length by omega)
    simp only [spreadStep1, h1, h2, h3, h4, h1', h2', h3', h4', deltaTime, rawCounted,
      Nat.add_sub_cancel, Option.bind_eq_bind, Option.some_bind, Nat.succ_ne_zero, if_false]
    by_cases hv : subInt64 v w ≤ 0
    · simp [hv]
    · simp [hv, max_eq_left (le_of_lt (not_le.mp hv))]

/-- Closed form of the first loop of `transformToSpreadedUptime`. -/
theorem spreadRaw_eq (startTime : Int) (ts vs : List Int) (hlen : ts.length = vs.length) :
    spreadRaw startTime ts vs =
      some ((List.range ts.length).map (deltaTime startTime ts),
        (List.range ts.length).map (rawCounted startTime ts vs)) := by
  obtain ⟨t, ht, hI⟩ := forRange_inv (spreadStep1 startTime ts vs)
    (fun k s => s = ((List.range k).map (deltaTime startTime ts),
        (List.range k).map (rawCounted startTime ts vs)))
    ts.length 0 ([], []) (by simp)
    (by
      intro k t _ hk hI
      refine ⟨_, spreadStep1_eq startTime ts vs hlen k (by omega) t, ?_⟩
      subst hI
      simp [List.range_succ])
  rw [Nat.zero_add] at hI
  rw [spreadRaw, ht, hI]

theorem snmpStep_eq (startTime : Int) (ts vs : List Int) (hlen : ts.length = vs.length)
    (k : Nat) (hk : k < ts.length) (s : List Int × List Int) :
    snmpStep startTime ts vs k s =
      some (s.1 ++ [deltaTime startTime ts k],
        s.2 ++ [if 0 < vs.getD k 0 then deltaTime startTime ts k else 0]) := by
  obtain ⟨a, h1, h1'⟩ := read_lt ts 0 hk
  obtain ⟨v, h2, h2'⟩ := read_lt vs 0 (hlen ▸ hk)
  cases k with
  | zero =>
    simp only [snmpStep, h1, h2, h1', h2', deltaTime, if_true, Option.bind_eq_bind,
      Option.some_bind]
    by_cases hv : v ≤ 0
    · simp [hv, not_lt.mpr hv]
    · simp [hv, not_le.mp hv]
  | succ j =>
    obtain ⟨b, h3, h3'⟩ := read_lt ts 0 (show j < ts.length by omega)
    simp only [snmpStep, h1, h2, h3, h1', h2', h3', deltaTime, Nat.add_sub_cancel,
      Option.bind_eq_bind, Option.some_bind, Nat.succ_ne_zero, if_false]
    by_cases hv : v ≤ 0
    · simp [hv, not_lt.mpr hv]
    · simp [hv, not_le.mp hv]

/-- Closed form of the reconstruction loop of `CalculateSNMPAvailability`. -/
theorem snmpLoop_eq (startTime : Int) (ts vs : List Int) (hlen : ts.length = vs.length) :
    forRange (snmpStep startTime ts vs) ts.length 0 ([], []) =
      some ((List.range ts.length).map (deltaTime startTime ts),
        (List.range ts.length).map
          (fun i => if 0 < vs.getD i 0 then deltaTime startTime ts i else 0)) := by
  obtain ⟨t, ht, hI⟩ := forRange_inv (snmpStep startTime ts vs)
    (fun k s => s = ((List.range k).map (deltaTime startTime ts),
        (List.range k).map
          (fun i => if 0 < vs.getD i 0 then deltaTime startTime ts i else 0)))
    ts.length 0 ([], []) (by simp)
    (by
      intro k t _ hk hI
      refine ⟨_, snmpStep_eq startTime ts vs hlen k (by omega) t, ?_⟩
      subst hI
      simp [List.range_succ])
  rw [Nat.zero_add] at hI
  rw [ht, hI]

/-! ## The redistribution loop -/

/-- The inner backward loop of the redistribution returns, keeps the length
and the non-negativity, bounds every position up to its start index and leaves
the positions after it unchanged. -/
theorem pushBack_spec (d : List Int) :
    ∀ (j : Nat) (c : List Int), c.length = d.length → j < c.length →
      (∀ m, m < d.length → 0 ≤ d.getD m 0) →
      (∀ m, m < c.length → 0 ≤ c.getD m 0) →
      (∀ m, m < j → c.getD m 0 ≤ d.getD m 0) →
      ∃ c', pushBack d j c = some c' ∧ c'.length = c.length ∧
        (∀ m, m < c.length → 0 ≤ c'.getD m 0) ∧
        (∀ m, m ≤ j → c'.getD m 0 ≤ d.getD m 0) ∧
        (∀ m, j < m → c'.getD m 0 = c.getD m 0)
  | 0, c, hlen, hj, hd, hc, _ => by
    obtain ⟨c0, h1, h1'⟩ := read_lt c 0 hj
    obtain ⟨d0, h2, h2'⟩ := read_lt d 0 (hlen ▸ hj)
    by_cases hgt : c0 > d0
    · refine ⟨c.set 0 d0, ?_, by simp, ?_, ?_, ?_⟩
      · simp [pushBack, h1, h2, hgt, setAt_eq_some c d0 hj]
      · intro m hm
        rw [getD_set_eq]
        split_ifs with h
        · have := hd 0 (hlen ▸ hj); omega
        · exact hc m hm
      · intro m hm
        have hm0 : m = 0 := by omega
        subst hm0
        rw [getD_set_eq, h2']
        simp [hj]
      · intro m hm
        rw [getD_set_eq]
        have hne : ¬ (m = 0 ∧ 0 < c.length) := by omega
        simp [hne]
    · refine ⟨c, ?_, rfl, hc, ?_, fun _ _ => rfl⟩
      · simp [pushBack, h1, h2, hgt]
      · intro m hm
        have hm0 : m = 0 := by omega
        subst hm0
        rw [h1', h2']; exact not_lt.mp hgt
  | j + 1, c, hlen, hj, hd, hc, hb => by
    obtain ⟨cj, h1, h1'⟩ := read_lt c 0 hj
    obtain ⟨dj, h2, h2'⟩ := read_lt d 0 (hlen ▸ hj)
    have hdj : 0 ≤ dj := h2' ▸ hd (j + 1) (hlen ▸ hj)
    by_cases hgt : cj > dj
    · have hj0 : j < c.length := by omega
      have hget : ∀ m, ((c.set j (cj - dj)).set (j + 1) dj).getD m 0 =
          if m = j + 1 then dj else if m = j then cj - dj else c.getD m 0 := by
        intro m
        rw [getD_set_eq, getD_set_eq]
        simp only [List.length_set, hj, hj0, and_true]
      obtain ⟨c', hc', hl', hn', hb', hu'⟩ := pushBack_spec d j
        ((c.set j (cj - dj)).set (j + 1) dj) (by simpa using hlen) (by simpa using hj0) hd
        (by
          intro m hm
          rw [hget]
          split_ifs with e1 e2
          · exact hdj
          · omega
          · exact hc m (by simpa using hm))
        (by
          intro m hm
          rw [hget]
          have e1 : ¬ m = j + 1 := by omega
          have e2 : ¬ m = j := by omega
          simp only [e1, e2, if_false]
          exact hb m (by omega))
      refine ⟨c', ?_, by simpa using hl', ?_, ?_, ?_⟩
      · simp [pushBack, h1, h2, hgt, setAt_eq_some c (cj - dj) hj0,
          setAt_eq_some (c.set j (cj - dj)) dj (by simpa using hj), hc']
      · intro m hm
        exact hn' m (by simpa using hm)
      · intro m hm
        by_cases hmj : m ≤ j
        · exact hb' m hmj
        · have e : m = j + 1 := by omega
          subst e
          rw [hu' (j + 1) (by omega), hget, h2']
          simp
      · intro m hm
        rw [hu' m (by omega), hget]
        have e1 : ¬ m = j + 1 := by omega
        have e2 : ¬ m = j := by omega
        simp only [e1, e2, if_false]
    · refine ⟨c, ?_, rfl, hc, ?_, fun _ _ => rfl⟩
      · simp [pushBack, h1, h2, hgt]
      · intro m hm
        by_cases hmj : m < j + 1
        · exact hb m hmj
        · have e : m = j + 1 := by omega
          subst e
          rw [h1', h2']; exact not_lt.mp hgt

/-- The redistribution loop returns an array of the same length whose every
entry lies between `0` and the interval length. -/
theorem spreadLoop2_spec (d c : List Int) (hlen : c.length = d.length)
    (hd : ∀ m, m < d.length → 0 ≤ d.getD m 0)
    (hc : ∀ m, m < c.length → 0 ≤ c.getD m 0) :
    ∃ c', forRange (spreadStep2 d) d.length 0 c = some c' ∧ c'.length = d.length ∧
      ∀ m, m < d.length → 0 ≤ c'.getD m 0 ∧ c'.getD m 0 ≤ d.getD m 0 := by
  obtain ⟨t, ht, hI⟩ := forRange_inv (spreadStep2 d)
    (fun k x => x.length = d.length ∧ (∀ m, m < d.length → 0 ≤ x.getD m 0) ∧
      (∀ m, m < k → x.getD m 0 ≤ d.getD m 0))
    d.length 0 c ⟨hlen, fun m hm => hc m (hlen ▸ hm), fun m hm => absurd hm (by omega)⟩
    (by
      intro k x _ hk ⟨hxl, hxn, hxb⟩
      have hkx : k < x.length := by omega
      obtain ⟨ck, h1, h1'⟩ := read_lt x 0 hkx
      obtain ⟨dk, h2, h2'⟩ := read_lt d 0 (show k < d.length by omega)
      by_cases hgt : ck > dk
      · obtain ⟨c', hc', hl', hn', hb', -⟩ := pushBack_spec d k x hxl hkx hd
          (fun m hm => hxn m (hxl ▸ hm)) hxb
        refine ⟨c', ?_, by omega, fun m hm => hn' m (by omega), fun m hm => hb' m (by omega)⟩
        simp [spreadStep2, h1, h2, hgt, hc']
      · refine ⟨x, ?_, hxl, hxn, ?_⟩
        · simp [spreadStep2, h1, h2, hgt]
        · intro m hm
          by_cases hmk : m < k
          · exact hxb m hmk
          · have e : m = k := by omega
            subst e
            rw [h1', h2']; exact not_lt.mp hgt)
  rw [Nat.zero_add] at hI
  exact ⟨t, ht, hI.1, fun m hm => ⟨hI.2.1 m hm, hI.2.2 m hm⟩⟩

/-! ## The spread reconstruction on accepted input -/

theorem deltaTimes_length (startTime : Int) (ts : List Int) :
    (deltaTimes startTime ts).length = ts.length := by
  simp [deltaTimes]

theorem deltaTimes_getD (startTime : Int) (ts : List Int) {m : Nat} (hm : m < ts.length) :
    (deltaTimes startTime ts).getD m 0 = deltaTime startTime ts m :=
  getD_map_range _ 0 hm

theorem deltaTime_nonneg {startTime endTime : Int} {ts vs : List Int}
    {ex : Option (List Bool)} (h : checkArguments startTime endTime ts vs ex = none)
    {m : Nat} (hm : m < ts.length) : 0 ≤ deltaTime startTime ts m := by
  rw [checkArguments_none_iff] at h
  obtain ⟨-, -, -, h4, -, -, -, h8⟩ := h
  cases m with
  | zero => simp only [deltaTime, if_true]; omega
  | succ k =>
    have := h8 k hm
    simp only [deltaTime, Nat.succ_ne_zero, if_false, Nat.add_sub_cancel]; omega

theorem rawCounted_nonneg {startTime endTime : Int} {ts vs : List Int}
    {ex : Option (List Bool)} (h : checkArguments startTime endTime ts vs ex = none)
    (m : Nat) : 0 ≤ rawCounted startTime ts vs m := by
  cases m with
  | zero =>
    have hd : 0 ≤ deltaTime startTime ts 0 :=
      deltaTime_nonneg h ((checkArguments_none_iff _ _ _ _ _).mp h).2.2.1
    simp only [rawCounted, if_true]
    split_ifs with hv
    · exact le_refl _
    · exact le_min (le_of_lt (not_le.mp hv)) hd
  | succ k =>
    simp only [rawCounted, Nat.succ_ne_zero, if_false]
    exact le_max_right _ _

/-- On accepted input the spread reconstruction returns the interval lengths
and counted values between `0` and the interval length. -/
theorem transform_spec {startTime endTime : Int} {ts vs : List Int}
    {ex : Option (List Bool)} (h : checkArguments startTime endTime ts vs ex = none) :
    ∃ c, transformToSpreadedUptime startTime endTime ts vs =
        some (deltaTimes startTime ts, c) ∧ c.length = ts.length ∧
      ∀ m, m < ts.length → 0 ≤ c.getD m 0 ∧ c.getD m 0 ≤ deltaTime startTime ts m := by
  have hlen : ts.length = vs.length := ((checkArguments_none_iff _ _ _ _ _).mp h).2.2.2.2.2.1
  have hraw := spreadRaw_eq startTime ts vs hlen
  obtain ⟨c, hc, hcl, hcb⟩ := spreadLoop2_spec (deltaTimes startTime ts)
    ((List.range ts.length).map (rawCounted startTime ts vs))
    (by simp [deltaTimes])
    (by
      intro m hm
      rw [deltaTimes_length] at hm
      rw [deltaTimes_getD startTime ts hm]
      exact deltaTime_nonneg h hm)
    (by
      intro m hm
      rw [getD_map_range _ 0 (by simpa using hm)]
      exact rawCounted_nonneg h m)
  rw [deltaTimes_length] at hc hcl hcb
  refine ⟨c, ?_, hcl, ?_⟩
  · have hc2 : forRange (spreadStep2 (deltaTimes startTime ts)) ts.length 0
        ((List.range ts.length).map (rawCounted startTime ts vs)) = some c := hc
    simp only [transformToSpreadedUptime, hraw, Option.bind_eq_bind, Option.some_bind]
    change (forRange (spreadStep2 (deltaTimes startTime ts)) (deltaTimes startTime ts).length 0
        ((List.range ts.length).map (rawCounted startTime ts vs))).bind _ = _
    rw [deltaTimes_length, hc2]
    rfl
  · intro m hm
    have := hcb m hm
    rwa [deltaTimes_getD startTime ts hm] at this

/-! ## The finishing protocol -/

/-- The summing loop returns the two sums. -/
theorem sumLoop_eq (ds cs : List Int) (hlen : cs.length = ds.length) :
    sumLoop (ds, cs) = some (cs.sum, ds.sum) := by
  obtain ⟨t, ht, hI⟩ := forRange_inv (sumStep ds cs)
    (fun k x => x = ((cs.take k).sum, (ds.take k).sum))
    cs.length 0 (0, 0) (by simp)
    (by
      intro k x _ hk hI
      have hkc : k < cs.length := by omega
      have hkd : k < ds.length := by omega
      refine ⟨(x.1 + cs[k], x.2 + ds[k]), ?_, ?_⟩
      · simp [sumStep, List.getElem?_eq_getElem hkc, List.getElem?_eq_getElem hkd]
      · subst hI
        simp [List.sum_take_succ cs k hkc, List.sum_take_succ ds k hkd])
  rw [Nat.zero_add] at hI
  have hd : ds.take cs.length = ds := by rw [hlen]; exact List.take_length ds
  simp only [sumLoop, ht, hI, List.take_length, hd]

theorem appendTrailing_eq (endTime : Int) (ts : List Int) (hpos : 0 < ts.length)
    (s : List Int × List Int) :
    appendTrailing endTime ts s =
      some (if endTime - ts.getD (ts.length - 1) 0 > 0 then
        (s.1 ++ [endTime - ts.getD (ts.length - 1) 0], s.2 ++ [0]) else s) := by
  obtain ⟨n, hn⟩ : ∃ n, ts.length = n + 1 := ⟨ts.length - 1, by omega⟩
  obtain ⟨a, h1, h1'⟩ := read_lt ts 0 (show n < ts.length by omega)
  unfold appendTrailing
  rw [hn]
  simp only [Nat.add_sub_cancel, h1, h1', Option.bind_eq_bind, Option.some_bind]
  split_ifs <;> rfl

/-- The two sums that an accumulator divides, from its per-sample arrays. -/
theorem finish_eq (endTime : Int) (ts : List Int) (hpos : 0 < ts.length)
    (d c : List Int) (hlen : c.length = d.length) :
    (appendTrailing endTime ts (d, c)).bind sumLoop =
      some (c.sum, d.sum + trailingTime endTime ts) := by
  rw [appendTrailing_eq endTime ts hpos, Option.some_bind]
  unfold trailingTime
  split_ifs with h
  · rw [sumLoop_eq _ _ (by simp [hlen])]
    simp
  · rw [sumLoop_eq _ _ hlen]
    simp

theorem sum_deltaTime_range (startTime : Int) (ts : List Int) :
    ∀ n, ((List.range (n + 1)).map (deltaTime startTime ts)).sum =
      ts.getD n 0 - startTime
  | 0 => by simp [deltaTime, List.range_succ]
  | n + 1 => by
    rw [List.range_succ, List.map_append, List.sum_append, sum_deltaTime_range startTime ts n]
    simp only [List.map_cons, List.map_nil, List.sum_cons, List.sum_nil, deltaTime,
      Nat.succ_ne_zero, if_false, Nat.add_sub_cancel]
    omega

/-- The interval lengths telescope: with the trailing interval they add up to
the length of the window. -/
theorem total_eq {startTime endTime : Int} {ts vs : List Int}
    {ex : Option (List Bool)} (h : checkArguments startTime endTime ts vs ex = none) :
    (deltaTimes startTime ts).sum + trailingTime endTime ts = endTime - startTime := by
  rw [checkArguments_none_iff] at h
  obtain ⟨-, -, h3, -, h5, -, -, -⟩ := h
  obtain ⟨n, hn⟩ : ∃ n, ts.length = n + 1 := ⟨ts.length - 1, by omega⟩
  unfold deltaTimes trailingTime
  rw [hn, sum_deltaTime_range]
  rw [hn] at h5
  simp only [Nat.add_sub_cancel] at h5 ⊢
  split_ifs <;> omega

/-! ## The forward passes of Policy-1 and Policy-2 -/

theorem sla1Step_eq (vs ds xs : List Int) (o : Bool) (k : Nat) (hv : k < vs.length)
    (hd : k < ds.length) (hx : k < xs.length) :
    sla1Step vs ds k (o, xs) =
      some (o && decide (vs.getD k 0 ≤ 0),
        xs.set k (if (o && decide (vs.getD k 0 ≤ 0)) = true then 0
          else if vs.getD k 0 ≤ 0 ∧ 0 < xs.getD k 0 then 0 else ds.getD k 0)) := by
  obtain ⟨v, h1, h1'⟩ := read_lt vs 0 hv
  obtain ⟨dk, h2, h2'⟩ := read_lt ds 0 hd
  obtain ⟨xk, h3, h3'⟩ := read_lt xs 0 hx
  rw [h1', h2', h3']
  unfold sla1Step
  simp only [h1, h2, h3, Option.bind_eq_bind, Option.some_bind]
  cases o <;> by_cases hv0 : v ≤ 0 <;> by_cases hx0 : 0 < xk <;>
    simp [hv0, hx0, not_lt.mpr, not_le.mp, setAt_eq_some xs _ hx]

theorem sla2Step_eq (vs ds xs : List Int) (ex : List Bool) (o : Bool) (k : Nat)
    (he : k < ex.length) (hd : k < ds.length) (hx : k < xs.length) :
    sla2Step vs ds ex k (o, xs) =
      if ex.getD k false = true then some (o, xs.set k (ds.getD k 0))
      else sla1Step vs ds k (o, xs) := by
  obtain ⟨e, h1, h1'⟩ := read_lt ex false he
  obtain ⟨dk, h2, h2'⟩ := read_lt ds 0 hd
  rw [h1', h2']
  unfold sla2Step
  simp only [h1, h2, Option.bind_eq_bind, Option.some_bind]
  cases e <;> simp [setAt_eq_some xs _ hx]

theorem observedBefore_succ (vs : List Int) (ex : List Bool) (k : Nat) :
    observedBefore vs ex (k + 1) ↔
      observedBefore vs ex k ∨ (ex.getD k false = false ∧ 0 < vs.getD k 0) := by
  constructor
  · rintro ⟨j, hj, hp⟩
    by_cases hjk : j < k
    · exact Or.inl ⟨j, hjk, hp⟩
    · have e : j = k := by omega
      subst e
      exact Or.inr hp
  · rintro (⟨j, hj, hp⟩ | hp)
    · exact ⟨j, by omega, hp⟩
    · exact ⟨k, by omega, hp⟩

/-- The forward pass of Policy-2 returns, and leaves `forwardCount2` at every
sample. -/
theorem sla2Forward_spec (vs ds c0 : List Int) (ex : List Bool) (n : Nat)
    (hv : vs.length = n) (hd : ds.length = n) (hc : c0.length = n) (he : ex.length = n) :
    ∃ r, forRange (sla2Step vs ds ex) n 0 (true, c0) = some r ∧ r.2.length = n ∧
      ∀ m, m < n → r.2.getD m 0 = forwardCount2 vs c0 ds ex m := by
  obtain ⟨t, ht, hI⟩ := forRange_inv (sla2Step vs ds ex)
    (fun k r => r.2.length = n ∧ (r.1 = true ↔ ¬ observedBefore vs ex k) ∧
      ∀ m, r.2.getD m 0 = if m < k then forwardCount2 vs c0 ds ex m else c0.getD m 0)
    n 0 (true, c0)
    ⟨hc, by simp [observedBefore], fun m => by simp⟩
    (by
      rintro k ⟨o, xs⟩ _ hk ⟨hxl, hxo, hxv⟩
      simp only at hxl hxo hxv
      have hkn : k < n := by omega
      rw [sla2Step_eq vs ds xs ex o k (by omega) (by omega) (by omega)]
      by_cases hek : ex.getD k false = true
      · refine ⟨(o, xs.set k (ds.getD k 0)), by rw [if_pos hek], by simpa using hxl, ?_, ?_⟩
        · rw [observedBefore_succ]
          simp only [hek, Bool.true_eq_false, false_and, or_false]
          exact hxo
        · intro m
          simp only
          rw [getD_set_eq, hxv m]
          by_cases hmk : m = k
          · subst hmk
            simp [-List.getD_eq_getElem?_getD, hxl, hkn, forwardCount2, hek]
          · by_cases hlt : m < k
            · have : m < k + 1 := by omega
              simp [hmk, hlt, this]
            · have : ¬ m < k + 1 := by omega
              simp [hmk, hlt, this]
      · rw [if_neg hek, sla1Step_eq vs ds xs o k (by omega) (by omega) (by omega)]
        have hef : ex.getD k false = false := by simpa using hek
        have hobs : (o && decide (vs.getD k 0 ≤ 0)) = true ↔
            ¬ observedBefore vs ex (k + 1) := by
          rw [observedBefore_succ]
          simp only [Bool.and_eq_true, decide_eq_true_eq, hxo, hef, true_and, not_or, not_lt]
        refine ⟨_, rfl, by simpa using hxl, hobs, ?_⟩
        intro m
        simp only
        rw [getD_set_eq, hxv m]
        by_cases hmk : m = k
        · subst hmk
          have hxm := hxv m
          simp only [lt_irrefl, if_false] at hxm
          rw [hxm]
          by_cases ho : (o && decide (vs.getD m 0 ≤ 0)) = true
          · have hno := hobs.mp ho
            simp [-List.getD_eq_getElem?_getD, hxl, hkn, forwardCount2, hef, ho, hno]
          · have hyes : observedBefore vs ex (m + 1) := by
              by_contra hcon
              exact ho (hobs.mpr hcon)
            simp only [hxl, hkn, and_self, if_true, ho, Bool.false_eq_true, if_false,
              forwardCount2, hef, hyes, true_and, Nat.lt_succ_self]
            split_ifs <;> rfl
        · by_cases hlt : m < k
          · have : m < k + 1 := by omega
            simp [hmk, hlt, this]
          · have : ¬ m < k + 1 := by omega
            simp [hmk, hlt, this])
  rw [Nat.zero_add] at hI
  refine ⟨t, ht, hI.1, ?_⟩
  intro m hm
  rw [hI.2.2 m, if_pos hm]

/-! ## The open-end corrections -/

/-- The open-end loop started at `i` returns, writes `x` at every position of
the run of non-positive values that ends at `i`, and changes nothing else. -/
theorem correctOpenEnd_spec {α : Type} (vs : List Int) (x d : α) :
    ∀ (i : Nat) (arr : List α), i < arr.length → i < vs.length →
      ∃ arr', correctOpenEnd vs x i arr = some arr' ∧ arr'.length = arr.length ∧
        (∀ m, m ≤ i → (∀ k, m ≤ k → k ≤ i → vs.getD k 0 ≤ 0) → arr'.getD m d = x) ∧
        (∀ m, ¬ (m ≤ i ∧ ∀ k, m ≤ k → k ≤ i → vs.getD k 0 ≤ 0) →
          arr'.getD m d = arr.getD m d)
  | 0, arr, ha, hv => by
    obtain ⟨v, h1, h1'⟩ := read_lt vs 0 hv
    by_cases hv0 : v ≤ 0
    · refine ⟨arr.set 0 x, ?_, by simp, ?_, ?_⟩
      · simp [correctOpenEnd, h1, hv0, setAt_eq_some arr x ha]
      · intro m hm _
        have e : m = 0 := by omega
        subst e
        rw [getD_set_eq]; simp [ha]
      · intro m hm
        rw [getD_set_eq]
        have hne : ¬ m = 0 := by
          intro e
          subst e
          apply hm
          refine ⟨le_refl _, ?_⟩
          intro k hk1 hk2
          have e2 : k = 0 := by omega
          subst e2
          rw [h1']; exact hv0
        simp [hne]
    · refine ⟨arr, ?_, rfl, ?_, fun _ _ => rfl⟩
      · simp [correctOpenEnd, h1, hv0]
      · intro m hm hrun
        have := hrun 0 (by omega) (le_refl _)
        rw [h1'] at this
        exact absurd this hv0
  | i + 1, arr, ha, hv => by
    obtain ⟨v, h1, h1'⟩ := read_lt vs 0 hv
    by_cases hv0 : v ≤ 0
    · obtain ⟨arr', h', hl', hx', hu'⟩ := correctOpenEnd_spec vs x d i (arr.set (i + 1) x)
        (by simp; omega) (by omega)
      refine ⟨arr', ?_, by simpa using hl', ?_, ?_⟩
      · have hnn : ¬ ((i : Int) + 1 < 0) := by omega
        simp [correctOpenEnd, h1, hv0, setAt_eq_some arr x ha, h', hnn]
      · intro m hm hrun
        by_cases hmi : m ≤ i
        · exact hx' m hmi (fun k hk1 hk2 => hrun k hk1 (by omega))
        · have e : m = i + 1 := by omega
          subst e
          rw [hu' (i + 1) (by omega), getD_set_eq]
          simp [ha]
      · intro m hm
        have hne : ¬ m = i + 1 := by
          intro e
          subst e
          apply hm
          refine ⟨le_refl _, ?_⟩
          intro k hk1 hk2
          have e2 : k = i + 1 := by omega
          subst e2
          rw [h1']; exact hv0
        have hnot : ¬ (m ≤ i ∧ ∀ k, m ≤ k → k ≤ i → vs.getD k 0 ≤ 0) := by
          rintro ⟨hmi, hrun⟩
          apply hm
          refine ⟨by omega, ?_⟩
          intro k hk1 hk2
          by_cases hki : k ≤ i
          · exact hrun k hk1 hki
          · have e2 : k = i + 1 := by omega
            subst e2
            rw [h1']; exact hv0
        rw [hu' m hnot, getD_set_eq]
        simp [hne]
    · refine ⟨arr, ?_, rfl, ?_, fun _ _ => rfl⟩
      · simp [correctOpenEnd, h1, hv0]
      · intro m hm hrun
        have := hrun (i + 1) hm (le_refl _)
        rw [h1'] at this
        exact absurd this hv0

/-- The open-end loop of Policy-2 started at `i` returns, writes `0` at every
unflagged position of the run of non-positive values that ends at `i`, and
changes nothing else. -/
theorem correctOpenEnd2_spec (vs : List Int) (ex : List Bool) :
    ∀ (i : Nat) (arr : List Int), i < arr.length → i < vs.length → i < ex.length →
      ∃ arr', correctOpenEnd2 vs ex i arr = some arr' ∧ arr'.length = arr.length ∧
        (∀ m, m ≤ i → (∀ k, m ≤ k → k ≤ i → vs.getD k 0 ≤ 0) →
          ex.getD m false = false → arr'.getD m 0 = 0) ∧
        (∀ m, ¬ (m ≤ i ∧ (∀ k, m ≤ k → k ≤ i → vs.getD k 0 ≤ 0) ∧
          ex.getD m false = false) → arr'.getD m 0 = arr.getD m 0)
  | 0, arr, ha, hv, he => by
    obtain ⟨v, h1, h1'⟩ := read_lt vs 0 hv
    obtain ⟨e, h2, h2'⟩ := read_lt ex false he
    by_cases hv0 : v ≤ 0
    · cases e with
      | true =>
        refine ⟨arr, ?_, rfl, ?_, fun _ _ => rfl⟩
        · simp [correctOpenEnd2, h1, h2, hv0]
        · intro m hm _ hex
          have e0 : m = 0 := by omega
          subst e0
          rw [h2'] at hex
          exact absurd hex (by decide)
      | false =>
        refine ⟨arr.set 0 0, ?_, by simp, ?_, ?_⟩
        · simp [correctOpenEnd2, h1, h2, hv0, setAt_eq_some arr 0 ha]
        · intro m hm _ _
          have e0 : m = 0 := by omega
          subst e0
          rw [getD_set_eq]; simp [ha]
        · intro m hm
          rw [getD_set_eq]
          have hne : ¬ m = 0 := by
            intro e0
            subst e0
            apply hm
            refine ⟨le_refl _, ?_, h2'⟩
            intro k hk1 hk2
            have e2 : k = 0 := by omega
            subst e2
            rw [h1']; exact hv0
          simp [hne]
    · refine ⟨arr, ?_, rfl, ?_, fun _ _ => rfl⟩
      · simp [correctOpenEnd2, h1, hv0]
      · intro m hm hrun _
        have := hrun 0 (by omega) (le_refl _)
        rw [h1'] at this
        exact absurd this hv0
  | i + 1, arr, ha, hv, he => by
    obtain ⟨v, h1, h1'⟩ := read_lt vs 0 hv
    obtain ⟨e, h2, h2'⟩ := read_lt ex false he
    by_cases hv0 : v ≤ 0
    · have hext : ∀ m, (m ≤ i ∧ (∀ k, m ≤ k → k ≤ i → vs.getD k 0 ≤ 0) ∧
          ex.getD m false = false) →
          (m ≤ i + 1 ∧ (∀ k, m ≤ k → k ≤ i + 1 → vs.getD k 0 ≤ 0) ∧
            ex.getD m false = false) := by
        rintro m ⟨hmi, hrun, hex⟩
        refine ⟨by omega, ?_, hex⟩
        intro k hk1 hk2
        by_cases hki : k ≤ i
        · exact hrun k hk1 hki
        · have e2 : k = i + 1 := by omega
          subst e2
          rw [h1']; exact hv0
      cases e with
      | true =>
        obtain ⟨arr', h', hl', hx', hu'⟩ := correctOpenEnd2_spec vs ex i arr
          (by omega) (by omega) (by omega)
        refine ⟨arr', ?_, hl', ?_, ?_⟩
        · have hnn : ¬ ((i : Int) + 1 < 0) := by omega
          simp [correctOpenEnd2, h1, h2, hv0, h', hnn]
        · intro m hm hrun hex
          by_cases hmi : m ≤ i
          · exact hx' m hmi (fun k hk1 hk2 => hrun k hk1 (by omega)) hex
          · have e0 : m = i + 1 := by omega
            subst e0
            rw [h2'] at hex
            exact absurd hex (by decide)
        · intro m hm
          exact hu' m (fun hcon => hm (hext m hcon))
      | false =>
        obtain ⟨arr', h', hl', hx', hu'⟩ := correctOpenEnd2_spec vs ex i (arr.set (i + 1) 0)
          (by simp; omega) (by omega) (by omega)
        refine ⟨arr', ?_, by simpa using hl', ?_, ?_⟩
        · have hnn : ¬ ((i : Int) + 1 < 0) := by omega
          simp [correctOpenEnd2, h1, h2, hv0, setAt_eq_some arr 0 ha, h', hnn]
        · intro m hm hrun hex
          by_cases hmi : m ≤ i
          · exact hx' m hmi (fun k hk1 hk2 => hrun k hk1 (by omega)) hex
          · have e0 : m = i + 1 := by omega
            subst e0
            rw [hu' (i + 1) (by omega), getD_set_eq]
            simp [ha]
        · intro m hm
          have hne : ¬ m = i + 1 := by
            intro e0
            subst e0
            apply hm
            refine ⟨le_refl _, ?_, h2'⟩
            intro k hk1 hk2
            have e2 : k = i + 1 := by omega
            subst e2
            rw [h1']; exact hv0
          rw [hu' m (fun hcon => hm (hext m hcon)), getD_set_eq]
          simp [hne]
    · refine ⟨arr, ?_, rfl, ?_, fun _ _ => rfl⟩
      · simp [correctOpenEnd2, h1, hv0]
      · intro m hm hrun _
        have := hrun (i + 1) hm (le_refl _)
        rw [h1'] at this
        exact absurd this hv0

/-! ## Policy-2 with no flagged sample is Policy-1 -/

theorem read_false (ex : List Bool) (hall : ∀ k, k < ex.length → ex.getD k false = false)
    {i : Nat} (hi : i < ex.length) : ex[i]? = some false := by
  obtain ⟨e, h1, h1'⟩ := read_lt ex false hi
  rw [h1, ← h1', hall i hi]

theorem correctOpenEnd2_allFalse (vs : List Int) (ex : List Bool)
    (hall : ∀ k, k < ex.length → ex.getD k false = false) :
    ∀ (i : Nat) (arr : List Int), i < ex.length →
      correctOpenEnd2 vs ex i arr = correctOpenEnd vs 0 i arr
  | 0, arr, hi => by
    simp [correctOpenEnd2, correctOpenEnd, read_false ex hall hi]
  | i + 1, arr, hi => by
    have ih := fun a => correctOpenEnd2_allFalse vs ex hall i a (by omega)
    simp [correctOpenEnd2, correctOpenEnd, read_false ex hall hi, ih]

theorem sla2Step_allFalse (vs ds : List Int) (ex : List Bool)
    (hall : ∀ k, k < ex.length → ex.getD k false = false) (k : Nat) (hk : k < ex.length)
    (t : Bool × List Int) : sla2Step vs ds ex k t = sla1Step vs ds k t := by
  simp [sla2Step, read_false ex hall hk]

/-- With an exceptions array of matching length and no flagged sample, the
per-sample arrays of Policy-2 are those of Policy-1. -/
theorem sla2Counted_allFalse (startTime endTime : Int) (ts vs : List Int) (ex : List Bool)
    (hlen : ex.length = ts.length) (hall : ∀ k, k < ex.length → ex.getD k false = false) :
    sla2Counted startTime endTime ts vs (some ex) = sla1Counted startTime endTime ts vs := by
  unfold sla2Counted sla1Counted
  cases transformToSpreadedUptime startTime endTime ts vs with
  | none => rfl
  | some sp =>
    simp only [Option.bind_eq_bind, Option.some_bind, boolSlice]
    rw [forRange_congr (sla2Step vs sp.1 ex) (sla1Step vs sp.1) ts.length 0 (true, sp.2)
      (fun k t _ hk => sla2Step_allFalse vs sp.1 ex hall k (by omega) t)]
    cases forRange (sla1Step vs sp.1) ts.length 0 (true, sp.2) with
    | none => rfl
    | some r =>
      simp only [Option.some_bind]
      cases hn : ts.length with
      | zero => rfl
      | succ n =>
        simp only
        rw [correctOpenEnd2_allFalse vs ex hall n r.2 (by omega)]

/-! ## Closed forms of the per-sample arrays -/

theorem trailing_iff (vs : List Int) (n : Nat) (hn : vs.length = n + 1) (m : Nat) :
    (m ≤ n ∧ ∀ k, m ≤ k → k ≤ n → vs.getD k 0 ≤ 0) ↔ (m ≤ n ∧ ¬ positiveAhead vs m) := by
  constructor
  · rintro ⟨hm, hrun⟩
    refine ⟨hm, ?_⟩
    rintro ⟨k, hk, hmk, hpos⟩
    have := hrun k hmk (by omega)
    omega
  · rintro ⟨hm, hno⟩
    refine ⟨hm, ?_⟩
    intro k hk1 hk2
    by_contra hcon
    exact hno ⟨k, by omega, hk1, not_le.mp hcon⟩

/-- Closed form of the per-sample arrays of Policy-2. -/
theorem sla2Counted_eq (startTime endTime : Int) (ts vs ds c0 : List Int) (ex : List Bool)
    (htr : transformToSpreadedUptime startTime endTime ts vs = some (ds, c0))
    (hpos : 0 < ts.length) (hv : vs.length = ts.length) (hd : ds.length = ts.length)
    (hc : c0.length = ts.length) (he : ex.length = ts.length) :
    sla2Counted startTime endTime ts vs (some ex) =
      some (ds, (List.range ts.length).map (policy2Count vs c0 ds ex)) := by
  obtain ⟨r, hr, hrl, hrv⟩ := sla2Forward_spec vs ds c0 ex ts.length hv hd hc he
  obtain ⟨n, hn⟩ : ∃ n, ts.length = n + 1 := ⟨ts.length - 1, by omega⟩
  obtain ⟨arr, harr, hal, hzero, hkeep⟩ := correctOpenEnd2_spec vs ex n r.2
    (by omega) (by omega) (by omega)
  have hfinal : arr = (List.range ts.length).map (policy2Count vs c0 ds ex) := by
    apply eq_map_range_of_getD arr 0 _ _ (by omega)
    intro m hm
    have htrail := trailing_iff vs n (by omega) m
    unfold policy2Count
    by_cases hex : ex.getD m false = true
    · rw [if_pos hex, hkeep m (by rintro ⟨-, -, hf⟩; rw [hex] at hf; exact absurd hf (by decide)),
        hrv m hm]
      unfold forwardCount2
      rw [if_pos hex]
    · rw [if_neg hex]
      have hef : ex.getD m false = false := by simpa using hex
      by_cases hpa : positiveAhead vs m
      · rw [if_pos hpa, hkeep m (by
          rintro ⟨h1, h2, -⟩
          exact (htrail.mp ⟨h1, h2⟩).2 hpa), hrv m hm]
      · rw [if_neg hpa]
        have := htrail.mpr ⟨by omega, hpa⟩
        exact hzero m this.1 this.2 hef
  unfold sla2Counted
  simp only [htr, Option.bind_eq_bind, Option.some_bind, boolSlice, hr]
  rw [← hfinal]
  clear hfinal
  revert harr
  generalize ts.length = len at hn
  subst hn
  intro harr
  simp only [harr, Option.some_bind]

theorem replicate_getD_false (n k : Nat) : (List.replicate n false).getD k false = false := by
  rw [List.getD_eq_getElem?_getD]
  by_cases hk : k < n
  · simp [List.getElem?_replicate, hk]
  · simp [List.getElem?_replicate, hk]

theorem policy2Count_allFalse (vs c0 ds : List Int) (ex : List Bool)
    (hall : ∀ k, ex.getD k false = false) (m : Nat) :
    policy2Count vs c0 ds ex m = policy1Count vs c0 ds m := by
  have hobs : observedBefore vs ex (m + 1) ↔ observed vs m := by
    unfold observedBefore observed
    simp only [hall, true_and]
  unfold policy2Count forwardCount2 policy1Count countedByPolicy1
  simp only [hall m, Bool.false_eq_true, if_false, hobs]
  by_cases hpa : positiveAhead vs m
  · simp only [hpa, if_true, true_and]
  · simp only [hpa, if_false, false_and, and_false]

/-- Closed form of the per-sample arrays of Policy-1. -/
theorem sla1Counted_eq (startTime endTime : Int) (ts vs ds c0 : List Int)
    (htr : transformToSpreadedUptime startTime endTime ts vs = some (ds, c0))
    (hpos : 0 < ts.length) (hv : vs.length = ts.length) (hd : ds.length = ts.length)
    (hc : c0.length = ts.length) :
    sla1Counted startTime endTime ts vs =
      some (ds, (List.range ts.length).map (policy1Count vs c0 ds)) := by
  have hall : ∀ k, (List.replicate ts.length false).getD k false = false :=
    replicate_getD_false ts.length
  rw [← sla2Counted_allFalse startTime endTime ts vs (List.replicate ts.length false)
    (by simp) (fun k _ => hall k),
    sla2Counted_eq startTime endTime ts vs ds c0 _ htr hpos hv hd hc (by simp)]
  congr 2
  apply List.map_congr_left
  intro m _
  exact policy2Count_allFalse vs c0 ds _ hall m

theorem stateStep_eq (c0 : List Int) (k : Nat) (hk : k < c0.length) (st : List String) :
    stateStep c0 k st = some (st ++ [if 0 < c0.getD k 0 then StateUp else StateDown]) := by
  obtain ⟨ck, h1, h1'⟩ := read_lt c0 0 hk
  rw [h1']
  by_cases hpos : 0 < ck
  · simp only [stateStep, h1, Option.bind_eq_bind, Option.some_bind, gt_iff_lt, hpos, if_true]
  · simp only [stateStep, h1, Option.bind_eq_bind, Option.some_bind, gt_iff_lt, hpos, if_false]

theorem stateLoop_eq (c0 : List Int) :
    forRange (stateStep c0) c0.length 0 [] =
      some ((List.range c0.length).map
        (fun i => if 0 < c0.getD i 0 then StateUp else StateDown)) := by
  obtain ⟨t, ht, hI⟩ := forRange_inv (stateStep c0)
    (fun k x => x = (List.range k).map
      (fun i => if 0 < c0.getD i 0 then StateUp else StateDown))
    c0.length 0 [] (by simp)
    (by
      intro k x _ hk hI
      refine ⟨_, stateStep_eq c0 k (by omega) x, ?_⟩
      subst hI
      simp only [List.range_succ, List.map_append, List.map_cons, List.map_nil])
  rw [Nat.zero_add] at hI
  rw [ht, hI]

/-- Closed form of the states array. -/
theorem stateSeries_eq (startTime endTime : Int) (ts vs ds c0 : List Int)
    (htr : transformToSpreadedUptime startTime endTime ts vs = some (ds, c0))
    (hpos : 0 < ts.length) (hv : vs.length = ts.length) (hc : c0.length = ts.length) :
    stateSeries startTime endTime ts vs =
      some ((List.range ts.length).map (stateLabel vs c0)) := by
  obtain ⟨n, hn⟩ : ∃ n, ts.length = n + 1 := ⟨ts.length - 1, by omega⟩
  obtain ⟨arr, harr, hal, hopen, hkeep⟩ := correctOpenEnd_spec vs StateOpen ""
    n ((List.range c0.length).map (fun i => if 0 < c0.getD i 0 then StateUp else StateDown))
    (by simp; omega) (by omega)
  have hfinal : arr = (List.range ts.length).map (stateLabel vs c0) := by
    apply eq_map_range_of_getD arr "" _ _ (by simp at hal; omega)
    intro m hm
    have htrail := trailing_iff vs n (by omega) m
    unfold stateLabel
    by_cases hpa : positiveAhead vs m
    · rw [if_pos hpa, hkeep m (fun hcon => (htrail.mp hcon).2 hpa),
        getD_map_range _ "" (by omega)]
    · rw [if_neg hpa]
      have := htrail.mpr ⟨by omega, hpa⟩
      exact hopen m this.1 this.2
  unfold stateSeries
  simp only [htr, Option.bind_eq_bind, Option.some_bind, stateLoop_eq]
  rw [← hfinal]
  clear hfinal
  revert harr
  generalize ts.length = len at hn
  subst hn
  intro harr
  simp only [harr]

/-! ## The sums of the four accumulators -/

theorem snmpSums_eq {startTime endTime : Int} {ts vs : List Int}
    {ex : Option (List Bool)} (h : checkArguments startTime endTime ts vs ex = none) :
    snmpSums startTime endTime ts vs =
      some (((List.range ts.length).map
          (fun i => if 0 < vs.getD i 0 then deltaTime startTime ts i else 0)).sum,
        (deltaTimes startTime ts).sum + trailingTime endTime ts) := by
  have hv := (checkArguments_none_iff _ _ _ _ _).mp h
  unfold snmpSums snmpIntervals
  rw [snmpLoop_eq startTime ts vs hv.2.2.2.2.2.1]
  exact finish_eq endTime ts hv.2.2.1 _ _ (by simp)

theorem uptimeSums_eq (startTime endTime : Int) (ts vs ds c0 : List Int)
    (htr : transformToSpreadedUptime startTime endTime ts vs = some (ds, c0))
    (hpos : 0 < ts.length) (hlen : c0.length = ds.length) :
    uptimeSums startTime endTime ts vs = some (c0.sum, ds.sum + trailingTime endTime ts) := by
  unfold uptimeSums uptimeIntervals
  rw [htr]
  exact finish_eq endTime ts hpos ds c0 hlen

theorem sla1Sums_eq (startTime endTime : Int) (ts vs ds c0 : List Int)
    (htr : transformToSpreadedUptime startTime endTime ts vs = some (ds, c0))
    (hpos : 0 < ts.length) (hv : vs.length = ts.length) (hd : ds.length = ts.length)
    (hc : c0.length = ts.length) :
    sla1Sums startTime endTime ts vs =
      some (((List.range ts.length).map (policy1Count vs c0 ds)).sum,
        ds.sum + trailingTime endTime ts) := by
  unfold sla1Sums sla1Intervals
  rw [sla1Counted_eq startTime endTime ts vs ds c0 htr hpos hv hd hc]
  exact finish_eq endTime ts hpos ds _ (by simp [hd])

theorem sla2Sums_eq (startTime endTime : Int) (ts vs ds c0 : List Int) (ex : List Bool)
    (htr : transformToSpreadedUptime startTime endTime ts vs = some (ds, c0))
    (hpos : 0 < ts.length) (hv : vs.length = ts.length) (hd : ds.length = ts.length)
    (hc : c0.length = ts.length) (he : ex.length = ts.length) :
    sla2Sums startTime endTime ts vs (some ex) =
      some (((List.range ts.length).map (policy2Count vs c0 ds ex)).sum,
        ds.sum + trailingTime endTime ts) := by
  unfold sla2Sums sla2Intervals
  rw [sla2Counted_eq startTime endTime ts vs ds c0 ex htr hpos hv hd hc he]
  exact finish_eq endTime ts hpos ds _ (by simp [hd])

/-- A sum of entries that each lie between `0` and a bound lies between `0`
and the sum of the bounds. -/
theorem sum_map_range_bounds (f g : Nat → Int) :
    ∀ n, (∀ m, m < n → 0 ≤ f m ∧ f m ≤ g m) →
      0 ≤ ((List.range n).map f).sum ∧
        ((List.range n).map f).sum ≤ ((List.range n).map g).sum
  | 0, _ => by simp
  | n + 1, h => by
    have ih := sum_map_range_bounds f g n (fun m hm => h m (by omega))
    have hn := h n (by omega)
    simp only [List.range_succ, List.map_append, List.sum_append, List.map_cons, List.map_nil,
      List.sum_cons, List.sum_nil, add_zero]
    omega

/-! ## Results of the public operations -/

theorem CalculateSNMPAvailability_rejected (startTime endTime : Int) (ts vs : List Int)
    (err : ArgError) (h : checkArguments startTime endTime ts vs none = some err) :
    CalculateSNMPAvailability startTime endTime ts vs = some (F64.zero, some err) := by
  unfold CalculateSNMPAvailability
  rw [h]

theorem CalculateSNMPAvailability_accepted (startTime endTime : Int) (ts vs : List Int)
    (p : Int × Int) (h : checkArguments startTime endTime ts vs none = none)
    (hs : snmpSums startTime endTime ts vs = some p) :
    CalculateSNMPAvailability startTime endTime ts vs = some (F64.div p.1 p.2, none) := by
  unfold CalculateSNMPAvailability
  rw [h, hs]
  rfl

theorem CalculateUptimeAvailability_rejected (startTime endTime : Int) (ts vs : List Int)
    (err : ArgError) (h : checkArguments startTime endTime ts vs none = some err) :
    CalculateUptimeAvailability startTime endTime ts vs = some (F64.zero, some err) := by
  unfold CalculateUptimeAvailability
  rw [h]

theorem CalculateUptimeAvailability_accepted (startTime endTime : Int) (ts vs : List Int)
    (p : Int × Int) (h : checkArguments startTime endTime ts vs none = none)
    (hs : uptimeSums startTime endTime ts vs = some p) :
    CalculateUptimeAvailability startTime endTime ts vs = some (F64.div p.1 p.2, none) := by
  unfold CalculateUptimeAvailability
  rw [h, hs]
  rfl

theorem CalculateSLA1Availability_rejected (startTime endTime : Int) (ts vs : List Int)
    (err : ArgError) (h : checkArguments startTime endTime ts vs none = some err) :
    CalculateSLA1Availability startTime endTime ts vs = some (F64.zero, some err) := by
  unfold CalculateSLA1Availability
  rw [h]

theorem CalculateSLA1Availability_accepted (startTime endTime : Int) (ts vs : List Int)
    (p : Int × Int) (h : checkArguments startTime endTime ts vs none = none)
    (hs : sla1Sums startTime endTime ts vs = some p) :
    CalculateSLA1Availability startTime endTime ts vs = some (F64.div p.1 p.2, none) := by
  unfold CalculateSLA1Availability
  rw [h, hs]
  rfl

theorem CalculateSLA2Availability_rejected (startTime endTime : Int) (ts vs : List Int) (exceptions : Option (List Bool))
    (err : ArgError) (h : checkArguments startTime endTime ts vs exceptions = some err) :
    CalculateSLA2Availability startTime endTime ts vs exceptions = some (F64.zero, some err) := by
  unfold CalculateSLA2Availability
  rw [h]

theorem CalculateSLA2Availability_accepted (startTime endTime : Int) (ts vs : List Int) (exceptions : Option (List Bool))
    (p : Int × Int) (h : checkArguments startTime endTime ts vs exceptions = none)
    (hs : sla2Sums startTime endTime ts vs exceptions = some p) :
    CalculateSLA2Availability startTime endTime ts vs exceptions = some (F64.div p.1 p.2, none) := by
  unfold CalculateSLA2Availability
  rw [h, hs]
  rfl

theorem GetUptimeStateSeriesData_rejected (startTime endTime : Int) (ts vs : List Int)
    (err : ArgError) (h : checkArguments startTime endTime ts vs none = some err) :
    GetUptimeStateSeriesData startTime endTime ts vs = some (none, some err) := by
  unfold GetUptimeStateSeriesData
  rw [h]

theorem GetUptimeStateSeriesData_accepted (startTime endTime : Int) (ts vs : List Int)
    (st : List String) (h : checkArguments startTime endTime ts vs none = none)
    (hs : stateSeries startTime endTime ts vs = some st) :
    GetUptimeStateSeriesData startTime endTime ts vs = some (some st, none) := by
  unfold GetUptimeStateSeriesData
  rw [h, hs]
  rfl

/-- Everything an accepted input provides to the proofs below. -/
theorem accepted_facts {startTime endTime : Int} {ts vs : List Int}
    {ex : Option (List Bool)} (h : checkArguments startTime endTime ts vs ex = none) :
    0 < ts.length ∧ vs.length = ts.length ∧
      ∃ c0, transformToSpreadedUptime startTime endTime ts vs =
          some (deltaTimes startTime ts, c0) ∧ c0.length = ts.length ∧
        ∀ m, m < ts.length → 0 ≤ c0.getD m 0 ∧ c0.getD m 0 ≤ deltaTime startTime ts m := by
  have hv := (checkArguments_none_iff _ _ _ _ _).mp h
  exact ⟨hv.2.2.1, hv.2.2.2.2.2.1.symm, transform_spec h⟩

theorem exists_read_iff (xs : List Int) {i : Nat} (hi : i < xs.length) (P : Int → Prop) :
    (∃ t, xs[i]? = some t ∧ P t) ↔ P (xs.getD i 0) := by
  obtain ⟨a, h1, h1'⟩ := read_lt xs 0 hi
  rw [h1, h1']
  constructor
  · rintro ⟨t, ht, hp⟩
    cases ht
    exact hp
  · intro hp
    exact ⟨a, rfl, hp⟩

theorem unordered_iff (ts : List Int) :
    (∃ i a b, ts[i]? = some a ∧ ts[i + 1]? = some b ∧ b < a) ↔
      ¬ ∀ i, i + 1 < ts.length → ts.getD i 0 ≤ ts.getD (i + 1) 0 := by
  constructor
  · rintro ⟨i, a, b, ha, hb, hlt⟩ hall
    have hi : i + 1 < ts.length := by
      by_contra hcon
      rw [List.getElem?_eq_none (by omega)] at hb
      cases hb
    have := hall i hi
    rw [getD_of_getElem? ts 0 ha, getD_of_getElem? ts 0 hb] at this
    omega
  · intro h
    push_neg at h
    obtain ⟨i, hi, hlt⟩ := h
    exact ⟨i, ts.getD i 0, ts.getD (i + 1) 0, getElem?_eq_some_getD ts 0 (by omega),
      getElem?_eq_some_getD ts 0 hi, hlt⟩

theorem countedByPolicy1_iff (vs spread : List Int) (i : Nat) :
    countedByPolicy1 vs spread i ↔
      ((∃ k, k ≤ i ∧ 0 < vs.getD k 0) ∧ (∃ k, i ≤ k ∧ 0 < vs.getD k 0) ∧
        ¬ (vs.getD i 0 ≤ 0 ∧ 0 < spread.getD i 0)) := by
  unfold countedByPolicy1 observed positiveAhead
  constructor
  · rintro ⟨⟨k, hk, hp⟩, ⟨j, -, hj, hq⟩, hc⟩
    exact ⟨⟨k, by omega, hp⟩, ⟨j, hj, hq⟩, hc⟩
  · rintro ⟨⟨k, hk, hp⟩, ⟨j, hj, hq⟩, hc⟩
    refine ⟨⟨k, by omega, hp⟩, ⟨j, ?_, hj, hq⟩, hc⟩
    by_contra hcon
    rw [List.getD_eq_getElem?_getD, List.getElem?_eq_none (by omega)] at hq
    exact absurd hq (by decide)

theorem policy1Count_deltaTimes (startTime : Int) (ts vs spread : List Int) :
    (List.range ts.length).map (policy1Count vs spread (deltaTimes startTime ts)) =
      (List.range ts.length).map
        (fun i => if countedByPolicy1 vs spread i then deltaTime startTime ts i else 0) := by
  apply List.map_congr_left
  intro m hm
  unfold policy1Count
  rw [deltaTimes_getD startTime ts (List.mem_range.mp hm)]

theorem getElem?_append_of_lt {α : Type} (xs ys : List α) {i : Nat} (hi : i < xs.length) :
    (xs ++ ys)[i]? = xs[i]? := by
  rw [List.getElem?_append, if_pos hi]

/-- The arrays an accumulator sums agree with its per-sample arrays on the
samples. -/
theorem appendTrailing_getElem? (endTime : Int) (ts : List Int) (hpos : 0 < ts.length)
    (ds cs : List Int) {i : Nat} (hd : i < ds.length) (hc : i < cs.length) :
    ∃ ds' cs', appendTrailing endTime ts (ds, cs) = some (ds', cs') ∧
      ds'[i]? = ds[i]? ∧ cs'[i]? = cs[i]? := by
  rw [appendTrailing_eq endTime ts hpos]
  split_ifs
  · exact ⟨_, _, rfl, getElem?_append_of_lt ds _ hd, getElem?_append_of_lt cs _ hc⟩
  · exact ⟨_, _, rfl, rfl, rfl⟩

theorem getD_false_of_all_false (ex : List Bool) (hall : ∀ b, b ∈ ex → b = false) (k : Nat) :
    ex.getD k false = false := by
  rw [List.getD_eq_getElem?_getD]
  by_cases hk : k < ex.length
  · rw [List.getElem?_eq_getElem hk]
    exact hall _ (List.getElem_mem _)
  · rw [List.getElem?_eq_none (by omega)]
    rfl

theorem checkArguments_some_eq_none (startTime endTime : Int) (ts vs : List Int)
    (ex : List Bool) (hlen : ex.length = ts.length) :
    checkArguments startTime endTime ts vs (some ex) =
      checkArguments startTime endTime ts vs none := by
  unfold checkArguments
  simp [hlen]

theorem positiveAhead_iff (vs : List Int) (n : Nat) (hn : vs.length = n) (i : Nat) :
    ¬ positiveAhead vs i ↔ ∀ k, i ≤ k → k < n → vs.getD k 0 ≤ 0 := by
  unfold positiveAhead
  subst hn
  constructor
  · intro h k hk1 hk2
    by_contra hcon
    exact h ⟨k, hk2, hk1, not_le.mp hcon⟩
  · rintro h ⟨k, hk2, hk1, hpos⟩
    have := h k hk1 hk2
    omega

theorem state_labels_distinct :
    StateUp ≠ StateDown ∧ StateUp ≠ StateOpen ∧ StateDown ≠ StateOpen := by
  decide

theorem trailingTime_nonneg (endTime : Int) (ts : List Int) : 0 ≤ trailingTime endTime ts := by
  unfold trailingTime
  split_ifs <;> omega

theorem sums_bounds (startTime endTime : Int) (ts : List Int) (f : Nat → Int)
    (hf : ∀ m, m < ts.length → 0 ≤ f m ∧ f m ≤ deltaTime startTime ts m) :
    0 ≤ ((List.range ts.length).map f).sum ∧
      ((List.range ts.length).map f).sum ≤
        (deltaTimes startTime ts).sum + trailingTime endTime ts := by
  have hb := sum_map_range_bounds f (deltaTime startTime ts) ts.length hf
  have ht := trailingTime_nonneg endTime ts
  unfold deltaTimes
  omega

theorem ratio_of_bounds (n d : Int) (h0 : 0 ≤ n) (h1 : n ≤ d) (hd : d ≠ 0) :
    ∃ q : ℚ, F64.div n d = F64.val q ∧ 0 ≤ q ∧ q ≤ 1 := by
  have hdpos : (0 : ℚ) < (d : ℚ) := by
    have : 0 < d := by omega
    exact_mod_cast this
  refine ⟨(n : ℚ) / (d : ℚ), by simp [F64.div, hd], ?_, ?_⟩
  · exact div_nonneg (by exact_mod_cast h0) (le_of_lt hdpos)
  · rw [div_le_one hdpos]
    exact_mod_cast h1

theorem ratioWithinUnit_intro (sums : Option (Int × Int))
    (result : Option (F64 × Option ArgError)) (n d : Int) (hs : sums = some (n, d))
    (hr : result = some (F64.div n d, none)) (hb : 0 ≤ n ∧ n ≤ d) :
    RatioWithinUnit sums result :=
  ⟨n, d, hs, hb.1, hb.2, hr, ratio_of_bounds n d hb.1 hb.2⟩

theorem policy2Count_bounds (vs c0 ds : List Int) (ex : List Bool) (m : Nat)
    (hd : 0 ≤ ds.getD m 0) :
    0 ≤ policy2Count vs c0 ds ex m ∧ policy2Count vs c0 ds ex m ≤ ds.getD m 0 := by
  unfold policy2Count forwardCount2
  split_ifs <;> exact ⟨by omega, by omega⟩

theorem policy1Count_bounds (vs c0 ds : List Int) (m : Nat) (hd : 0 ≤ ds.getD m 0) :
    0 ≤ policy1Count vs c0 ds m ∧ policy1Count vs c0 ds m ≤ ds.getD m 0 := by
  unfold policy1Count
  split_ifs <;> exact ⟨by omega, by omega⟩

theorem checkArguments_some_of_none {startTime endTime : Int} {ts vs : List Int}
    (h : checkArguments startTime endTime ts vs none = none) (ex : List Bool)
    (hlen : ex.length = ts.length) :
    checkArguments startTime endTime ts vs (some ex) = none := by
  rw [checkArguments_some_eq_none startTime endTime ts vs ex hlen, h]

/-! ## The redistribution never adds counted time -/

theorem sum_set_eq : ∀ (xs : List Int) (i : Nat) (x : Int), i < xs.length →
    (xs.set i x).sum = xs.sum - xs.getD i 0 + x
  | [], _, _, h => by simp at h
  | a :: xs, 0, x, _ => by
    simp only [List.set_cons_zero, List.sum_cons, List.getD_cons_zero]
    omega
  | a :: xs, i + 1, x, h => by
    have ih := sum_set_eq xs i x (by simpa using h)
    simp only [List.set_cons_succ, List.sum_cons, List.getD_cons_succ, ih]
    omega

/-- The inner backward loop never increases the sum of the counted values. -/
theorem pushBack_sum_le (ds : List Int) :
    ∀ (j : Nat) (cs : List Int), cs.length = ds.length → j < cs.length →
      (∀ m, m < ds.length → 0 ≤ ds.getD m 0) →
      (∀ m, m < cs.length → 0 ≤ cs.getD m 0) →
      ∀ cs', pushBack ds j cs = some cs' → cs'.sum ≤ cs.sum
  | 0, cs, hlen, hj, _, _, cs', hrun => by
    obtain ⟨c0, h1, h1'⟩ := read_lt cs 0 hj
    obtain ⟨d0, h2, _⟩ := read_lt ds 0 (hlen ▸ hj)
    by_cases hgt : c0 > d0
    · simp [pushBack, h1, h2, hgt, setAt_eq_some cs d0 hj] at hrun
      subst hrun
      rw [sum_set_eq cs 0 d0 hj, h1']
      omega
    · simp [pushBack, h1, h2, hgt] at hrun
      subst hrun
      exact le_refl _
  | j + 1, cs, hlen, hj, hd, hc, cs', hrun => by
    obtain ⟨cj, h1, h1'⟩ := read_lt cs 0 hj
    obtain ⟨dj, h2, h2'⟩ := read_lt ds 0 (hlen ▸ hj)
    have hdj : 0 ≤ dj := h2' ▸ hd (j + 1) (hlen ▸ hj)
    by_cases hgt : cj > dj
    · have hj0 : j < cs.length := by omega
      have hget : ∀ m, ((cs.set j (cj - dj)).set (j + 1) dj).getD m 0 =
          if m = j + 1 then dj else if m = j then cj - dj else cs.getD m 0 := by
        intro m
        rw [getD_set_eq, getD_set_eq]
        simp only [List.length_set, hj, hj0, and_true]
      simp [pushBack, h1, h2, hgt, setAt_eq_some cs (cj - dj) hj0,
        setAt_eq_some (cs.set j (cj - dj)) dj (by simpa using hj)] at hrun
      have ih := pushBack_sum_le ds j ((cs.set j (cj - dj)).set (j + 1) dj)
        (by simpa using hlen) (by simpa using hj0) hd
        (by
          intro m hm
          rw [hget]
          split_ifs with e1 e2
          · exact hdj
          · omega
          · exact hc m (by simpa using hm))
        cs' hrun
      have hsum : ((cs.set j (cj - dj)).set (j + 1) dj).sum = cs.sum - cs.getD j 0 := by
        rw [sum_set_eq _ (j + 1) dj (by simpa using hj), sum_set_eq cs j (cj - dj) hj0,
          getD_set_eq]
        have hne : ¬ (j + 1 = j ∧ j < cs.length) := by omega
        rw [if_neg hne, h1']
        omega
      have := hc j hj0
      omega
    · simp [pushBack, h1, h2, hgt] at hrun
      subst hrun
      exact le_refl _

/-- The redistribution loop never increases the sum of the counted values. -/
theorem spreadLoop2_sum_le (ds cs : List Int) (hlen : cs.length = ds.length)
    (hd : ∀ m, m < ds.length → 0 ≤ ds.getD m 0)
    (hc : ∀ m, m < cs.length → 0 ≤ cs.getD m 0) :
    ∃ cs', forRange (spreadStep2 ds) ds.length 0 cs = some cs' ∧ cs'.sum ≤ cs.sum := by
  obtain ⟨t, ht, hI⟩ := forRange_inv (spreadStep2 ds)
    (fun k x => x.length = ds.length ∧ (∀ m, m < ds.length → 0 ≤ x.getD m 0) ∧
      (∀ m, m < k → x.getD m 0 ≤ ds.getD m 0) ∧ x.sum ≤ cs.sum)
    ds.length 0 cs
    ⟨hlen, fun m hm => hc m (hlen ▸ hm), fun m hm => absurd hm (by omega), le_refl _⟩
    (by
      intro k x _ hk ⟨hxl, hxn, hxb, hxs⟩
      have hkx : k < x.length := by omega
      obtain ⟨ck, h1, h1'⟩ := read_lt x 0 hkx
      obtain ⟨dk, h2, h2'⟩ := read_lt ds 0 (show k < ds.length by omega)
      by_cases hgt : ck > dk
      · obtain ⟨x', hx', hl', hn', hb', -⟩ := pushBack_spec ds k x hxl hkx hd
          (fun m hm => hxn m (hxl ▸ hm)) hxb
        have hsum := pushBack_sum_le ds k x hxl hkx hd (fun m hm => hxn m (hxl ▸ hm)) x' hx'
        refine ⟨x', ?_, by omega, fun m hm => hn' m (by omega), fun m hm => hb' m (by omega),
          by omega⟩
        simp [spreadStep2, h1, h2, hgt, hx']
      · refine ⟨x, ?_, hxl, hxn, ?_, hxs⟩
        · simp [spreadStep2, h1, h2, hgt]
        · intro m hm
          by_cases hmk : m < k
          · exact hxb m hmk
          · have e : m = k := by omega
            subst e
            rw [h1', h2']; exact not_lt.mp hgt)
  exact ⟨t, ht, hI.2.2.2⟩

/-- The redistribution loop changes nothing when no counted value exceeds
its interval length. -/
theorem spreadLoop2_noop (ds cs : List Int) (hlen : cs.length = ds.length)
    (hle : ∀ m, m < ds.length → cs.getD m 0 ≤ ds.getD m 0) :
    forRange (spreadStep2 ds) ds.length 0 cs = some cs := by
  obtain ⟨t, ht, hI⟩ := forRange_inv (spreadStep2 ds) (fun _ x => x = cs)
    ds.length 0 cs rfl
    (by
      intro k x _ hk hx
      subst hx
      obtain ⟨ck, h1, h1'⟩ := read_lt x 0 (show k < x.length by omega)
      obtain ⟨dk, h2, h2'⟩ := read_lt ds 0 (show k < ds.length by omega)
      have hkle := hle k (by omega)
      rw [h1', h2'] at hkle
      refine ⟨x, ?_, rfl⟩
      simp [spreadStep2, h1, h2, not_lt.mpr hkle])
  rw [ht, hI]

/-- The spread reconstruction in terms of its two loops. -/
theorem transform_eq_of_loop2 (startTime endTime : Int) (ts vs cs : List Int)
    (hlen : ts.length = vs.length)
    (h2 : forRange (spreadStep2 (deltaTimes startTime ts)) ts.length 0
      ((List.range ts.length).map (rawCounted startTime ts vs)) = some cs) :
    transformToSpreadedUptime startTime endTime ts vs =
      some (deltaTimes startTime ts, cs) := by
  have hraw := spreadRaw_eq startTime ts vs hlen
  simp only [transformToSpreadedUptime, hraw, Option.bind_eq_bind, Option.some_bind]
  change (forRange (spreadStep2 (deltaTimes startTime ts)) (deltaTimes startTime ts).length 0
      ((List.range ts.length).map (rawCounted startTime ts vs))).bind _ = _
  rw [deltaTimes_length, h2]
  rfl

/-! ## A single sample at the instant of a window of length zero -/

theorem instant_check (t v : Int) (ht : 0 ≤ t) (ex : Option (List Bool))
    (hex : ∀ x, ex = some x → x.length = 1) :
    checkArguments t t [t] [v] ex = none := by
  rw [checkArguments_none_iff]
  refine ⟨ht, ht, by simp, by simp, by simp, by simp, ?_, ?_⟩
  · intro x hx
    simp [hex x hx]
  · intro i hi
    simp at hi

theorem instant_transform (t v : Int) :
    transformToSpreadedUptime t t [t] [v] = some ([0], [0]) := by
  by_cases hv : v ≤ 0
  · simp [transformToSpreadedUptime, spreadRaw, forRange, spreadStep1, spreadStep2, hv]
  · have hv' : 0 < v := not_le.mp hv
    simp [transformToSpreadedUptime, spreadRaw, forRange, spreadStep1, spreadStep2, hv, hv']

theorem instant_snmpIntervals (t v : Int) : snmpIntervals t t [t] [v] = some ([0], [0]) := by
  by_cases hv : v ≤ 0 <;>
    simp [snmpIntervals, forRange, snmpStep, appendTrailing, hv]

theorem instant_uptimeIntervals (t v : Int) :
    uptimeIntervals t t [t] [v] = some ([0], [0]) := by
  simp [uptimeIntervals, instant_transform, appendTrailing]

theorem instant_sla1Intervals (t v : Int) : sla1Intervals t t [t] [v] = some ([0], [0]) := by
  by_cases hv : v ≤ 0
  · simp [sla1Intervals, sla1Counted, instant_transform, forRange, sla1Step, setAt,
      correctOpenEnd, appendTrailing, hv]
  · have hv' : 0 < v := not_le.mp hv
    simp [sla1Intervals, sla1Counted, instant_transform, forRange, sla1Step, setAt,
      correctOpenEnd, appendTrailing, hv, hv']

theorem instant_sla2Intervals (t v : Int) (b : Bool) :
    sla2Intervals t t [t] [v] (some [b]) = some ([0], [0]) := by
  cases b <;> by_cases hv : v ≤ 0 <;>
    simp [sla2Intervals, sla2Counted, instant_transform, forRange, sla2Step, sla1Step, setAt,
      correctOpenEnd2, appendTrailing, boolSlice, hv, not_le.mp]

theorem sumLoop_zero : sumLoop ([0], [0]) = some (0, 0) := by decide

theorem sum_map_range_shift (f : Nat → Int) :
    ∀ n, ((List.range (n + 1)).map f).sum =
      f 0 + ((List.range n).map (fun k => f (k + 1))).sum
  | 0 => by simp [List.range_succ]
  | n + 1 => by
    rw [List.range_succ, List.map_append, List.sum_append, sum_map_range_shift f n]
    simp only [List.map_cons, List.map_nil, List.sum_cons, List.sum_nil,
      List.range_succ, List.map_append, List.sum_append]
    omega

theorem wrapInt64_eq_self (x : Int) (h1 : -9223372036854775808 ≤ x)
    (h2 : x < 9223372036854775808) : wrapInt64 x = x := by
  unfold wrapInt64
  omega

theorem subInt64_self (a : Int) : subInt64 a a = 0 := by
  simp [subInt64, wrapInt64]

/-- When no difference of consecutive counter values overflows, the code's
Step-1 values are the raw values of the specification. -/
theorem rawCounted_eq_rawUptime (startTime : Int) (ts vs : List Int)
    (hfit : DifferencesFit vs) {m : Nat} (hm : m < vs.length) :
    rawCounted startTime ts vs m = rawUptime startTime ts vs m := by
  cases m with
  | zero => rfl
  | succ k =>
    have hk := hfit k (by omega)
    simp only [rawCounted, rawUptime, Nat.succ_ne_zero, if_false, Nat.add_sub_cancel, subInt64]
    rw [wrapInt64_eq_self _ hk.1 hk.2]

theorem rawUptime_le_deltaTime {startTime endTime : Int} {ts vs : List Int}
    {ex : Option (List Bool)} (h : checkArguments startTime endTime ts vs ex = none)
    (hadv : ∀ i, 1 ≤ i → i < ts.length →
      vs.getD i 0 - vs.getD (i - 1) 0 ≤ ts.getD i 0 - ts.getD (i - 1) 0)
    {m : Nat} (hm : m < ts.length) : rawUptime startTime ts vs m ≤ deltaTime startTime ts m := by
  have hd := deltaTime_nonneg h hm
  cases m with
  | zero =>
    simp only [rawUptime, if_true]
    split_ifs
    · exact hd
    · exact min_le_right _ _
  | succ k =>
    have ha := hadv (k + 1) (by omega) hm
    simp only [rawUptime, deltaTime, Nat.succ_ne_zero, if_false, Nat.add_sub_cancel] at hd ha ⊢
    exact max_le ha hd

/-! ## The example fixture, evaluated -/

set_option maxRecDepth 100000 in
theorem example_accepted :
    checkArguments Example.startTime Example.endTime Example.timestamps Example.uptimeVals
      (some Example.exceptions) = none ∧
    checkArguments Example.startTime Example.endTime Example.timestamps Example.uptimeVals
      none = none := by
  decide

set_option maxRecDepth 100000 in
theorem example_snmpSums :
    snmpSums Example.startTime Example.endTime Example.timestamps Example.uptimeVals =
      some (1800, 3000) := by
  decide

set_option maxRecDepth 100000 in
theorem example_uptimeSums :
    uptimeSums Example.startTime Example.endTime Example.timestamps Example.uptimeVals =
      some (2020, 3000) := by
  decide

theorem F64_div_1800_3000 : F64.div 1800 3000 = F64.val (3 / 5) := by
  simp only [F64.div]
  norm_num

theorem F64_div_2020_3000 : F64.div 2020 3000 = F64.val (101 / 150) := by
  simp only [F64.div]
  norm_num

theorem sum_map_range_mono (f g : Nat → Int) :
    ∀ n, (∀ m, m < n → f m ≤ g m) →
      ((List.range n).map f).sum ≤ ((List.range n).map g).sum
  | 0, _ => by simp
  | n + 1, h => by
    have ih := sum_map_range_mono f g n (fun m hm => h m (by omega))
    have hn := h n (by omega)
    simp only [List.range_succ, List.map_append, List.sum_append, List.map_cons, List.map_nil,
      List.sum_cons, List.sum_nil, add_zero]
    omega

theorem ratio_mono (n0 n1 d : Int) (h : n0 ≤ n1) (hd : 0 < d) :
    ∃ q0 q1 : ℚ, F64.div n0 d = F64.val q0 ∧ F64.div n1 d = F64.val q1 ∧ q0 ≤ q1 := by
  have hd0 : d ≠ 0 := by omega
  have hdq : (0 : ℚ) < (d : ℚ) := by exact_mod_cast hd
  refine ⟨(n0 : ℚ) / d, (n1 : ℚ) / d, by simp [F64.div, hd0], by simp [F64.div, hd0], ?_⟩
  exact div_le_div_of_nonneg_right (by exact_mod_cast h) (le_of_lt hdq)

theorem countedByPolicy1_of_pos (vs spread : List Int) (i : Nat) (hv : 0 < vs.getD i 0) :
    countedByPolicy1 vs spread i := by
  have hi : i < vs.length := by
    by_contra hcon
    rw [List.getD_eq_getElem?_getD, List.getElem?_eq_none (by omega)] at hv
    exact absurd hv (by decide)
  exact ⟨⟨i, by omega, hv⟩, ⟨i, hi, le_refl _, hv⟩, fun hcon => by omega⟩

/-- Under flags that sit only on non-positive readings, the `open` flag of
Policy-2 is cleared exactly when that of Policy-1 is. -/
theorem observedBefore_iff_observed (vs : List Int) (ex : List Bool)
    (hflag : ∀ j, 0 < vs.getD j 0 → ex.getD j false = false) (m : Nat) :
    observedBefore vs ex (m + 1) ↔ observed vs m := by
  unfold observedBefore observed
  constructor
  · rintro ⟨j, hj, -, hp⟩
    exact ⟨j, hj, hp⟩
  · rintro ⟨j, hj, hp⟩
    exact ⟨j, hj, hflag j hp, hp⟩

theorem policy1Count_le_policy2Count (vs c0 ds : List Int) (ex : List Bool)
    (hflag : ∀ j, 0 < vs.getD j 0 → ex.getD j false = false) (m : Nat)
    (hd : 0 ≤ ds.getD m 0) :
    policy1Count vs c0 ds m ≤ policy2Count vs c0 ds ex m := by
  by_cases hex : ex.getD m false = true
  · have h1 := (policy1Count_bounds vs c0 ds m hd).2
    unfold policy2Count
    rw [if_pos hex]
    exact h1
  · have hobs := observedBefore_iff_observed vs ex hflag m
    unfold policy2Count forwardCount2 policy1Count countedByPolicy1
    simp only [hex, if_false, hobs]
    by_cases hpa : positiveAhead vs m
    · simp only [hpa, if_true, true_and]
      exact le_refl _
    · simp only [hpa, if_false, false_and, and_false]
      exact le_refl _

/-! ## The redistribution acts on a prefix -/

theorem forRange_succ_last {σ : Type} (body : Nat → σ → Option σ) :
    ∀ (n i : Nat) (s : σ),
      forRange body (n + 1) i s = (forRange body n i s).bind (body (i + n))
  | 0, i, s => by
    simp only [forRange, Nat.add_zero, Option.some_bind]
    cases body i s <;> rfl
  | n + 1, i, s => by
    have ih := fun t => forRange_succ_last body n (i + 1) t
    have hidx : i + 1 + n = i + (n + 1) := by omega
    show (body i s).bind (forRange body (n + 1) (i + 1)) =
      ((body i s).bind (forRange body n (i + 1))).bind (body (i + (n + 1)))
    cases body i s with
    | none => rfl
    | some t => simp only [Option.some_bind, ih t, hidx]

/-- A loop run on the images of its states under `φ` is the image of the loop,
when the bodies commute with `φ` on the states that satisfy a preserved
property. -/
theorem forRange_map {σ τ : Type} (f : Nat → σ → Option σ) (g : Nat → τ → Option τ)
    (φ : σ → τ) (P : σ → Prop) (hP : ∀ k t t', P t → f k t = some t' → P t') :
    ∀ (n i : Nat) (s : σ), P s →
      (∀ k t, i ≤ k → k < i + n → P t → g k (φ t) = (f k t).map φ) →
      forRange g n i (φ s) = (forRange f n i s).map φ
  | 0, _, _, _, _ => rfl
  | n + 1, i, s, hs, h => by
    show (g i (φ s)).bind (forRange g n (i + 1)) =
      ((f i s).bind (forRange f n (i + 1))).map φ
    rw [h i s (le_refl _) (by omega) hs]
    cases hf : f i s with
    | none => rfl
    | some t =>
      simp only [Option.map_some', Option.some_bind]
      exact forRange_map f g φ P hP n (i + 1) t (hP i s t hs hf)
        (fun k t' hk hk2 ht' => h k t' (by omega) (by omega) ht')

theorem setAt_append {α : Type} (xs ys : List α) (x : α) {i : Nat} (hi : i < xs.length) :
    setAt (xs ++ ys) i x = (setAt xs i x).map (fun t => t ++ ys) := by
  have hi2 : i < (xs ++ ys).length := by simp; omega
  rw [setAt_eq_some _ _ hi2, setAt_eq_some _ _ hi, List.set_append_left i x hi]
  rfl

theorem pushBack_length (ds : List Int) :
    ∀ (j : Nat) (cs cs' : List Int), pushBack ds j cs = some cs' → cs'.length = cs.length
  | 0, cs, cs', h => by
    unfold pushBack at h
    cases hc : cs[0]? with
    | none => simp [hc] at h
    | some c0 =>
      cases hd : ds[0]? with
      | none => simp [hc, hd] at h
      | some d0 =>
        simp only [hc, hd, Option.bind_eq_bind, Option.some_bind] at h
        by_cases hgt : c0 > d0
        · simp only [hgt, if_true, setAt] at h
          split_ifs at h
          cases h
          simp
        · simp only [hgt, if_false] at h
          cases h
          rfl
  | j + 1, cs, cs', h => by
    unfold pushBack at h
    cases hc : cs[j + 1]? with
    | none => simp [hc] at h
    | some cj =>
      cases hd : ds[j + 1]? with
      | none => simp [hc, hd] at h
      | some dj =>
        simp only [hc, hd, Option.bind_eq_bind, Option.some_bind] at h
        by_cases hgt : cj > dj
        · simp only [hgt, if_true, setAt] at h
          by_cases h1 : j < cs.length
          · simp only [h1, if_true, Option.some_bind, List.length_set] at h
            by_cases h2 : j + 1 < cs.length
            · simp only [h2, if_true, Option.some_bind] at h
              have := pushBack_length ds j _ cs' h
              simpa using this
            · simp [h2] at h
          · simp [h1] at h
        · simp only [hgt, if_false] at h
          cases h
          rfl

theorem pushBack_append (ds xs ys : List Int) :
    ∀ (j : Nat) (cs : List Int), j < cs.length → cs.length = ds.length →
      pushBack (ds ++ xs) j (cs ++ ys) = (pushBack ds j cs).map (fun t => t ++ ys)
  | 0, cs, hj, hlen => by
    obtain ⟨c0, h1, -⟩ := read_lt cs 0 hj
    obtain ⟨d0, h2, -⟩ := read_lt ds 0 (hlen ▸ hj)
    have h1' : (cs ++ ys)[0]? = some c0 := by rw [getElem?_append_of_lt cs ys hj, h1]
    have h2' : (ds ++ xs)[0]? = some d0 := by
      rw [getElem?_append_of_lt ds xs (hlen ▸ hj), h2]
    unfold pushBack
    simp only [h1, h2, h1', h2', Option.bind_eq_bind, Option.some_bind]
    by_cases hgt : c0 > d0
    · simp only [hgt, if_true, setAt_append cs ys d0 hj]
    · simp only [hgt, if_false, Option.map_some']
  | j + 1, cs, hj, hlen => by
    obtain ⟨cj, h1, -⟩ := read_lt cs 0 hj
    obtain ⟨dj, h2, -⟩ := read_lt ds 0 (hlen ▸ hj)
    have h1' : (cs ++ ys)[j + 1]? = some cj := by rw [getElem?_append_of_lt cs ys hj, h1]
    have h2' : (ds ++ xs)[j + 1]? = some dj := by
      rw [getElem?_append_of_lt ds xs (hlen ▸ hj), h2]
    have hj0 : j < cs.length := by omega
    unfold pushBack
    simp only [h1, h2, h1', h2', Option.bind_eq_bind, Option.some_bind]
    by_cases hgt : cj > dj
    · simp only [hgt, if_true, setAt_append cs ys (cj - dj) hj0,
        setAt_eq_some cs (cj - dj) hj0, Option.map_some', Option.some_bind,
        setAt_append (cs.set j (cj - dj)) ys dj (by simpa using hj),
        setAt_eq_some (cs.set j (cj - dj)) dj (by simpa using hj)]
      exact pushBack_append ds xs ys j _ (by simpa using hj0) (by simpa using hlen)
    · simp only [hgt, if_false, Option.map_some']

theorem spreadStep2_append (ds xs ys cs : List Int) (k : Nat) (hk : k < cs.length)
    (hlen : cs.length = ds.length) :
    spreadStep2 (ds ++ xs) k (cs ++ ys) = (spreadStep2 ds k cs).map (fun t => t ++ ys) := by
  obtain ⟨ck, h1, -⟩ := read_lt cs 0 hk
  obtain ⟨dk, h2, -⟩ := read_lt ds 0 (hlen ▸ hk)
  have h1' : (cs ++ ys)[k]? = some ck := by rw [getElem?_append_of_lt cs ys hk, h1]
  have h2' : (ds ++ xs)[k]? = some dk := by
    rw [getElem?_append_of_lt ds xs (hlen ▸ hk), h2]
  unfold spreadStep2
  simp only [h1, h2, h1', h2', Option.bind_eq_bind, Option.some_bind]
  by_cases hgt : ck > dk
  · simp only [hgt, if_true]
    exact pushBack_append ds xs ys k cs hk hlen
  · simp only [hgt, if_false, Option.map_some']

theorem spreadStep2_length (ds : List Int) (k : Nat) (cs cs' : List Int)
    (h : spreadStep2 ds k cs = some cs') : cs'.length = cs.length := by
  unfold spreadStep2 at h
  cases hc : cs[k]? with
  | none => simp [hc] at h
  | some ck =>
    cases hd : ds[k]? with
    | none => simp [hc, hd] at h
    | some dk =>
      simp only [hc, hd, Option.bind_eq_bind, Option.some_bind] at h
      by_cases hgt : ck > dk
      · simp only [hgt, if_true] at h
        exact pushBack_length ds k cs cs' h
      · simp only [hgt, if_false] at h
        cases h
        rfl

/-- The redistribution loop over the first samples of a longer series is the
redistribution loop of the shorter series. -/
theorem spreadLoop2_append (ds xs ys cs : List Int) (hlen : cs.length = ds.length) :
    forRange (spreadStep2 (ds ++ xs)) ds.length 0 (cs ++ ys) =
      (forRange (spreadStep2 ds) ds.length 0 cs).map (fun t => t ++ ys) :=
  forRange_map (spreadStep2 ds) (spreadStep2 (ds ++ xs)) (fun t => t ++ ys)
    (fun t => t.length = ds.length)
    (fun k t t' ht hf => (spreadStep2_length ds k t t' hf).trans ht)
    ds.length 0 cs hlen
    (fun k t _ hk ht => spreadStep2_append ds xs ys t k (by omega) ht)

/-! ## Appending a sample at the end of the window -/

theorem getD_append_last (xs : List Int) (x : Int) : (xs ++ [x]).getD xs.length 0 = x := by
  rw [getD_append_one]
  simp

theorem appended_accepted {startTime endTime : Int} {ts vs : List Int}
    (h : checkArguments startTime endTime ts vs none = none) (v : Int) :
    checkArguments startTime endTime (ts ++ [endTime]) (vs ++ [v]) none = none := by
  rw [checkArguments_none_iff] at h ⊢
  obtain ⟨h1, h2, h3, h4, h5, h6, -, h8⟩ := h
  refine ⟨h1, h2, by simp, ?_, ?_, by simp [h6], by simp, ?_⟩
  · rw [List.getD_append _ _ _ _ h3]
    exact h4
  · have : (ts ++ [endTime]).length - 1 = ts.length := by simp
    rw [this, getD_append_last]
  · intro i hi
    have hi' : i + 1 < ts.length + 1 := by simpa using hi
    by_cases hlast : i + 1 < ts.length
    · rw [List.getD_append _ _ _ _ (by omega), List.getD_append _ _ _ _ hlast]
      exact h8 i hlast
    · have e : i + 1 = ts.length := by omega
      rw [List.getD_append _ _ _ _ (by omega), e, getD_append_last]
      have : i = ts.length - 1 := by omega
      rw [this]
      exact h5

theorem deltaTime_append (startTime x : Int) (ts : List Int) {i : Nat} (hi : i < ts.length) :
    deltaTime startTime (ts ++ [x]) i = deltaTime startTime ts i := by
  unfold deltaTime
  rw [List.getD_append _ _ _ _ hi, List.getD_append _ _ _ _ (show 0 < ts.length by omega),
    List.getD_append _ _ _ _ (show i - 1 < ts.length by omega)]

theorem deltaTimes_append (startTime x : Int) (ts : List Int) (hpos : 0 < ts.length) :
    deltaTimes startTime (ts ++ [x]) =
      deltaTimes startTime ts ++ [x - ts.getD (ts.length - 1) 0] := by
  unfold deltaTimes
  rw [List.length_append, List.length_singleton, List.range_succ, List.map_append]
  congr 1
  · apply List.map_congr_left
    intro i hi
    exact deltaTime_append startTime x ts (List.mem_range.mp hi)
  · have hne : ¬ ts.length = 0 := by omega
    simp only [List.map_cons, List.map_nil, deltaTime, hne, if_false]
    rw [getD_append_last, List.getD_append _ _ _ _ (by omega)]

theorem rawCounted_append (startTime x v : Int) (ts vs : List Int)
    (hlen : vs.length = ts.length) {i : Nat} (hi : i < ts.length) :
    rawCounted startTime (ts ++ [x]) (vs ++ [v]) i = rawCounted startTime ts vs i := by
  unfold rawCounted
  rw [deltaTime_append startTime x ts (show 0 < ts.length by omega),
    List.getD_append _ _ _ _ (show i < vs.length by omega),
    List.getD_append _ _ _ _ (show 0 < vs.length by omega),
    List.getD_append _ _ _ _ (show i - 1 < vs.length by omega)]

theorem rawCounteds_append (startTime x : Int) (ts vs : List Int)
    (hlen : vs.length = ts.length) (hpos : 0 < ts.length) :
    (List.range (ts ++ [x]).length).map
        (rawCounted startTime (ts ++ [x]) (vs ++ [vs.getD (vs.length - 1) 0])) =
      (List.range ts.length).map (rawCounted startTime ts vs) ++ [0] := by
  rw [List.length_append, List.length_singleton, List.range_succ, List.map_append]
  congr 1
  · apply List.map_congr_left
    intro i hi
    exact rawCounted_append startTime x _ ts vs hlen (List.mem_range.mp hi)
  · have hne : ¬ ts.length = 0 := by omega
    simp only [List.map_cons, List.map_nil, rawCounted, hne, if_false]
    rw [← hlen, getD_append_last, List.getD_append _ _ _ _ (by omega), subInt64_self]
    simp

/-- The spread reconstruction of the series with the last value repeated at
`endTime` is that of the original series followed by `0`. -/
theorem transform_append {startTime endTime : Int} {ts vs : List Int}
    (h : checkArguments startTime endTime ts vs none = none) :
    ∃ c0, c0.length = ts.length ∧
      transformToSpreadedUptime startTime endTime ts vs =
        some (deltaTimes startTime ts, c0) ∧
      transformToSpreadedUptime startTime endTime (ts ++ [endTime])
          (vs ++ [vs.getD (vs.length - 1) 0]) =
        some (deltaTimes startTime ts ++ [endTime - ts.getD (ts.length - 1) 0],
          c0 ++ [0]) := by
  have hva := (checkArguments_none_iff _ _ _ _ _).mp h
  have hpos : 0 < ts.length := hva.2.2.1
  have hlen : ts.length = vs.length := hva.2.2.2.2.2.1
  have hdl := deltaTimes_length startTime ts
  obtain ⟨c0, hc0, hcl, -⟩ := spreadLoop2_spec (deltaTimes startTime ts)
    ((List.range ts.length).map (rawCounted startTime ts vs))
    (by simp [deltaTimes])
    (by
      intro m hm
      rw [deltaTimes_length] at hm
      rw [deltaTimes_getD startTime ts hm]
      exact deltaTime_nonneg h hm)
    (by
      intro m hm
      rw [getD_map_range _ 0 (by simpa using hm)]
      exact rawCounted_nonneg h m)
  have hloop := spreadLoop2_append (deltaTimes startTime ts)
    [endTime - ts.getD (ts.length - 1) 0] [0]
    ((List.range ts.length).map (rawCounted startTime ts vs)) (by simp [deltaTimes])
  rw [hc0, Option.map_some'] at hloop
  rw [hdl] at hc0 hcl hloop
  refine ⟨c0, hcl, transform_eq_of_loop2 startTime endTime ts vs c0 hlen hc0, ?_⟩
  have hnew : forRange (spreadStep2 (deltaTimes startTime (ts ++ [endTime])))
      (ts ++ [endTime]).length 0
      ((List.range (ts ++ [endTime]).length).map
        (rawCounted startTime (ts ++ [endTime]) (vs ++ [vs.getD (vs.length - 1) 0]))) =
      some (c0 ++ [0]) := by
    rw [deltaTimes_append startTime endTime ts hpos,
      rawCounteds_append startTime endTime ts vs hlen.symm hpos,
      List.length_append, List.length_singleton, forRange_succ_last, hloop, Option.some_bind,
      Nat.zero_add]
    have h1 : (c0 ++ [0])[ts.length]? = some (0 : Int) := by
      rw [← hcl]; simp
    have h2 : (deltaTimes startTime ts ++ [endTime - ts.getD (ts.length - 1) 0])[ts.length]? =
        some (endTime - ts.getD (ts.length - 1) 0) := by
      rw [← hdl]; simp
    have hx : ¬ (0 > endTime - ts.getD (ts.length - 1) 0) := by
      have := hva.2.2.2.2.1
      omega
    simp only [spreadStep2, h1, h2, Option.bind_eq_bind, Option.some_bind, hx, if_false]
  have hfin := transform_eq_of_loop2 startTime endTime (ts ++ [endTime])
    (vs ++ [vs.getD (vs.length - 1) 0]) (c0 ++ [0]) (by simp [hlen]) hnew
  rw [deltaTimes_append startTime endTime ts hpos] at hfin
  exact hfin

theorem countedByPolicy1_append (vs c0 : List Int) (hc : c0.length = vs.length)
    (hpos : 0 < vs.length) {i : Nat} (hi : i < vs.length) :
    countedByPolicy1 (vs ++ [vs.getD (vs.length - 1) 0]) (c0 ++ [0]) i ↔
      countedByPolicy1 vs c0 i := by
  have hobs : observed (vs ++ [vs.getD (vs.length - 1) 0]) i ↔ observed vs i := by
    unfold observed
    constructor
    · rintro ⟨k, hk, hp⟩
      rw [List.getD_append _ _ _ _ (by omega)] at hp
      exact ⟨k, hk, hp⟩
    · rintro ⟨k, hk, hp⟩
      refine ⟨k, hk, ?_⟩
      rw [List.getD_append _ _ _ _ (by omega)]
      exact hp
  have hpa : positiveAhead (vs ++ [vs.getD (vs.length - 1) 0]) i ↔ positiveAhead vs i := by
    unfold positiveAhead
    constructor
    · rintro ⟨k, hk, hik, hp⟩
      have hk' : k < vs.length + 1 := by simpa using hk
      by_cases hkn : k < vs.length
      · rw [List.getD_append _ _ _ _ hkn] at hp
        exact ⟨k, hkn, hik, hp⟩
      · have e : k = vs.length := by omega
        rw [e, getD_append_last] at hp
        exact ⟨vs.length - 1, by omega, by omega, hp⟩
    · rintro ⟨k, hk, hik, hp⟩
      refine ⟨k, by simp; omega, hik, ?_⟩
      rw [List.getD_append _ _ _ _ hk]
      exact hp
  unfold countedByPolicy1
  rw [hobs, hpa, List.getD_append _ _ _ _ hi, List.getD_append _ _ _ _ (show i < c0.length by omega)]

theorem policy1Count_append_lt (vs c0 ds : List Int) (x : Int) (hc : c0.length = vs.length)
    (hd : ds.length = vs.length) (hpos : 0 < vs.length) {i : Nat} (hi : i < vs.length) :
    policy1Count (vs ++ [vs.getD (vs.length - 1) 0]) (c0 ++ [0]) (ds ++ [x]) i =
      policy1Count vs c0 ds i := by
  unfold policy1Count
  rw [List.getD_append _ _ _ _ (show i < ds.length by omega)]
  exact if_congr (countedByPolicy1_append vs c0 hc hpos hi) rfl rfl

theorem policy1Count_append_last (vs c0 ds : List Int) (x v : Int) (hd : ds.length = vs.length) :
    policy1Count (vs ++ [v]) (c0 ++ [0]) (ds ++ [x]) vs.length =
      if 0 < v then x else 0 := by
  unfold policy1Count
  have hx : (ds ++ [x]).getD vs.length 0 = x := by rw [← hd, getD_append_last]
  by_cases hv : 0 < v
  · have hcount : countedByPolicy1 (vs ++ [v]) (c0 ++ [0]) vs.length :=
      countedByPolicy1_of_pos _ _ _ (by rw [getD_append_last]; exact hv)
    rw [if_pos hcount, if_pos hv, hx]
  · have hno : ¬ countedByPolicy1 (vs ++ [v]) (c0 ++ [0]) vs.length := by
      rintro ⟨-, ⟨k, hk, hik, hp⟩, -⟩
      have hk' : k < vs.length + 1 := by simpa using hk
      have e : k = vs.length := by omega
      rw [e, getD_append_last] at hp
      exact hv hp
    rw [if_neg hno, if_neg hv]

/-- The sums of Policy-1 on the series with the last value repeated at
`endTime`: the counted sum grows by the trailing interval when the last value
is positive and is unchanged otherwise; the total is unchanged. -/
theorem sla1Sums_append {startTime endTime : Int} {ts vs : List Int}
    (h : checkArguments startTime endTime ts vs none = none) :
    ∃ n1, sla1Sums startTime endTime ts vs = some (n1, endTime - startTime) ∧
      sla1Sums startTime endTime (ts ++ [endTime]) (vs ++ [vs.getD (vs.length - 1) 0]) =
        some (n1 + (if 0 < vs.getD (vs.length - 1) 0 then
          endTime - ts.getD (ts.length - 1) 0 else 0), endTime - startTime) := by
  have hva := (checkArguments_none_iff _ _ _ _ _).mp h
  have hpos : 0 < ts.length := hva.2.2.1
  have hlen : vs.length = ts.length := hva.2.2.2.2.2.1.symm
  have hdl := deltaTimes_length startTime ts
  obtain ⟨c0, hcl, htr, htr'⟩ := transform_append h
  have h' := appended_accepted h (vs.getD (vs.length - 1) 0)
  have hs := sla1Sums_eq startTime endTime ts vs _ c0 htr hpos hlen hdl hcl
  have hs' := sla1Sums_eq startTime endTime (ts ++ [endTime])
    (vs ++ [vs.getD (vs.length - 1) 0]) _ (c0 ++ [0]) htr' (by simp) (by simp [hlen])
    (by simp [hdl]) (by simp [hcl])
  have htot := total_eq h
  have htot' := total_eq h'
  rw [deltaTimes_append startTime endTime ts hpos] at htot'
  rw [htot] at hs
  rw [htot'] at hs'
  refine ⟨_, hs, ?_⟩
  rw [hs']
  congr 2
  rw [List.length_append, List.length_singleton, List.range_succ, List.map_append,
    List.sum_append]
  congr 1
  · congr 1
    apply List.map_congr_left
    intro i hi
    exact policy1Count_append_lt vs c0 _ _ (by omega) (by omega) (by omega)
      (by have := List.mem_range.mp hi; omega)
  · simp only [List.map_cons, List.map_nil, List.sum_cons, List.sum_nil, add_zero]
    rw [← hlen]
    exact policy1Count_append_last vs c0 _ _ _ (by omega)

/-! ## The claims -/

/-- C1: for every input that `checkArguments` accepts, with arbitrary integer
values, `transformToSpreadedUptime` returns two arrays of length
`len(timestamps)` such that at every index the interval length is
non-negative and the counted value lies between `0` and the interval length. -/
theorem transformToSpreadedUptime_bounds (startTime endTime : Int)
    (timestamps uptimeValues : List Int) (exceptions : Option (List Bool))
    (h : checkArguments startTime endTime timestamps uptimeValues exceptions = none) :
    ∃ deltaTimeStamps countedVals,
      transformToSpreadedUptime startTime endTime timestamps uptimeValues =
        some (deltaTimeStamps, countedVals) ∧
      deltaTimeStamps.length = timestamps.length ∧
      countedVals.length = timestamps.length ∧
      ∀ i, i < timestamps.length →
        ∃ dt cu, deltaTimeStamps[i]? = some dt ∧ countedVals[i]? = some cu ∧
          0 ≤ dt ∧ 0 ≤ cu ∧ cu ≤ dt := by
  obtain ⟨-, -, c0, htr, hcl, hcb⟩ := accepted_facts h
  refine ⟨deltaTimes startTime timestamps, c0, htr, deltaTimes_length _ _, hcl, ?_⟩
  intro i hi
  refine ⟨deltaTime startTime timestamps i, c0.getD i 0, ?_, ?_, deltaTime_nonneg h hi,
    (hcb i hi).1, (hcb i hi).2⟩
  · rw [getElem?_eq_some_getD _ 0 (by rw [deltaTimes_length]; exact hi),
      deltaTimes_getD _ _ hi]
  · exact getElem?_eq_some_getD _ 0 (by omega)

/-- Witness of C1 on a series with an oversized advance, a reset and a
negative reading. -/
theorem transformToSpreadedUptime_bounds_witness :
    checkArguments 0 50 [10, 20, 30, 40] [5, 300, -2, 7] none = none ∧
    ∃ deltaTimeStamps countedVals,
      transformToSpreadedUptime 0 50 [10, 20, 30, 40] [5, 300, -2, 7] =
        some (deltaTimeStamps, countedVals) ∧
      deltaTimeStamps.length = [10, 20, 30, (40 : Int)].length ∧
      countedVals.length = [10, 20, 30, (40 : Int)].length ∧
      ∀ i, i < [10, 20, 30, (40 : Int)].length →
        ∃ dt cu, deltaTimeStamps[i]? = some dt ∧ countedVals[i]? = some cu ∧
          0 ≤ dt ∧ 0 ≤ cu ∧ cu ≤ dt :=
  ⟨by decide, transformToSpreadedUptime_bounds 0 50 [10, 20, 30, 40] [5, 300, -2, 7] none
    (by decide)⟩

/-- C2: `checkArguments` returns an error if and only if the start or end
time is negative, the timestamps are empty, the start time is after the first
timestamp, the end time is before the last one, the values have another length
than the timestamps, a provided exceptions array has another length than the
timestamps, or some timestamp is smaller than its predecessor.  Equal
consecutive timestamps are accepted; `startTime = -1`, empty timestamps,
timestamps `[5, 3]` and values shorter than the timestamps are rejected. -/
theorem checkArguments_error_iff (startTime endTime : Int)
    (timestamps uptimeValues : List Int) (exceptions : Option (List Bool)) :
    ((∃ err, checkArguments startTime endTime timestamps uptimeValues exceptions = some err) ↔
      (startTime < 0 ∨ endTime < 0 ∨ timestamps = [] ∨
        (∃ t, timestamps.head? = some t ∧ startTime > t) ∨
        (∃ t, timestamps.getLast? = some t ∧ endTime < t) ∨
        timestamps.length ≠ uptimeValues.length ∨
        (∃ ex, exceptions = some ex ∧ ex.length ≠ timestamps.length) ∨
        (∃ i a b, timestamps[i]? = some a ∧ timestamps[i + 1]? = some b ∧ b < a))) ∧
    checkArguments 0 9 [3, 3, 7] [1, 2, 3] none = none ∧
    (∀ e ts vs ex, checkArguments (-1) e ts vs ex ≠ none) ∧
    (∀ s e vs ex, checkArguments s e [] vs ex ≠ none) ∧
    (∀ s e vs ex, checkArguments s e [5, 3] vs ex ≠ none) ∧
    (∀ s e ts vs ex, vs.length < ts.length → checkArguments s e ts vs ex ≠ none) := by
  refine ⟨?_, by decide, ?_, ?_, ?_, ?_⟩
  · have hne : (∃ err, checkArguments startTime endTime timestamps uptimeValues exceptions =
        some err) ↔
        ¬ (checkArguments startTime endTime timestamps uptimeValues exceptions = none) := by
      cases checkArguments startTime endTime timestamps uptimeValues exceptions <;> simp
    rw [hne, checkArguments_none_iff]
    by_cases hts : timestamps = []
    · subst hts; simp
    · have hpos : 0 < timestamps.length := List.length_pos.mpr hts
      rw [List.head?_eq_getElem?, List.getLast?_eq_getElem?,
        exists_read_iff timestamps hpos (fun t => startTime > t),
        exists_read_iff timestamps (show timestamps.length - 1 < timestamps.length by omega)
          (fun t => endTime < t), unordered_iff]
      constructor
      · intro h
        by_contra hcon
        push_neg at hcon
        obtain ⟨c1, c2, -, c4, c5, c6, c7, c8⟩ := hcon
        exact h ⟨c1, c2, hpos, by simpa using c4, by simpa using c5, c6,
          fun ex hex => (c7 ex hex).symm, c8⟩
      · rintro h ⟨c1, c2, -, c4, c5, c6, c7, c8⟩
        rcases h with h | h | h | h | h | h | ⟨ex, hex, h⟩ | h
        · omega
        · omega
        · exact hts h
        · omega
        · omega
        · exact h c6
        · exact h (c7 ex hex).symm
        · exact h c8
  · intro e ts vs ex h
    have := ((checkArguments_none_iff _ _ _ _ _).mp h).1
    omega
  · intro s e vs ex h
    have := ((checkArguments_none_iff _ _ _ _ _).mp h).2.2.1
    simp at this
  · intro s e vs ex h
    have := ((checkArguments_none_iff _ _ _ _ _).mp h).2.2.2.2.2.2.2 0 (by simp)
    simp at this
  · intro s e ts vs ex hlt h
    have := ((checkArguments_none_iff _ _ _ _ _).mp h).2.2.2.2.2.1
    omega

/-- Witness of C2: values shorter than the timestamps are rejected. -/
theorem checkArguments_error_iff_witness :
    ([1] : List Int).length < ([1, 2] : List Int).length ∧
      checkArguments 0 5 [1, 2] [1] none ≠ none :=
  ⟨by decide, (checkArguments_error_iff 0 5 [1, 2] [1] none).2.2.2.2.2 0 5 [1, 2] [1] none
    (by decide)⟩

/-- C3: each of `CalculateSNMPAvailability`, `CalculateUptimeAvailability`,
`CalculateSLA1Availability` and `GetUptimeStateSeriesData` either is called on
an input that `checkArguments` accepts, and then completes (no index out of
range, every loop terminates) with a value and no error, or is called on an
input that `checkArguments` rejects, and then returns that error with the
value `0` (`nil` for the state series). -/
theorem operations_error_exactly_when_rejected (startTime endTime : Int)
    (timestamps uptimeValues : List Int) :
    (checkArguments startTime endTime timestamps uptimeValues none = none ∧
      (∃ q, CalculateSNMPAvailability startTime endTime timestamps uptimeValues =
        some (q, none)) ∧
      (∃ q, CalculateUptimeAvailability startTime endTime timestamps uptimeValues =
        some (q, none)) ∧
      (∃ q, CalculateSLA1Availability startTime endTime timestamps uptimeValues =
        some (q, none)) ∧
      (∃ states, GetUptimeStateSeriesData startTime endTime timestamps uptimeValues =
        some (some states, none))) ∨
    (∃ err, checkArguments startTime endTime timestamps uptimeValues none = some err ∧
      CalculateSNMPAvailability startTime endTime timestamps uptimeValues =
        some (F64.zero, some err) ∧
      CalculateUptimeAvailability startTime endTime timestamps uptimeValues =
        some (F64.zero, some err) ∧
      CalculateSLA1Availability startTime endTime timestamps uptimeValues =
        some (F64.zero, some err) ∧
      GetUptimeStateSeriesData startTime endTime timestamps uptimeValues =
        some (none, some err)) := by
  cases h : checkArguments startTime endTime timestamps uptimeValues none with
  | some err =>
    right
    exact ⟨err, rfl, CalculateSNMPAvailability_rejected _ _ _ _ err h,
      CalculateUptimeAvailability_rejected _ _ _ _ err h,
      CalculateSLA1Availability_rejected _ _ _ _ err h,
      GetUptimeStateSeriesData_rejected _ _ _ _ err h⟩
  | none =>
    left
    obtain ⟨hpos, hv, c0, htr, hcl, -⟩ := accepted_facts h
    have hdl := deltaTimes_length startTime timestamps
    exact ⟨rfl,
      ⟨_, CalculateSNMPAvailability_accepted _ _ _ _ _ h (snmpSums_eq h)⟩,
      ⟨_, CalculateUptimeAvailability_accepted _ _ _ _ _ h
        (uptimeSums_eq startTime endTime timestamps uptimeValues _ c0 htr hpos (by omega))⟩,
      ⟨_, CalculateSLA1Availability_accepted _ _ _ _ _ h
        (sla1Sums_eq startTime endTime timestamps uptimeValues _ c0 htr hpos hv hdl hcl)⟩,
      ⟨_, GetUptimeStateSeriesData_accepted _ _ _ _ _ h
        (stateSeries_eq startTime endTime timestamps uptimeValues _ c0 htr hpos hv hcl)⟩⟩

/-- C4: for every input that passes validation, the per-sample values that
`CalculateSLA1Availability` sums are `deltaTime[i]` at exactly the samples `i`
such that (a) some `k ≤ i` has `values[k] > 0`, (b) some `k ≥ i` has
`values[k] > 0`, and (c) it is not the case that `values[i] ≤ 0` while the
spread-reconstructed `countedUptime[i] > 0`; every other sample and the
trailing interval contribute `0`, and the numerator is the sum of these
values. -/
theorem sla1_numerator_characterised (startTime endTime : Int)
    (timestamps uptimeValues : List Int)
    (h : checkArguments startTime endTime timestamps uptimeValues none = none) :
    ∃ spread counted,
      transformToSpreadedUptime startTime endTime timestamps uptimeValues =
        some (deltaTimes startTime timestamps, spread) ∧
      counted = (List.range timestamps.length).map
        (fun i => if countedByPolicy1 uptimeValues spread i then
          deltaTime startTime timestamps i else 0) ∧
      (∀ i, countedByPolicy1 uptimeValues spread i ↔
        ((∃ k, k ≤ i ∧ 0 < uptimeValues.getD k 0) ∧
          (∃ k, i ≤ k ∧ 0 < uptimeValues.getD k 0) ∧
          ¬ (uptimeValues.getD i 0 ≤ 0 ∧ 0 < spread.getD i 0))) ∧
      sla1Counted startTime endTime timestamps uptimeValues =
        some (deltaTimes startTime timestamps, counted) ∧
      sla1Intervals startTime endTime timestamps uptimeValues =
        some (if endTime - timestamps.getD (timestamps.length - 1) 0 > 0 then
          (deltaTimes startTime timestamps ++
              [endTime - timestamps.getD (timestamps.length - 1) 0], counted ++ [0])
          else (deltaTimes startTime timestamps, counted)) ∧
      (∀ i x, counted[i]? = some x → x = 0 ∨ x = deltaTime startTime timestamps i) ∧
      ∃ total, sla1Sums startTime endTime timestamps uptimeValues =
          some (counted.sum, total) ∧
        CalculateSLA1Availability startTime endTime timestamps uptimeValues =
          some (F64.div counted.sum total, none) := by
  obtain ⟨hpos, hv, c0, htr, hcl, -⟩ := accepted_facts h
  have hdl := deltaTimes_length startTime timestamps
  have hcounted := sla1Counted_eq startTime endTime timestamps uptimeValues _ c0 htr hpos hv
    hdl hcl
  have hsums := sla1Sums_eq startTime endTime timestamps uptimeValues _ c0 htr hpos hv hdl hcl
  rw [policy1Count_deltaTimes] at hcounted hsums
  refine ⟨c0, _, htr, rfl, countedByPolicy1_iff uptimeValues c0, hcounted, ?_, ?_, _, hsums,
    CalculateSLA1Availability_accepted _ _ _ _ _ h hsums⟩
  · unfold sla1Intervals
    rw [hcounted, Option.some_bind, appendTrailing_eq endTime timestamps hpos]
  · intro i x hx
    rw [List.getElem?_map] at hx
    by_cases hi : i < timestamps.length
    · rw [List.getElem?_range hi] at hx
      simp only [Option.map_some'] at hx
      cases hx
      split_ifs
      · exact Or.inr rfl
      · exact Or.inl rfl
    · rw [List.getElem?_eq_none (by simp; omega)] at hx
      cases hx

/-- Witness of C4 on a series with a reset and a trailing interval. -/
theorem sla1_numerator_characterised_witness :
    checkArguments 0 50 ([10, 20, 30, 40] : List Int) ([5, 300, -2, 7] : List Int) none = none ∧
    (∃ spread counted,
      transformToSpreadedUptime 0 50 ([10, 20, 30, 40] : List Int) ([5, 300, -2, 7] : List Int) =
        some (deltaTimes 0 ([10, 20, 30, 40] : List Int), spread) ∧
      counted = (List.range ([10, 20, 30, 40] : List Int).length).map
        (fun i => if countedByPolicy1 ([5, 300, -2, 7] : List Int) spread i then
          deltaTime 0 ([10, 20, 30, 40] : List Int) i else 0) ∧
      (∀ i, countedByPolicy1 ([5, 300, -2, 7] : List Int) spread i ↔
        ((∃ k, k ≤ i ∧ 0 < ([5, 300, -2, 7] : List Int).getD k 0) ∧
          (∃ k, i ≤ k ∧ 0 < ([5, 300, -2, 7] : List Int).getD k 0) ∧
          ¬ (([5, 300, -2, 7] : List Int).getD i 0 ≤ 0 ∧ 0 < spread.getD i 0))) ∧
      sla1Counted 0 50 ([10, 20, 30, 40] : List Int) ([5, 300, -2, 7] : List Int) =
        some (deltaTimes 0 ([10, 20, 30, 40] : List Int), counted) ∧
      sla1Intervals 0 50 ([10, 20, 30, 40] : List Int) ([5, 300, -2, 7] : List Int) =
        some (if 50 - ([10, 20, 30, 40] : List Int).getD (([10, 20, 30, 40] : List Int).length - 1) 0 > 0 then
          (deltaTimes 0 ([10, 20, 30, 40] : List Int) ++
              [50 - ([10, 20, 30, 40] : List Int).getD (([10, 20, 30, 40] : List Int).length - 1) 0], counted ++ [0])
          else (deltaTimes 0 ([10, 20, 30, 40] : List Int), counted)) ∧
      (∀ i x, counted[i]? = some x → x = 0 ∨ x = deltaTime 0 ([10, 20, 30, 40] : List Int) i) ∧
      ∃ total, sla1Sums 0 50 ([10, 20, 30, 40] : List Int) ([5, 300, -2, 7] : List Int) =
          some (counted.sum, total) ∧
        CalculateSLA1Availability 0 50 ([10, 20, 30, 40] : List Int) ([5, 300, -2, 7] : List Int) =
          some (F64.div counted.sum total, none)) :=
  ⟨by decide, sla1_numerator_characterised 0 50 ([10, 20, 30, 40] : List Int) ([5, 300, -2, 7] : List Int) (by decide)⟩

/-- C5: for every input that passes validation with an exceptions array of
matching length, and every index `i` with `exceptions[i] = true`, the
per-interval counted value that `CalculateSLA2Availability` sums for sample
`i` is exactly `deltaTime[i]`, whatever the values are. -/
theorem sla2_flagged_sample_counts_full (startTime endTime : Int)
    (timestamps uptimeValues : List Int) (exceptions : List Bool) (i : Nat)
    (h : checkArguments startTime endTime timestamps uptimeValues (some exceptions) = none)
    (hi : exceptions[i]? = some true) :
    ∃ deltaTimeStamps countedVals,
      sla2Intervals startTime endTime timestamps uptimeValues (some exceptions) =
        some (deltaTimeStamps, countedVals) ∧
      deltaTimeStamps[i]? = some (deltaTime startTime timestamps i) ∧
      countedVals[i]? = some (deltaTime startTime timestamps i) ∧
      ∃ total, sla2Sums startTime endTime timestamps uptimeValues (some exceptions) =
        some (countedVals.sum, total) := by
  obtain ⟨hpos, hv, c0, htr, hcl, -⟩ := accepted_facts h
  have hdl := deltaTimes_length startTime timestamps
  have he : exceptions.length = timestamps.length :=
    (((checkArguments_none_iff _ _ _ _ _).mp h).2.2.2.2.2.2.1 exceptions rfl).symm
  have hin : i < timestamps.length := by
    by_contra hcon
    rw [List.getElem?_eq_none (by omega)] at hi
    cases hi
  have hcounted := sla2Counted_eq startTime endTime timestamps uptimeValues _ c0 exceptions
    htr hpos hv hdl hcl he
  obtain ⟨ds', cs', hap, hds, hcs⟩ := appendTrailing_getElem? endTime timestamps hpos
    (deltaTimes startTime timestamps)
    ((List.range timestamps.length).map
      (policy2Count uptimeValues c0 (deltaTimes startTime timestamps) exceptions))
    (show i < _ by omega) (show i < _ by simp; omega)
  have hint : sla2Intervals startTime endTime timestamps uptimeValues (some exceptions) =
      some (ds', cs') := by
    unfold sla2Intervals
    rw [hcounted, Option.some_bind, hap]
  refine ⟨ds', cs', hint, ?_, ?_, ?_⟩
  · rw [hds, getElem?_eq_some_getD _ 0 (by omega), deltaTimes_getD _ _ hin]
  · rw [hcs, List.getElem?_map, List.getElem?_range hin]
    simp only [Option.map_some', policy2Count, getD_of_getElem? exceptions false hi, if_true]
    rw [deltaTimes_getD _ _ hin]
  · have hlen : cs'.length = ds'.length := by
      rw [appendTrailing_eq endTime timestamps hpos] at hap
      split_ifs at hap <;> cases hap <;> simp [hdl]
    refine ⟨ds'.sum, ?_⟩
    unfold sla2Sums
    rw [hint, Option.some_bind, sumLoop_eq ds' cs' hlen]

/-- Witness of C5: a flagged sample in the trailing run, with no positive reading before it. -/
theorem sla2_flagged_sample_counts_full_witness :
    checkArguments 0 50 ([10, 20, 30] : List Int) ([0, -1, 0] : List Int) (some ([false, true, true] : List Bool)) = none ∧
    ([false, true, true] : List Bool)[2]? = some true ∧
    (∃ deltaTimeStamps countedVals,
      sla2Intervals 0 50 ([10, 20, 30] : List Int) ([0, -1, 0] : List Int) (some ([false, true, true] : List Bool)) =
        some (deltaTimeStamps, countedVals) ∧
      deltaTimeStamps[2]? = some (deltaTime 0 ([10, 20, 30] : List Int) 2) ∧
      countedVals[2]? = some (deltaTime 0 ([10, 20, 30] : List Int) 2) ∧
      ∃ total, sla2Sums 0 50 ([10, 20, 30] : List Int) ([0, -1, 0] : List Int) (some ([false, true, true] : List Bool)) =
        some (countedVals.sum, total)) :=
  ⟨by decide, by decide, sla2_flagged_sample_counts_full 0 50 ([10, 20, 30] : List Int) ([0, -1, 0] : List Int) ([false, true, true] : List Bool) 2 (by decide) (by decide)⟩

/-- C6: for every input and an exceptions array of length `len(timestamps)`
whose entries are all false, `CalculateSLA2Availability` returns the same
result as `CalculateSLA1Availability` on the same series: the same error
outcome, the same numerator and the same denominator. -/
theorem sla2_unflagged_eq_sla1 (startTime endTime : Int)
    (timestamps uptimeValues : List Int) (exceptions : Option (List Bool))
    (hlen : (boolSlice exceptions).length = timestamps.length)
    (hall : ∀ b, b ∈ boolSlice exceptions → b = false) :
    checkArguments startTime endTime timestamps uptimeValues exceptions =
      checkArguments startTime endTime timestamps uptimeValues none ∧
    sla2Sums startTime endTime timestamps uptimeValues exceptions =
      sla1Sums startTime endTime timestamps uptimeValues ∧
    CalculateSLA2Availability startTime endTime timestamps uptimeValues exceptions =
      CalculateSLA1Availability startTime endTime timestamps uptimeValues := by
  cases exceptions with
  | none =>
    have hts : timestamps = [] := List.length_eq_zero.mp hlen.symm
    subst hts
    refine ⟨rfl, rfl, ?_⟩
    · unfold CalculateSLA2Availability CalculateSLA1Availability
      cases hc : checkArguments startTime endTime [] uptimeValues none with
      | some err => rfl
      | none =>
        have := ((checkArguments_none_iff _ _ _ _ _).mp hc).2.2.1
        simp at this
  | some ex =>
    have hl : ex.length = timestamps.length := hlen
    have hcheck := checkArguments_some_eq_none startTime endTime timestamps uptimeValues ex hl
    have hsums : sla2Sums startTime endTime timestamps uptimeValues (some ex) =
        sla1Sums startTime endTime timestamps uptimeValues := by
      unfold sla2Sums sla2Intervals sla1Sums sla1Intervals
      rw [sla2Counted_allFalse startTime endTime timestamps uptimeValues ex hl
        (fun k _ => getD_false_of_all_false ex hall k)]
    refine ⟨hcheck, hsums, ?_⟩
    unfold CalculateSLA2Availability CalculateSLA1Availability
    rw [hcheck, hsums]

/-- Witness of C6 on a series with a reset and a trailing interval. -/
theorem sla2_unflagged_eq_sla1_witness :
    (boolSlice (some [false, false, false, false])).length = ([10, 20, 30, 40] : List Int).length ∧
    (∀ b, b ∈ boolSlice (some [false, false, false, false]) → b = false) ∧
    (checkArguments 0 50 ([10, 20, 30, 40] : List Int) ([5, 300, -2, 7] : List Int) (some [false, false, false, false]) =
      checkArguments 0 50 ([10, 20, 30, 40] : List Int) ([5, 300, -2, 7] : List Int) none ∧
    sla2Sums 0 50 ([10, 20, 30, 40] : List Int) ([5, 300, -2, 7] : List Int) (some [false, false, false, false]) =
      sla1Sums 0 50 ([10, 20, 30, 40] : List Int) ([5, 300, -2, 7] : List Int) ∧
    CalculateSLA2Availability 0 50 ([10, 20, 30, 40] : List Int) ([5, 300, -2, 7] : List Int) (some [false, false, false, false]) =
      CalculateSLA1Availability 0 50 ([10, 20, 30, 40] : List Int) ([5, 300, -2, 7] : List Int)) :=
  ⟨by decide, by decide, sla2_unflagged_eq_sla1 0 50 ([10, 20, 30, 40] : List Int) ([5, 300, -2, 7] : List Int) (some [false, false, false, false]) (by decide) (by decide)⟩

/-- C7: for every input that passes validation, `GetUptimeStateSeriesData`
returns exactly `len(timestamps)` labels, each one of up, down, open, with
`states[i] = open` if and only if `values[k] ≤ 0` for every `k ≥ i`; otherwise
`states[i]` is up when the spread-reconstructed `countedUptime[i] > 0` and
down when it is `0`. -/
theorem state_series_labels (startTime endTime : Int)
    (timestamps uptimeValues : List Int)
    (h : checkArguments startTime endTime timestamps uptimeValues none = none) :
    ∃ spread states,
      transformToSpreadedUptime startTime endTime timestamps uptimeValues =
        some (deltaTimes startTime timestamps, spread) ∧
      GetUptimeStateSeriesData startTime endTime timestamps uptimeValues =
        some (some states, none) ∧
      states.length = timestamps.length ∧
      ∀ i, i < timestamps.length → ∃ label, states[i]? = some label ∧
        (label = StateUp ∨ label = StateDown ∨ label = StateOpen) ∧
        (label = StateOpen ↔
          ∀ k, i ≤ k → k < timestamps.length → uptimeValues.getD k 0 ≤ 0) ∧
        (label ≠ StateOpen →
          (label = StateUp ↔ 0 < spread.getD i 0) ∧
          (label = StateDown ↔ spread.getD i 0 = 0)) := by
  obtain ⟨hpos, hv, c0, htr, hcl, hcb⟩ := accepted_facts h
  have hst := stateSeries_eq startTime endTime timestamps uptimeValues _ c0 htr hpos hv hcl
  obtain ⟨hud, huo, hdo⟩ := state_labels_distinct
  refine ⟨c0, _, htr, GetUptimeStateSeriesData_accepted _ _ _ _ _ h hst, by simp, ?_⟩
  intro i hi
  have hrun := positiveAhead_iff uptimeValues timestamps.length hv i
  have hnn := (hcb i hi).1
  refine ⟨stateLabel uptimeValues c0 i, ?_, ?_, ?_, ?_⟩
  · rw [List.getElem?_map, List.getElem?_range hi]
    rfl
  · unfold stateLabel
    split_ifs
    · exact Or.inl rfl
    · exact Or.inr (Or.inl rfl)
    · exact Or.inr (Or.inr rfl)
  · rw [← hrun]
    unfold stateLabel
    split_ifs with h1 h2
    · exact ⟨fun e => absurd e huo, fun e => absurd h1 e⟩
    · exact ⟨fun e => absurd e hdo, fun e => absurd h1 e⟩
    · exact ⟨fun _ => h1, fun _ => rfl⟩
  · unfold stateLabel
    split_ifs with h1 h2
    · intro _
      exact ⟨⟨fun _ => h2, fun _ => rfl⟩, ⟨fun e => absurd e hud, fun e => by omega⟩⟩
    · intro _
      exact ⟨⟨fun e => absurd e.symm hud, fun e => absurd e h2⟩,
        ⟨fun _ => by omega, fun _ => rfl⟩⟩
    · intro e
      exact absurd rfl e

/-- Witness of C7 on a series with an up, a down and an open sample. -/
theorem state_series_labels_witness :
    checkArguments 0 50 ([10, 20, 30, 40] : List Int) ([5, 5, 7, 0] : List Int) none = none ∧
    (∃ spread states,
      transformToSpreadedUptime 0 50 ([10, 20, 30, 40] : List Int) ([5, 5, 7, 0] : List Int) =
        some (deltaTimes 0 ([10, 20, 30, 40] : List Int), spread) ∧
      GetUptimeStateSeriesData 0 50 ([10, 20, 30, 40] : List Int) ([5, 5, 7, 0] : List Int) =
        some (some states, none) ∧
      states.length = ([10, 20, 30, 40] : List Int).length ∧
      ∀ i, i < ([10, 20, 30, 40] : List Int).length → ∃ label, states[i]? = some label ∧
        (label = StateUp ∨ label = StateDown ∨ label = StateOpen) ∧
        (label = StateOpen ↔
          ∀ k, i ≤ k → k < ([10, 20, 30, 40] : List Int).length → ([5, 5, 7, 0] : List Int).getD k 0 ≤ 0) ∧
        (label ≠ StateOpen →
          (label = StateUp ↔ 0 < spread.getD i 0) ∧
          (label = StateDown ↔ spread.getD i 0 = 0))) :=
  ⟨by decide, state_series_labels 0 50 ([10, 20, 30, 40] : List Int) ([5, 5, 7, 0] : List Int) (by decide)⟩

/-- C8: for every input that passes validation, `CalculateSNMPAvailability`
divides `N` by `D`, where `N` is the sum of `deltaTime[i]` over exactly the
samples with `values[i] > 0` and `D` is the sum of all `deltaTime[i]` plus the
trailing interval when that is positive; values with the same signs give the
same result, whatever their magnitudes and differences. -/
theorem snmp_counts_positive_samples (startTime endTime : Int)
    (timestamps uptimeValues : List Int)
    (h : checkArguments startTime endTime timestamps uptimeValues none = none) :
    snmpSums startTime endTime timestamps uptimeValues =
      some (((List.range timestamps.length).map
          (fun i => if 0 < uptimeValues.getD i 0 then deltaTime startTime timestamps i
            else 0)).sum,
        ((List.range timestamps.length).map (deltaTime startTime timestamps)).sum +
          (if endTime - timestamps.getD (timestamps.length - 1) 0 > 0 then
            endTime - timestamps.getD (timestamps.length - 1) 0 else 0)) ∧
    CalculateSNMPAvailability startTime endTime timestamps uptimeValues =
      some (F64.div
        ((List.range timestamps.length).map
          (fun i => if 0 < uptimeValues.getD i 0 then deltaTime startTime timestamps i
            else 0)).sum
        (((List.range timestamps.length).map (deltaTime startTime timestamps)).sum +
          (if endTime - timestamps.getD (timestamps.length - 1) 0 > 0 then
            endTime - timestamps.getD (timestamps.length - 1) 0 else 0)), none) ∧
    ∀ otherValues : List Int, otherValues.length = uptimeValues.length →
      (∀ i, 0 < otherValues.getD i 0 ↔ 0 < uptimeValues.getD i 0) →
      CalculateSNMPAvailability startTime endTime timestamps otherValues =
        CalculateSNMPAvailability startTime endTime timestamps uptimeValues := by
  have hs := snmpSums_eq h
  have hacc := CalculateSNMPAvailability_accepted _ _ _ _ _ h hs
  refine ⟨hs, hacc, ?_⟩
  intro otherValues hlen hsign
  have hv := (checkArguments_none_iff _ _ _ _ _).mp h
  have h' : checkArguments startTime endTime timestamps otherValues none = none := by
    rw [checkArguments_none_iff]
    exact ⟨hv.1, hv.2.1, hv.2.2.1, hv.2.2.2.1, hv.2.2.2.2.1, by omega, by simp,
      hv.2.2.2.2.2.2.2⟩
  have hs' := snmpSums_eq h'
  rw [CalculateSNMPAvailability_accepted _ _ _ _ _ h' hs', hacc]
  simp only [hsign]

/-- Witness of C8 on a series with a reset and a trailing interval. -/
theorem snmp_counts_positive_samples_witness :
    checkArguments 0 50 ([10, 20, 30, 40] : List Int) ([5, 300, -2, 7] : List Int) none = none ∧
    (snmpSums 0 50 ([10, 20, 30, 40] : List Int) ([5, 300, -2, 7] : List Int) =
      some (((List.range ([10, 20, 30, 40] : List Int).length).map
          (fun i => if 0 < ([5, 300, -2, 7] : List Int).getD i 0 then deltaTime 0 ([10, 20, 30, 40] : List Int) i
            else 0)).sum,
        ((List.range ([10, 20, 30, 40] : List Int).length).map (deltaTime 0 ([10, 20, 30, 40] : List Int))).sum +
          (if 50 - ([10, 20, 30, 40] : List Int).getD (([10, 20, 30, 40] : List Int).length - 1) 0 > 0 then
            50 - ([10, 20, 30, 40] : List Int).getD (([10, 20, 30, 40] : List Int).length - 1) 0 else 0)) ∧
    CalculateSNMPAvailability 0 50 ([10, 20, 30, 40] : List Int) ([5, 300, -2, 7] : List Int) =
      some (F64.div
        ((List.range ([10, 20, 30, 40] : List Int).length).map
          (fun i => if 0 < ([5, 300, -2, 7] : List Int).getD i 0 then deltaTime 0 ([10, 20, 30, 40] : List Int) i
            else 0)).sum
        (((List.range ([10, 20, 30, 40] : List Int).length).map (deltaTime 0 ([10, 20, 30, 40] : List Int))).sum +
          (if 50 - ([10, 20, 30, 40] : List Int).getD (([10, 20, 30, 40] : List Int).length - 1) 0 > 0 then
            50 - ([10, 20, 30, 40] : List Int).getD (([10, 20, 30, 40] : List Int).length - 1) 0 else 0)), none) ∧
    ∀ otherValues : List Int, otherValues.length = ([5, 300, -2, 7] : List Int).length →
      (∀ i, 0 < otherValues.getD i 0 ↔ 0 < ([5, 300, -2, 7] : List Int).getD i 0) →
      CalculateSNMPAvailability 0 50 ([10, 20, 30, 40] : List Int) otherValues =
        CalculateSNMPAvailability 0 50 ([10, 20, 30, 40] : List Int) ([5, 300, -2, 7] : List Int)) :=
  ⟨by decide, snmp_counts_positive_samples 0 50 ([10, 20, 30, 40] : List Int) ([5, 300, -2, 7] : List Int) (by decide)⟩

/-- C9: for every input that passes validation, and for
`CalculateSLA2Availability` every exceptions array of matching length, the
numerator and the denominator that each of the four accumulators divides
satisfy `0 ≤ sum(countedUptime) ≤ sum(deltaTime)`, so the returned ratio lies
in `[0, 1]` whenever the denominator is not zero. -/
theorem accumulators_within_unit (startTime endTime : Int)
    (timestamps uptimeValues : List Int)
    (h : checkArguments startTime endTime timestamps uptimeValues none = none) :
    RatioWithinUnit (snmpSums startTime endTime timestamps uptimeValues)
      (CalculateSNMPAvailability startTime endTime timestamps uptimeValues) ∧
    RatioWithinUnit (uptimeSums startTime endTime timestamps uptimeValues)
      (CalculateUptimeAvailability startTime endTime timestamps uptimeValues) ∧
    RatioWithinUnit (sla1Sums startTime endTime timestamps uptimeValues)
      (CalculateSLA1Availability startTime endTime timestamps uptimeValues) ∧
    ∀ exceptions : List Bool, exceptions.length = timestamps.length →
      RatioWithinUnit (sla2Sums startTime endTime timestamps uptimeValues (some exceptions))
        (CalculateSLA2Availability startTime endTime timestamps uptimeValues
          (some exceptions)) := by
  obtain ⟨hpos, hv, c0, htr, hcl, hcb⟩ := accepted_facts h
  have hdl := deltaTimes_length startTime timestamps
  have hdn : ∀ m, m < timestamps.length → 0 ≤ (deltaTimes startTime timestamps).getD m 0 := by
    intro m hm
    rw [deltaTimes_getD _ _ hm]
    exact deltaTime_nonneg h hm
  refine ⟨?_, ?_, ?_, ?_⟩
  · have hs := snmpSums_eq h
    refine ratioWithinUnit_intro _ _ _ _ hs
      (CalculateSNMPAvailability_accepted _ _ _ _ _ h hs)
      (sums_bounds startTime endTime timestamps _ ?_)
    intro m hm
    have := deltaTime_nonneg h hm
    split_ifs <;> exact ⟨by omega, by omega⟩
  · have hs := uptimeSums_eq startTime endTime timestamps uptimeValues _ c0 htr hpos
      (by omega)
    refine ratioWithinUnit_intro _ _ _ _ hs
      (CalculateUptimeAvailability_accepted _ _ _ _ _ h hs) ?_
    have hc0 : c0 = (List.range timestamps.length).map (fun m => c0.getD m 0) :=
      eq_map_range_of_getD c0 0 _ _ hcl (fun _ _ => rfl)
    rw [hc0]
    exact sums_bounds startTime endTime timestamps _ hcb
  · have hs := sla1Sums_eq startTime endTime timestamps uptimeValues _ c0 htr hpos hv hdl hcl
    refine ratioWithinUnit_intro _ _ _ _ hs
      (CalculateSLA1Availability_accepted _ _ _ _ _ h hs)
      (sums_bounds startTime endTime timestamps _ ?_)
    intro m hm
    have := policy1Count_bounds uptimeValues c0 _ m (hdn m hm)
    rwa [deltaTimes_getD _ _ hm] at this
  · intro exceptions he
    have hs := sla2Sums_eq startTime endTime timestamps uptimeValues _ c0 exceptions htr hpos
      hv hdl hcl he
    refine ratioWithinUnit_intro _ _ _ _ hs
      (CalculateSLA2Availability_accepted _ _ _ _ _ _
        (checkArguments_some_of_none h exceptions he) hs)
      (sums_bounds startTime endTime timestamps _ ?_)
    intro m hm
    have := policy2Count_bounds uptimeValues c0 _ exceptions m (hdn m hm)
    rwa [deltaTimes_getD _ _ hm] at this

/-- Witness of C9 on a series with a reset and a trailing interval. -/
theorem accumulators_within_unit_witness :
    checkArguments (0 : Int) (50 : Int) ([10, 20, 30, 40] : List Int) ([5, 300, -2, 7] : List Int) none = none ∧
    (RatioWithinUnit (snmpSums (0 : Int) (50 : Int) ([10, 20, 30, 40] : List Int) ([5, 300, -2, 7] : List Int))
      (CalculateSNMPAvailability (0 : Int) (50 : Int) ([10, 20, 30, 40] : List Int) ([5, 300, -2, 7] : List Int)) ∧
    RatioWithinUnit (uptimeSums (0 : Int) (50 : Int) ([10, 20, 30, 40] : List Int) ([5, 300, -2, 7] : List Int))
      (CalculateUptimeAvailability (0 : Int) (50 : Int) ([10, 20, 30, 40] : List Int) ([5, 300, -2, 7] : List Int)) ∧
    RatioWithinUnit (sla1Sums (0 : Int) (50 : Int) ([10, 20, 30, 40] : List Int) ([5, 300, -2, 7] : List Int))
      (CalculateSLA1Availability (0 : Int) (50 : Int) ([10, 20, 30, 40] : List Int) ([5, 300, -2, 7] : List Int)) ∧
    ∀ exceptions : List Bool, exceptions.length = ([10, 20, 30, 40] : List Int).length →
      RatioWithinUnit (sla2Sums (0 : Int) (50 : Int) ([10, 20, 30, 40] : List Int) ([5, 300, -2, 7] : List Int) (some exceptions))
        (CalculateSLA2Availability (0 : Int) (50 : Int) ([10, 20, 30, 40] : List Int) ([5, 300, -2, 7] : List Int)
          (some exceptions))) :=
  ⟨by decide, accumulators_within_unit (0 : Int) (50 : Int) ([10, 20, 30, 40] : List Int) ([5, 300, -2, 7] : List Int) (by decide)⟩

/-- C10, as stated, fails: on the accepted single-sample series
`timestamps = [5]`, `values = [1]` with `startTime = endTime = 5` every
accumulator sums a total of `0` and divides `0` by `0`. -/
theorem zero_total_counterexample :
    checkArguments 5 5 [5] [1] (some [false]) = none ∧
    snmpSums 5 5 [5] [1] = some (0, 0) ∧
    uptimeSums 5 5 [5] [1] = some (0, 0) ∧
    sla1Sums 5 5 [5] [1] = some (0, 0) ∧
    sla2Sums 5 5 [5] [1] (some [false]) = some (0, 0) ∧
    CalculateSNMPAvailability 5 5 [5] [1] = some (F64.nan, none) ∧
    CalculateUptimeAvailability 5 5 [5] [1] = some (F64.nan, none) ∧
    CalculateSLA1Availability 5 5 [5] [1] = some (F64.nan, none) ∧
    CalculateSLA2Availability 5 5 [5] [1] (some [false]) = some (F64.nan, none) := by
  refine ⟨by decide, by decide, by decide, by decide, by decide, rfl, rfl, rfl, rfl⟩

/-- C10, amended: for every input that passes validation, the total that each
of the four accumulators uses as its divisor is the same non-negative number,
and it is strictly positive exactly when `endTime > startTime`. -/
theorem accumulators_total_positive_iff (startTime endTime : Int)
    (timestamps uptimeValues : List Int)
    (h : checkArguments startTime endTime timestamps uptimeValues none = none) :
    ∃ total,
      HasDivisor (snmpSums startTime endTime timestamps uptimeValues) total ∧
      HasDivisor (uptimeSums startTime endTime timestamps uptimeValues) total ∧
      HasDivisor (sla1Sums startTime endTime timestamps uptimeValues) total ∧
      (∀ exceptions : List Bool, exceptions.length = timestamps.length →
        HasDivisor (sla2Sums startTime endTime timestamps uptimeValues (some exceptions))
          total) ∧
      0 ≤ total ∧ (0 < total ↔ startTime < endTime) := by
  obtain ⟨hpos, hv, c0, htr, hcl, -⟩ := accepted_facts h
  have hdl := deltaTimes_length startTime timestamps
  have htot := total_eq h
  have hle : startTime ≤ endTime := by
    have hd : 0 ≤ (deltaTimes startTime timestamps).sum := by
      have := sum_map_range_bounds (deltaTime startTime timestamps)
        (deltaTime startTime timestamps) timestamps.length
        (fun m hm => ⟨deltaTime_nonneg h hm, le_refl _⟩)
      exact this.1
    have := trailingTime_nonneg endTime timestamps
    omega
  refine ⟨(deltaTimes startTime timestamps).sum + trailingTime endTime timestamps,
    ⟨_, snmpSums_eq h⟩,
    ⟨_, uptimeSums_eq startTime endTime timestamps uptimeValues _ c0 htr hpos (by omega)⟩,
    ⟨_, sla1Sums_eq startTime endTime timestamps uptimeValues _ c0 htr hpos hv hdl hcl⟩,
    fun exceptions he =>
      ⟨_, sla2Sums_eq startTime endTime timestamps uptimeValues _ c0 exceptions htr hpos hv
        hdl hcl he⟩, ?_, ?_⟩
  · omega
  · omega

/-- Witness of the amended C10 on a series with a reset and a trailing interval. -/
theorem accumulators_total_positive_iff_witness :
    checkArguments (0 : Int) (50 : Int) ([10, 20, 30, 40] : List Int) ([5, 300, -2, 7] : List Int) none = none ∧
    (∃ total,
      HasDivisor (snmpSums (0 : Int) (50 : Int) ([10, 20, 30, 40] : List Int) ([5, 300, -2, 7] : List Int)) total ∧
      HasDivisor (uptimeSums (0 : Int) (50 : Int) ([10, 20, 30, 40] : List Int) ([5, 300, -2, 7] : List Int)) total ∧
      HasDivisor (sla1Sums (0 : Int) (50 : Int) ([10, 20, 30, 40] : List Int) ([5, 300, -2, 7] : List Int)) total ∧
      (∀ exceptions : List Bool, exceptions.length = ([10, 20, 30, 40] : List Int).length →
        HasDivisor (sla2Sums (0 : Int) (50 : Int) ([10, 20, 30, 40] : List Int) ([5, 300, -2, 7] : List Int) (some exceptions))
          total) ∧
      0 ≤ total ∧ (0 < total ↔ (0 : Int) < (50 : Int))) :=
  ⟨by decide, accumulators_total_positive_iff (0 : Int) (50 : Int) ([10, 20, 30, 40] : List Int) ([5, 300, -2, 7] : List Int) (by decide)⟩

/-- C11, as stated, fails: on the single-sample series `timestamps = [7]`,
`values = [3]` with `startTime = endTime = 7` validation passes and no
accumulator returns `0.0`. -/
theorem single_instant_not_zero_counterexample :
    checkArguments 7 7 [7] [3] none = none ∧
    CalculateSNMPAvailability 7 7 [7] [3] ≠ some (F64.zero, none) ∧
    CalculateUptimeAvailability 7 7 [7] [3] ≠ some (F64.zero, none) ∧
    CalculateSLA1Availability 7 7 [7] [3] ≠ some (F64.zero, none) ∧
    CalculateSLA2Availability 7 7 [7] [3] (some [false]) ≠ some (F64.zero, none) := by
  decide

/-- C11, amended: for every `t ≥ 0` and every value `v`, on the single-sample
series `timestamps = [t]`, `values = [v]` with `startTime = endTime = t`
validation passes, the interval lengths are `[0]` with no trailing interval,
and each of the four accumulators returns, with no error, the quotient of the
float division of `0` by `0`, which is NaN and not `0.0`. -/
theorem single_instant_returns_nan (t v : Int) (ht : 0 ≤ t) :
    checkArguments t t [t] [v] none = none ∧
    transformToSpreadedUptime t t [t] [v] = some ([0], [0]) ∧
    snmpIntervals t t [t] [v] = some ([0], [0]) ∧
    uptimeIntervals t t [t] [v] = some ([0], [0]) ∧
    sla1Intervals t t [t] [v] = some ([0], [0]) ∧
    (∀ b, sla2Intervals t t [t] [v] (some [b]) = some ([0], [0])) ∧
    CalculateSNMPAvailability t t [t] [v] = some (F64.nan, none) ∧
    CalculateUptimeAvailability t t [t] [v] = some (F64.nan, none) ∧
    CalculateSLA1Availability t t [t] [v] = some (F64.nan, none) ∧
    (∀ b, CalculateSLA2Availability t t [t] [v] (some [b]) = some (F64.nan, none)) ∧
    F64.nan ≠ F64.zero := by
  have hc := instant_check t v ht none (by simp)
  refine ⟨hc, instant_transform t v, instant_snmpIntervals t v, instant_uptimeIntervals t v,
    instant_sla1Intervals t v, instant_sla2Intervals t v, ?_, ?_, ?_, ?_, by decide⟩
  · exact CalculateSNMPAvailability_accepted t t [t] [v] (0, 0) hc
      (by rw [snmpSums, instant_snmpIntervals, Option.some_bind, sumLoop_zero])
  · exact CalculateUptimeAvailability_accepted t t [t] [v] (0, 0) hc
      (by rw [uptimeSums, instant_uptimeIntervals, Option.some_bind, sumLoop_zero])
  · exact CalculateSLA1Availability_accepted t t [t] [v] (0, 0) hc
      (by rw [sla1Sums, instant_sla1Intervals, Option.some_bind, sumLoop_zero])
  · intro b
    exact CalculateSLA2Availability_accepted t t [t] [v] (some [b]) (0, 0)
      (instant_check t v ht (some [b]) (by intro x hx; cases hx; rfl))
      (by rw [sla2Sums, instant_sla2Intervals, Option.some_bind, sumLoop_zero])

/-- Witness of the amended C11 at `t = 12` with a negative reading. -/
theorem single_instant_returns_nan_witness :
    (0 : Int) ≤ (12 : Int) ∧
    (checkArguments (12 : Int) (12 : Int) [(12 : Int)] [(-4 : Int)] none = none ∧
    transformToSpreadedUptime (12 : Int) (12 : Int) [(12 : Int)] [(-4 : Int)] = some ([0], [0]) ∧
    snmpIntervals (12 : Int) (12 : Int) [(12 : Int)] [(-4 : Int)] = some ([0], [0]) ∧
    uptimeIntervals (12 : Int) (12 : Int) [(12 : Int)] [(-4 : Int)] = some ([0], [0]) ∧
    sla1Intervals (12 : Int) (12 : Int) [(12 : Int)] [(-4 : Int)] = some ([0], [0]) ∧
    (∀ b, sla2Intervals (12 : Int) (12 : Int) [(12 : Int)] [(-4 : Int)] (some [b]) = some ([0], [0])) ∧
    CalculateSNMPAvailability (12 : Int) (12 : Int) [(12 : Int)] [(-4 : Int)] = some (F64.nan, none) ∧
    CalculateUptimeAvailability (12 : Int) (12 : Int) [(12 : Int)] [(-4 : Int)] = some (F64.nan, none) ∧
    CalculateSLA1Availability (12 : Int) (12 : Int) [(12 : Int)] [(-4 : Int)] = some (F64.nan, none) ∧
    (∀ b, CalculateSLA2Availability (12 : Int) (12 : Int) [(12 : Int)] [(-4 : Int)] (some [b]) = some (F64.nan, none)) ∧
    F64.nan ≠ F64.zero) :=
  ⟨by decide, single_instant_returns_nan (12 : Int) (-4 : Int) (by decide)⟩

/-- C14, as stated, fails: on the accepted input `startTime = 0`,
`endTime = 40`, `timestamps = [10, 20, 30]`,
`values = [9223372036854775807, -2, 1]` the difference
`-2 - 9223372036854775807` wraps to `9223372036854775807`, Step 1 gives
`[10, 9223372036854775807, 3]`, the redistribution returns `[10, 10, 3]` with
sum `23`, and the raw values of the claim are `[10, 0, 3]` with sum `13`. -/
theorem redistribution_overflow_counterexample :
    checkArguments 0 40 [10, 20, 30] [9223372036854775807, -2, 1] none = none ∧
    spreadRaw 0 [10, 20, 30] [9223372036854775807, -2, 1] =
      some ([10, 10, 10], [10, 9223372036854775807, 3]) ∧
    transformToSpreadedUptime 0 40 [10, 20, 30] [9223372036854775807, -2, 1] =
      some ([10, 10, 10], [10, 10, 3]) ∧
    (List.range 3).map (rawUptime 0 [10, 20, 30] [9223372036854775807, -2, 1]) =
      [10, 0, 3] ∧
    ¬ (([10, 10, 3] : List Int).sum ≤ ([10, 0, 3] : List Int).sum) := by
  decide

/-- C14, amended: for every input that passes validation, the backward
redistribution of `transformToSpreadedUptime` never increases total counted
time: the sum of the counted values it returns is at most the sum of the
Step-1 values that the code computes (`rawCounted`); when no difference
`values[i] - values[i-1]` overflows `int64`, these are the raw values
`rawUptime` of the claim, and the returned sum is at most their sum. -/
theorem redistribution_never_adds (startTime endTime : Int)
    (timestamps uptimeValues : List Int)
    (h : checkArguments startTime endTime timestamps uptimeValues none = none) :
    ∃ countedVals,
      spreadRaw startTime timestamps uptimeValues =
        some (deltaTimes startTime timestamps,
          (List.range timestamps.length).map (rawCounted startTime timestamps uptimeValues)) ∧
      transformToSpreadedUptime startTime endTime timestamps uptimeValues =
        some (deltaTimes startTime timestamps, countedVals) ∧
      countedVals.sum ≤
        ((List.range timestamps.length).map
          (rawCounted startTime timestamps uptimeValues)).sum ∧
      (DifferencesFit uptimeValues →
        (List.range timestamps.length).map (rawCounted startTime timestamps uptimeValues) =
          (List.range timestamps.length).map (rawUptime startTime timestamps uptimeValues) ∧
        countedVals.sum ≤
          ((List.range timestamps.length).map
            (rawUptime startTime timestamps uptimeValues)).sum) := by
  have hlen : timestamps.length = uptimeValues.length :=
    ((checkArguments_none_iff _ _ _ _ _).mp h).2.2.2.2.2.1
  obtain ⟨cs, hcs, hsum⟩ := spreadLoop2_sum_le (deltaTimes startTime timestamps)
    ((List.range timestamps.length).map (rawCounted startTime timestamps uptimeValues))
    (by simp [deltaTimes])
    (by
      intro m hm
      rw [deltaTimes_length] at hm
      rw [deltaTimes_getD startTime timestamps hm]
      exact deltaTime_nonneg h hm)
    (by
      intro m hm
      rw [getD_map_range _ 0 (by simpa using hm)]
      exact rawCounted_nonneg h m)
  rw [deltaTimes_length] at hcs
  refine ⟨cs, spreadRaw_eq startTime timestamps uptimeValues hlen,
    transform_eq_of_loop2 startTime endTime timestamps uptimeValues cs hlen hcs, hsum, ?_⟩
  intro hfit
  have heq : (List.range timestamps.length).map
        (rawCounted startTime timestamps uptimeValues) =
      (List.range timestamps.length).map (rawUptime startTime timestamps uptimeValues) := by
    apply List.map_congr_left
    intro m hm
    exact rawCounted_eq_rawUptime startTime timestamps uptimeValues hfit
      (by have := List.mem_range.mp hm; omega)
  exact ⟨heq, heq ▸ hsum⟩

/-- Witness of the amended C14 on a series whose redistribution overwrites earlier counted time and whose differences fit `int64`. -/
theorem redistribution_never_adds_witness :
    checkArguments (0 : Int) (50 : Int) ([10, 20, 30, 40] : List Int) ([5, 7, 300, -2] : List Int) none = none ∧
    DifferencesFit ([5, 7, 300, -2] : List Int) ∧
    (∃ countedVals,
      spreadRaw (0 : Int) ([10, 20, 30, 40] : List Int) ([5, 7, 300, -2] : List Int) =
        some (deltaTimes (0 : Int) ([10, 20, 30, 40] : List Int),
          (List.range ([10, 20, 30, 40] : List Int).length).map (rawCounted (0 : Int) ([10, 20, 30, 40] : List Int) ([5, 7, 300, -2] : List Int))) ∧
      transformToSpreadedUptime (0 : Int) (50 : Int) ([10, 20, 30, 40] : List Int) ([5, 7, 300, -2] : List Int) =
        some (deltaTimes (0 : Int) ([10, 20, 30, 40] : List Int), countedVals) ∧
      countedVals.sum ≤
        ((List.range ([10, 20, 30, 40] : List Int).length).map
          (rawCounted (0 : Int) ([10, 20, 30, 40] : List Int) ([5, 7, 300, -2] : List Int))).sum ∧
      (DifferencesFit ([5, 7, 300, -2] : List Int) →
        (List.range ([10, 20, 30, 40] : List Int).length).map (rawCounted (0 : Int) ([10, 20, 30, 40] : List Int) ([5, 7, 300, -2] : List Int)) =
          (List.range ([10, 20, 30, 40] : List Int).length).map (rawUptime (0 : Int) ([10, 20, 30, 40] : List Int) ([5, 7, 300, -2] : List Int)) ∧
        countedVals.sum ≤
          ((List.range ([10, 20, 30, 40] : List Int).length).map
            (rawUptime (0 : Int) ([10, 20, 30, 40] : List Int) ([5, 7, 300, -2] : List Int))).sum)) :=
  ⟨by decide, by decide, redistribution_never_adds (0 : Int) (50 : Int)
    ([10, 20, 30, 40] : List Int) ([5, 7, 300, -2] : List Int) (by decide)⟩

/-- C17, as stated, fails: on the accepted input `startTime = 0`,
`endTime = 40`, `timestamps = [10, 20, 30]`,
`values = [9223372036854775807, -2, 1]` no difference of values exceeds the
elapsed time, yet the difference `-2 - 9223372036854775807` wraps to a
positive number, the redistribution changes `[10, 9223372036854775807, 3]`
into `[10, 10, 3]`, and the numerator of `CalculateUptimeAvailability` is
`23`, not the `10 + 0 + 3 = 13` of the claim. -/
theorem no_excess_overflow_counterexample :
    checkArguments 0 40 [10, 20, 30] [9223372036854775807, -2, 1] none = none ∧
    (∀ i, 1 ≤ i → i < ([10, 20, 30] : List Int).length →
      ([9223372036854775807, -2, 1] : List Int).getD i 0 -
          ([9223372036854775807, -2, 1] : List Int).getD (i - 1) 0 ≤
        ([10, 20, 30] : List Int).getD i 0 - ([10, 20, 30] : List Int).getD (i - 1) 0) ∧
    spreadRaw 0 [10, 20, 30] [9223372036854775807, -2, 1] ≠
      (transformToSpreadedUptime 0 40 [10, 20, 30] [9223372036854775807, -2, 1]) ∧
    uptimeSums 0 40 [10, 20, 30] [9223372036854775807, -2, 1] = some (23, 40) ∧
    (if ([9223372036854775807, -2, 1] : List Int).getD 0 0 ≤ 0 then 0
        else min (([9223372036854775807, -2, 1] : List Int).getD 0 0)
          (([10, 20, 30] : List Int).getD 0 0 - 0)) +
      ((List.range (([10, 20, 30] : List Int).length - 1)).map
        (fun k => max (([9223372036854775807, -2, 1] : List Int).getD (k + 1) 0 -
          ([9223372036854775807, -2, 1] : List Int).getD k 0) 0)).sum = 13 := by
  decide

/-- C17, amended: for every input that passes validation in which no
difference `values[i] - values[i-1]` overflows `int64` and the counter never
advances by more than the elapsed time of its interval, the redistribution
step changes nothing, and the numerator of `CalculateUptimeAvailability` is
`c0` plus the sum over `i ≥ 1` of `max(values[i] - values[i-1], 0)`, where
`c0` is `0` if `values[0] ≤ 0` and `min(values[0], timestamps[0] - startTime)`
otherwise. -/
theorem no_excess_no_redistribution (startTime endTime : Int)
    (timestamps uptimeValues : List Int)
    (h : checkArguments startTime endTime timestamps uptimeValues none = none)
    (hfit : DifferencesFit uptimeValues)
    (hadv : ∀ i, 1 ≤ i → i < timestamps.length →
      uptimeValues.getD i 0 - uptimeValues.getD (i - 1) 0 ≤
        timestamps.getD i 0 - timestamps.getD (i - 1) 0) :
    ∃ raw,
      spreadRaw startTime timestamps uptimeValues =
        some (deltaTimes startTime timestamps, raw) ∧
      transformToSpreadedUptime startTime endTime timestamps uptimeValues =
        some (deltaTimes startTime timestamps, raw) ∧
      (∃ total, uptimeSums startTime endTime timestamps uptimeValues =
        some (raw.sum, total)) ∧
      raw.sum =
        (if uptimeValues.getD 0 0 ≤ 0 then 0
          else min (uptimeValues.getD 0 0) (timestamps.getD 0 0 - startTime)) +
        ((List.range (timestamps.length - 1)).map
          (fun k => max (uptimeValues.getD (k + 1) 0 - uptimeValues.getD k 0) 0)).sum := by
  have hva := (checkArguments_none_iff _ _ _ _ _).mp h
  have hlen : timestamps.length = uptimeValues.length := hva.2.2.2.2.2.1
  have hpos : 0 < timestamps.length := hva.2.2.1
  have heq : (List.range timestamps.length).map
        (rawCounted startTime timestamps uptimeValues) =
      (List.range timestamps.length).map (rawUptime startTime timestamps uptimeValues) := by
    apply List.map_congr_left
    intro m hm
    exact rawCounted_eq_rawUptime startTime timestamps uptimeValues hfit
      (by have := List.mem_range.mp hm; omega)
  have hnoop := spreadLoop2_noop (deltaTimes startTime timestamps)
    ((List.range timestamps.length).map (rawCounted startTime timestamps uptimeValues))
    (by simp [deltaTimes])
    (by
      intro m hm
      rw [deltaTimes_length] at hm
      rw [deltaTimes_getD startTime timestamps hm, heq, getD_map_range _ 0 hm]
      exact rawUptime_le_deltaTime h hadv hm)
  rw [deltaTimes_length] at hnoop
  have htr := transform_eq_of_loop2 startTime endTime timestamps uptimeValues _ hlen hnoop
  refine ⟨_, spreadRaw_eq startTime timestamps uptimeValues hlen, htr,
    ⟨_, uptimeSums_eq startTime endTime timestamps uptimeValues _ _ htr hpos
      (by simp [deltaTimes])⟩, ?_⟩
  rw [heq]
  obtain ⟨n, hn⟩ : ∃ n, timestamps.length = n + 1 := ⟨timestamps.length - 1, by omega⟩
  rw [hn, sum_map_range_shift, Nat.add_sub_cancel]
  simp only [rawUptime, deltaTime, if_true, Nat.succ_ne_zero, if_false, Nat.add_sub_cancel]

/-- Witness of the amended C17 on a series with a reset and a flat reading. -/
theorem no_excess_no_redistribution_witness :
    checkArguments (0 : Int) (50 : Int) ([10, 20, 30, 40] : List Int) ([5, 12, 3, 3] : List Int) none = none ∧
    DifferencesFit ([5, 12, 3, 3] : List Int) ∧
    (∀ i, 1 ≤ i → i < ([10, 20, 30, 40] : List Int).length →
      ([5, 12, 3, 3] : List Int).getD i 0 - ([5, 12, 3, 3] : List Int).getD (i - 1) 0 ≤
        ([10, 20, 30, 40] : List Int).getD i 0 - ([10, 20, 30, 40] : List Int).getD (i - 1) 0) ∧
    (∃ raw,
      spreadRaw (0 : Int) ([10, 20, 30, 40] : List Int) ([5, 12, 3, 3] : List Int) =
        some (deltaTimes (0 : Int) ([10, 20, 30, 40] : List Int), raw) ∧
      transformToSpreadedUptime (0 : Int) (50 : Int) ([10, 20, 30, 40] : List Int) ([5, 12, 3, 3] : List Int) =
        some (deltaTimes (0 : Int) ([10, 20, 30, 40] : List Int), raw) ∧
      (∃ total, uptimeSums (0 : Int) (50 : Int) ([10, 20, 30, 40] : List Int) ([5, 12, 3, 3] : List Int) =
        some (raw.sum, total)) ∧
      raw.sum =
        (if ([5, 12, 3, 3] : List Int).getD 0 0 ≤ 0 then 0
          else min (([5, 12, 3, 3] : List Int).getD 0 0) (([10, 20, 30, 40] : List Int).getD 0 0 - (0 : Int))) +
        ((List.range (([10, 20, 30, 40] : List Int).length - 1)).map
          (fun k => max (([5, 12, 3, 3] : List Int).getD (k + 1) 0 - ([5, 12, 3, 3] : List Int).getD k 0) 0)).sum) :=
  ⟨by decide, by decide, by decide, no_excess_no_redistribution (0 : Int) (50 : Int) ([10, 20, 30, 40] : List Int) ([5, 12, 3, 3] : List Int) (by decide) (by decide) (by decide)⟩

/-- C15, as stated, fails: on the fixture of the example program
`CalculateSNMPAvailability` returns `3/5`, which is not `0.9` to one decimal
place, and `CalculateUptimeAvailability` returns `101/150`, which is not
`0.947` to three decimal places. -/
theorem example_fixture_counterexample :
    CalculateSNMPAvailability Example.startTime Example.endTime Example.timestamps
      Example.uptimeVals = some (F64.val (3 / 5), none) ∧
    ¬ ((17 / 20 : ℚ) ≤ 3 / 5 ∧ (3 / 5 : ℚ) < 19 / 20) ∧
    CalculateUptimeAvailability Example.startTime Example.endTime Example.timestamps
      Example.uptimeVals = some (F64.val (101 / 150), none) ∧
    ¬ ((1893 / 2000 : ℚ) ≤ 101 / 150 ∧ (101 / 150 : ℚ) < 1895 / 2000) := by
  refine ⟨?_, by norm_num, ?_, by norm_num⟩
  · rw [CalculateSNMPAvailability_accepted _ _ _ _ _ example_accepted.2 example_snmpSums,
      F64_div_1800_3000]
  · rw [CalculateUptimeAvailability_accepted _ _ _ _ _ example_accepted.2 example_uptimeSums,
      F64_div_2020_3000]

/-- C15, amended: on the fixture of the example program
`CalculateSNMPAvailability` divides a counted sum of `1800` by a total of
`3000` and returns exactly `0.6`, and `CalculateUptimeAvailability` divides
`2020` by `3000` and returns `101/150`, which is `0.673` to three decimal
places. -/
theorem example_fixture_values :
    checkArguments Example.startTime Example.endTime Example.timestamps Example.uptimeVals
      none = none ∧
    snmpSums Example.startTime Example.endTime Example.timestamps Example.uptimeVals =
      some (1800, 3000) ∧
    CalculateSNMPAvailability Example.startTime Example.endTime Example.timestamps
      Example.uptimeVals = some (F64.div 1800 3000, none) ∧
    F64.div 1800 3000 = F64.val (6 / 10) ∧
    uptimeSums Example.startTime Example.endTime Example.timestamps Example.uptimeVals =
      some (2020, 3000) ∧
    CalculateUptimeAvailability Example.startTime Example.endTime Example.timestamps
      Example.uptimeVals = some (F64.div 2020 3000, none) ∧
    F64.div 2020 3000 = F64.val (101 / 150) ∧
    ((1345 / 2000 : ℚ) ≤ 101 / 150 ∧ (101 / 150 : ℚ) < 1347 / 2000) := by
  refine ⟨example_accepted.2, example_snmpSums,
    CalculateSNMPAvailability_accepted _ _ _ _ _ example_accepted.2 example_snmpSums, ?_,
    example_uptimeSums,
    CalculateUptimeAvailability_accepted _ _ _ _ _ example_accepted.2 example_uptimeSums,
    F64_div_2020_3000, by norm_num⟩
  rw [F64_div_1800_3000]
  norm_num

/-- C16 at its failing input: with a `nil` exceptions slice and one sample,
`checkArguments` accepts and `CalculateSLA2Availability` then panics on
`exceptions[0]` instead of returning an error; an exceptions slice of another
length that is not `nil` is rejected with an error and the value `0`. -/
theorem sla2_nil_exceptions_panics :
    checkArguments 0 10 [10] [1] none = none ∧
    CalculateSLA2Availability 0 10 [10] [1] none = none ∧
    CalculateSLA2Availability 0 10 [10] [1] (some []) =
      some (F64.zero, some ArgError.exceptionsLength) := by
  decide

/-- C12: for every input that passes validation and every exceptions array of
matching length whose true entries are all at samples that Policy-1 does not
count (samples before the first positive reading, samples with
`values[i] ≤ 0` and reconstructed `countedUptime[i] > 0`, or samples in the
trailing non-positive run), the counted sum of Policy-2 is at least the
counted sum of Policy-1 and both use the same total; hence
`CalculateSLA2Availability ≥ CalculateSLA1Availability` as quotients when the
total is not zero. -/
theorem sla2_ge_sla1_when_flags_on_uncounted (startTime endTime : Int)
    (timestamps uptimeValues : List Int) (exceptions : List Bool)
    (deltaTimeStamps spread : List Int)
    (h : checkArguments startTime endTime timestamps uptimeValues (some exceptions) = none)
    (htr : transformToSpreadedUptime startTime endTime timestamps uptimeValues =
      some (deltaTimeStamps, spread))
    (hflag : ∀ i, i < timestamps.length → exceptions.getD i false = true →
      ¬ observed uptimeValues i ∨
      (uptimeValues.getD i 0 ≤ 0 ∧ 0 < spread.getD i 0) ∨
      ¬ positiveAhead uptimeValues i) :
    ∃ n1 n2 total,
      sla1Sums startTime endTime timestamps uptimeValues = some (n1, total) ∧
      sla2Sums startTime endTime timestamps uptimeValues (some exceptions) =
        some (n2, total) ∧
      n1 ≤ n2 ∧
      CalculateSLA1Availability startTime endTime timestamps uptimeValues =
        some (F64.div n1 total, none) ∧
      CalculateSLA2Availability startTime endTime timestamps uptimeValues (some exceptions) =
        some (F64.div n2 total, none) ∧
      (total ≠ 0 → ∃ q1 q2 : ℚ, F64.div n1 total = F64.val q1 ∧
        F64.div n2 total = F64.val q2 ∧ q1 ≤ q2) := by
  have h0 := checkArguments_none_of_none h
  obtain ⟨hpos, hv, c0, htr0, hcl, -⟩ := accepted_facts h
  have heq : (deltaTimeStamps, spread) = (deltaTimes startTime timestamps, c0) :=
    Option.some.inj (htr.symm.trans htr0)
  have hsp : spread = c0 := congrArg Prod.snd heq
  subst hsp
  have hdl := deltaTimes_length startTime timestamps
  have he : exceptions.length = timestamps.length :=
    (((checkArguments_none_iff _ _ _ _ _).mp h).2.2.2.2.2.2.1 exceptions rfl).symm
  have hs1 := sla1Sums_eq startTime endTime timestamps uptimeValues _ spread htr0 hpos hv hdl hcl
  have hs2 := sla2Sums_eq startTime endTime timestamps uptimeValues _ spread exceptions htr0
    hpos hv hdl hcl he
  have hfl : ∀ j, 0 < uptimeValues.getD j 0 → exceptions.getD j false = false := by
    intro j hj
    by_contra hcon
    have hpc := countedByPolicy1_of_pos uptimeValues spread j hj
    have hjn : j < timestamps.length := by
      obtain ⟨k, hk, -, -⟩ := hpc.2.1
      have : j < uptimeValues.length := by
        by_contra hge
        rw [List.getD_eq_getElem?_getD, List.getElem?_eq_none (by omega)] at hj
        exact absurd hj (by decide)
      omega
    rcases hflag j hjn (by simpa using hcon) with hno | hno | hno
    · exact hno hpc.1
    · omega
    · exact hno hpc.2.1
  have hle : ((List.range timestamps.length).map
        (policy1Count uptimeValues spread (deltaTimes startTime timestamps))).sum ≤
      ((List.range timestamps.length).map
        (policy2Count uptimeValues spread (deltaTimes startTime timestamps) exceptions)).sum := by
    apply sum_map_range_mono
    intro m hm
    apply policy1Count_le_policy2Count uptimeValues spread _ exceptions hfl m
    rw [deltaTimes_getD _ _ hm]
    exact deltaTime_nonneg h hm
  have htot := total_eq h
  have hnn : 0 ≤ (deltaTimes startTime timestamps).sum + trailingTime endTime timestamps := by
    have hd : 0 ≤ (deltaTimes startTime timestamps).sum :=
      (sum_map_range_bounds (deltaTime startTime timestamps) (deltaTime startTime timestamps)
        timestamps.length (fun m hm => ⟨deltaTime_nonneg h hm, le_refl _⟩)).1
    have := trailingTime_nonneg endTime timestamps
    omega
  refine ⟨_, _, _, hs1, hs2, hle,
    CalculateSLA1Availability_accepted _ _ _ _ _ h0 hs1,
    CalculateSLA2Availability_accepted _ _ _ _ _ _ h hs2, ?_⟩
  intro hne
  exact ratio_mono _ _ _ hle (by omega)

/-- Witness of C12 with one flagged sample of each of the three kinds. -/
theorem sla2_ge_sla1_when_flags_on_uncounted_witness :
    checkArguments (0 : Int) (60 : Int) ([10, 20, 30, 40, 50] : List Int) ([0, 5, 0, 30, 0] : List Int) (some ([true, false, true, false, true] : List Bool)) = none ∧
    transformToSpreadedUptime (0 : Int) (60 : Int) ([10, 20, 30, 40, 50] : List Int) ([0, 5, 0, 30, 0] : List Int) =
      some (([10, 10, 10, 10, 10] : List Int), ([0, 10, 10, 10, 0] : List Int)) ∧
    (∀ i, i < ([10, 20, 30, 40, 50] : List Int).length → ([true, false, true, false, true] : List Bool).getD i false = true →
      ¬ observed ([0, 5, 0, 30, 0] : List Int) i ∨
      (([0, 5, 0, 30, 0] : List Int).getD i 0 ≤ 0 ∧ 0 < ([0, 10, 10, 10, 0] : List Int).getD i 0) ∨
      ¬ positiveAhead ([0, 5, 0, 30, 0] : List Int) i) ∧
    (∃ n1 n2 total,
      sla1Sums (0 : Int) (60 : Int) ([10, 20, 30, 40, 50] : List Int) ([0, 5, 0, 30, 0] : List Int) = some (n1, total) ∧
      sla2Sums (0 : Int) (60 : Int) ([10, 20, 30, 40, 50] : List Int) ([0, 5, 0, 30, 0] : List Int) (some ([true, false, true, false, true] : List Bool)) =
        some (n2, total) ∧
      n1 ≤ n2 ∧
      CalculateSLA1Availability (0 : Int) (60 : Int) ([10, 20, 30, 40, 50] : List Int) ([0, 5, 0, 30, 0] : List Int) =
        some (F64.div n1 total, none) ∧
      CalculateSLA2Availability (0 : Int) (60 : Int) ([10, 20, 30, 40, 50] : List Int) ([0, 5, 0, 30, 0] : List Int) (some ([true, false, true, false, true] : List Bool)) =
        some (F64.div n2 total, none) ∧
      (total ≠ 0 → ∃ q1 q2 : ℚ, F64.div n1 total = F64.val q1 ∧
        F64.div n2 total = F64.val q2 ∧ q1 ≤ q2)) :=
  ⟨by decide, by decide, by decide, sla2_ge_sla1_when_flags_on_uncounted (0 : Int) (60 : Int) ([10, 20, 30, 40, 50] : List Int) ([0, 5, 0, 30, 0] : List Int) ([true, false, true, false, true] : List Bool) ([10, 10, 10, 10, 10] : List Int) ([0, 10, 10, 10, 0] : List Int) (by decide) (by decide) (by decide)⟩

/-- C18: for every input that passes validation, every sample with
`values[i] > 0` is counted at its full `deltaTime[i]` by
`CalculateSLA1Availability`; hence its counted sum is at least that of
`CalculateSNMPAvailability`, the totals are equal, and
`CalculateSLA1Availability ≥ CalculateSNMPAvailability` whenever
`endTime > startTime`. -/
theorem sla1_counts_every_positive_sample (startTime endTime : Int)
    (timestamps uptimeValues : List Int)
    (h : checkArguments startTime endTime timestamps uptimeValues none = none) :
    ∃ counted n0 n1 total,
      sla1Counted startTime endTime timestamps uptimeValues =
        some (deltaTimes startTime timestamps, counted) ∧
      (∀ i, i < timestamps.length → 0 < uptimeValues.getD i 0 →
        counted[i]? = some (deltaTime startTime timestamps i)) ∧
      snmpSums startTime endTime timestamps uptimeValues = some (n0, total) ∧
      sla1Sums startTime endTime timestamps uptimeValues = some (n1, total) ∧
      n0 ≤ n1 ∧
      (startTime < endTime → ∃ q0 q1 : ℚ,
        CalculateSNMPAvailability startTime endTime timestamps uptimeValues =
          some (F64.val q0, none) ∧
        CalculateSLA1Availability startTime endTime timestamps uptimeValues =
          some (F64.val q1, none) ∧ q0 ≤ q1) := by
  obtain ⟨hpos, hv, c0, htr, hcl, -⟩ := accepted_facts h
  have hdl := deltaTimes_length startTime timestamps
  have hcounted := sla1Counted_eq startTime endTime timestamps uptimeValues _ c0 htr hpos hv
    hdl hcl
  have hs1 := sla1Sums_eq startTime endTime timestamps uptimeValues _ c0 htr hpos hv hdl hcl
  have hs0 := snmpSums_eq h
  have hle : ((List.range timestamps.length).map
        (fun i => if 0 < uptimeValues.getD i 0 then deltaTime startTime timestamps i
          else 0)).sum ≤
      ((List.range timestamps.length).map
        (policy1Count uptimeValues c0 (deltaTimes startTime timestamps))).sum := by
    apply sum_map_range_mono
    intro m hm
    have hd : 0 ≤ (deltaTimes startTime timestamps).getD m 0 := by
      rw [deltaTimes_getD _ _ hm]
      exact deltaTime_nonneg h hm
    by_cases hvm : 0 < uptimeValues.getD m 0
    · simp only [hvm, if_true, policy1Count, countedByPolicy1_of_pos uptimeValues c0 m hvm]
      rw [deltaTimes_getD _ _ hm]
    · simp only [hvm, if_false]
      exact (policy1Count_bounds uptimeValues c0 _ m hd).1
  refine ⟨_, _, _, _, hcounted, ?_, hs0, hs1, hle, ?_⟩
  · intro i hi hvi
    rw [List.getElem?_map, List.getElem?_range hi]
    simp only [Option.map_some', policy1Count,
      countedByPolicy1_of_pos uptimeValues c0 i hvi, if_true]
    rw [deltaTimes_getD _ _ hi]
  · intro hlt
    have htot := total_eq h
    obtain ⟨q0, q1, e0, e1, hq⟩ := ratio_mono _ _
      ((deltaTimes startTime timestamps).sum + trailingTime endTime timestamps) hle (by omega)
    refine ⟨q0, q1, ?_, ?_, hq⟩
    · rw [CalculateSNMPAvailability_accepted _ _ _ _ _ h hs0, e0]
    · rw [CalculateSLA1Availability_accepted _ _ _ _ _ h hs1, e1]

/-- Witness of C18 on a series with a reset and a trailing interval. -/
theorem sla1_counts_every_positive_sample_witness :
    checkArguments (0 : Int) (50 : Int) ([10, 20, 30, 40] : List Int) ([5, 300, -2, 7] : List Int) none = none ∧
    (∃ counted n0 n1 total,
      sla1Counted (0 : Int) (50 : Int) ([10, 20, 30, 40] : List Int) ([5, 300, -2, 7] : List Int) =
        some (deltaTimes (0 : Int) ([10, 20, 30, 40] : List Int), counted) ∧
      (∀ i, i < ([10, 20, 30, 40] : List Int).length → 0 < ([5, 300, -2, 7] : List Int).getD i 0 →
        counted[i]? = some (deltaTime (0 : Int) ([10, 20, 30, 40] : List Int) i)) ∧
      snmpSums (0 : Int) (50 : Int) ([10, 20, 30, 40] : List Int) ([5, 300, -2, 7] : List Int) = some (n0, total) ∧
      sla1Sums (0 : Int) (50 : Int) ([10, 20, 30, 40] : List Int) ([5, 300, -2, 7] : List Int) = some (n1, total) ∧
      n0 ≤ n1 ∧
      ((0 : Int) < (50 : Int) → ∃ q0 q1 : ℚ,
        CalculateSNMPAvailability (0 : Int) (50 : Int) ([10, 20, 30, 40] : List Int) ([5, 300, -2, 7] : List Int) =
          some (F64.val q0, none) ∧
        CalculateSLA1Availability (0 : Int) (50 : Int) ([10, 20, 30, 40] : List Int) ([5, 300, -2, 7] : List Int) =
          some (F64.val q1, none) ∧ q0 ≤ q1)) :=
  ⟨by decide, sla1_counts_every_positive_sample (0 : Int) (50 : Int) ([10, 20, 30, 40] : List Int) ([5, 300, -2, 7] : List Int) (by decide)⟩

/-- C19: for every input that passes validation, the divisor of each of the
four accumulators, the sum of all `deltaTime[i]` plus the trailing interval,
equals `endTime - startTime` exactly; so all four divide by the same total,
and that total is `0` exactly when `startTime = endTime`. -/
theorem divisor_is_window_length (startTime endTime : Int)
    (timestamps uptimeValues : List Int)
    (h : checkArguments startTime endTime timestamps uptimeValues none = none) :
    ((List.range timestamps.length).map (deltaTime startTime timestamps)).sum +
        trailingTime endTime timestamps = endTime - startTime ∧
    HasDivisor (snmpSums startTime endTime timestamps uptimeValues)
      (endTime - startTime) ∧
    HasDivisor (uptimeSums startTime endTime timestamps uptimeValues)
      (endTime - startTime) ∧
    HasDivisor (sla1Sums startTime endTime timestamps uptimeValues)
      (endTime - startTime) ∧
    (∀ exceptions : List Bool, exceptions.length = timestamps.length →
      HasDivisor (sla2Sums startTime endTime timestamps uptimeValues (some exceptions))
        (endTime - startTime)) ∧
    (endTime - startTime = 0 ↔ startTime = endTime) := by
  obtain ⟨hpos, hv, c0, htr, hcl, -⟩ := accepted_facts h
  have hdl := deltaTimes_length startTime timestamps
  have htot := total_eq h
  refine ⟨htot, ?_, ?_, ?_, ?_, by omega⟩
  · rw [← htot]
    exact ⟨_, snmpSums_eq h⟩
  · rw [← htot]
    exact ⟨_, uptimeSums_eq startTime endTime timestamps uptimeValues _ c0 htr hpos (by omega)⟩
  · rw [← htot]
    exact ⟨_, sla1Sums_eq startTime endTime timestamps uptimeValues _ c0 htr hpos hv hdl hcl⟩
  · intro exceptions he
    rw [← htot]
    exact ⟨_, sla2Sums_eq startTime endTime timestamps uptimeValues _ c0 exceptions htr hpos hv
      hdl hcl he⟩

/-- Witness of C19 on a series with equal timestamps and a trailing interval. -/
theorem divisor_is_window_length_witness :
    checkArguments (3 : Int) (50 : Int) ([10, 20, 20, 40] : List Int) ([5, 300, -2, 7] : List Int) none = none ∧
    (((List.range ([10, 20, 20, 40] : List Int).length).map (deltaTime (3 : Int) ([10, 20, 20, 40] : List Int))).sum +
        trailingTime (50 : Int) ([10, 20, 20, 40] : List Int) = (50 : Int) - (3 : Int) ∧
    HasDivisor (snmpSums (3 : Int) (50 : Int) ([10, 20, 20, 40] : List Int) ([5, 300, -2, 7] : List Int))
      ((50 : Int) - (3 : Int)) ∧
    HasDivisor (uptimeSums (3 : Int) (50 : Int) ([10, 20, 20, 40] : List Int) ([5, 300, -2, 7] : List Int))
      ((50 : Int) - (3 : Int)) ∧
    HasDivisor (sla1Sums (3 : Int) (50 : Int) ([10, 20, 20, 40] : List Int) ([5, 300, -2, 7] : List Int))
      ((50 : Int) - (3 : Int)) ∧
    (∀ exceptions : List Bool, exceptions.length = ([10, 20, 20, 40] : List Int).length →
      HasDivisor (sla2Sums (3 : Int) (50 : Int) ([10, 20, 20, 40] : List Int) ([5, 300, -2, 7] : List Int) (some exceptions))
        ((50 : Int) - (3 : Int))) ∧
    ((50 : Int) - (3 : Int) = 0 ↔ (3 : Int) = (50 : Int))) :=
  ⟨by decide, divisor_is_window_length (3 : Int) (50 : Int) ([10, 20, 20, 40] : List Int) ([5, 300, -2, 7] : List Int) (by decide)⟩

/-- C20: there is an input that passes validation, with an exceptions array of
matching length, for which `CalculateSLA2Availability` is strictly smaller
than `CalculateSLA1Availability`: with `startTime = 0`, `endTime = 300`,
`timestamps = [100, 200, 300]`, `values = [5, 0, 5]` and
`exceptions = [true, false, false]`, Policy-1 counts `300` of `300` and
Policy-2 counts `200` of `300`, because the flagged first sample does not
clear the `open` flag. -/
theorem sla2_can_be_below_sla1 :
    ∃ (startTime endTime : Int) (timestamps uptimeValues : List Int)
      (exceptions : List Bool) (q1 q2 : ℚ),
      startTime = 0 ∧ endTime = 300 ∧ timestamps = [100, 200, 300] ∧
      uptimeValues = [5, 0, 5] ∧ exceptions = [true, false, false] ∧
      checkArguments startTime endTime timestamps uptimeValues (some exceptions) = none ∧
      exceptions.length = timestamps.length ∧
      sla1Sums startTime endTime timestamps uptimeValues = some (300, 300) ∧
      sla2Sums startTime endTime timestamps uptimeValues (some exceptions) =
        some (200, 300) ∧
      forRange (sla2Step uptimeValues [100, 100, 100] exceptions) 1 0 (true, [5, 0, 5]) =
        some (true, [100, 0, 5]) ∧
      CalculateSLA1Availability startTime endTime timestamps uptimeValues =
        some (F64.val q1, none) ∧
      CalculateSLA2Availability startTime endTime timestamps uptimeValues (some exceptions) =
        some (F64.val q2, none) ∧
      q2 < q1 := by
  have hc : checkArguments 0 300 [100, 200, 300] [5, 0, 5] (some [true, false, false]) =
      none := by decide
  have hc0 : checkArguments 0 300 [100, 200, 300] [5, 0, 5] none = none := by decide
  have hs1 : sla1Sums 0 300 [100, 200, 300] [5, 0, 5] = some (300, 300) := by decide
  have hs2 : sla2Sums 0 300 [100, 200, 300] [5, 0, 5] (some [true, false, false]) =
      some (200, 300) := by decide
  refine ⟨0, 300, [100, 200, 300], [5, 0, 5], [true, false, false], 1, 2 / 3,
    rfl, rfl, rfl, rfl, rfl, hc, rfl, hs1, hs2, by decide, ?_, ?_, by norm_num⟩
  · rw [CalculateSLA1Availability_accepted _ _ _ _ _ hc0 hs1]
    simp only [F64.div]
    norm_num
  · rw [CalculateSLA2Availability_accepted _ _ _ _ _ _ hc hs2]
    simp only [F64.div]
    norm_num

/-- C13, as stated, fails: for `startTime = 0`, `endTime = 20`,
`timestamps = [10]`, `values = [5]` the counted sum of
`CalculateSLA1Availability` is `10` of `20`, and after appending the sample
`(20, 5)` it is `20` of `20`. -/
theorem append_last_sample_counterexample :
    checkArguments 0 20 [10] [5] none = none ∧
    checkArguments 0 20 ([10] ++ [20]) ([5] ++ [5]) none = none ∧
    sla1Sums 0 20 [10] [5] = some (10, 20) ∧
    sla1Sums 0 20 ([10] ++ [20]) ([5] ++ [5]) = some (20, 20) ∧
    CalculateSLA1Availability 0 20 [10] [5] = some (F64.val (1 / 2), none) ∧
    CalculateSLA1Availability 0 20 ([10] ++ [20]) ([5] ++ [5]) = some (F64.val 1, none) ∧
    (1 / 2 : ℚ) < 1 := by
  have hc : checkArguments 0 20 [10] [5] none = none := by decide
  have hc' : checkArguments 0 20 ([10] ++ [20]) ([5] ++ [5]) none = none := by decide
  have hs : sla1Sums 0 20 [10] [5] = some (10, 20) := by decide
  have hs' : sla1Sums 0 20 ([10] ++ [20]) ([5] ++ [5]) = some (20, 20) := by decide
  refine ⟨hc, hc', hs, hs', ?_, ?_, by norm_num⟩
  · rw [CalculateSLA1Availability_accepted _ _ _ _ _ hc hs]
    simp only [F64.div]
    norm_num
  · rw [CalculateSLA1Availability_accepted _ _ _ _ _ hc' hs']
    simp only [F64.div]
    norm_num

/-- C13, amended: for every input that passes validation, appending one
trailing sample with timestamp `endTime` and value `values[last]` gives a
series that also passes validation and has the same total; its Policy-1
counted sum is the original one when `values[last] ≤ 0` and the original one
plus `endTime - timestamps[last]` when `values[last] > 0`, so it does not
increase exactly when `values[last] ≤ 0` or `endTime = timestamps[last]`. -/
theorem append_last_sample_sums (startTime endTime : Int)
    (timestamps uptimeValues : List Int)
    (h : checkArguments startTime endTime timestamps uptimeValues none = none) :
    checkArguments startTime endTime (timestamps ++ [endTime])
      (uptimeValues ++ [uptimeValues.getD (uptimeValues.length - 1) 0]) none = none ∧
    ∃ n1 n2 total,
      sla1Sums startTime endTime timestamps uptimeValues = some (n1, total) ∧
      sla1Sums startTime endTime (timestamps ++ [endTime])
        (uptimeValues ++ [uptimeValues.getD (uptimeValues.length - 1) 0]) =
          some (n2, total) ∧
      n2 = n1 + (if 0 < uptimeValues.getD (uptimeValues.length - 1) 0 then
        endTime - timestamps.getD (timestamps.length - 1) 0 else 0) ∧
      (n2 ≤ n1 ↔ (uptimeValues.getD (uptimeValues.length - 1) 0 ≤ 0 ∨
        endTime = timestamps.getD (timestamps.length - 1) 0)) := by
  obtain ⟨n1, hs, hs'⟩ := sla1Sums_append h
  have hle := ((checkArguments_none_iff _ _ _ _ _).mp h).2.2.2.2.1
  refine ⟨appended_accepted h _, n1, _, _, hs, hs', rfl, ?_⟩
  split_ifs with hv
  · constructor
    · intro hle2
      right
      omega
    · rintro (hno | heq)
      · omega
      · omega
  · constructor
    · intro _
      left
      omega
    · intro _
      omega

/-- Witness of the amended C13 on a series with a positive last value and a trailing interval. -/
theorem append_last_sample_sums_witness :
    checkArguments (0 : Int) (50 : Int) ([10, 20, 30, 40] : List Int) ([5, 300, -2, 7] : List Int) none = none ∧
    (checkArguments (0 : Int) (50 : Int) (([10, 20, 30, 40] : List Int) ++ [(50 : Int)])
      (([5, 300, -2, 7] : List Int) ++ [([5, 300, -2, 7] : List Int).getD (([5, 300, -2, 7] : List Int).length - 1) 0]) none = none ∧
    ∃ n1 n2 total,
      sla1Sums (0 : Int) (50 : Int) ([10, 20, 30, 40] : List Int) ([5, 300, -2, 7] : List Int) = some (n1, total) ∧
      sla1Sums (0 : Int) (50 : Int) (([10, 20, 30, 40] : List Int) ++ [(50 : Int)])
        (([5, 300, -2, 7] : List Int) ++ [([5, 300, -2, 7] : List Int).getD (([5, 300, -2, 7] : List Int).length - 1) 0]) =
          some (n2, total) ∧
      n2 = n1 + (if 0 < ([5, 300, -2, 7] : List Int).getD (([5, 300, -2, 7] : List Int).length - 1) 0 then
        (50 : Int) - ([10, 20, 30, 40] : List Int).getD (([10, 20, 30, 40] : List Int).length - 1) 0 else 0) ∧
      (n2 ≤ n1 ↔ (([5, 300, -2, 7] : List Int).getD (([5, 300, -2, 7] : List Int).length - 1) 0 ≤ 0 ∨
        (50 : Int) = ([10, 20, 30, 40] : List Int).getD (([10, 20, 30, 40] : List Int).length - 1) 0))) :=
  ⟨by decide, append_last_sample_sums (0 : Int) (50 : Int) ([10, 20, 30, 40] : List Int) ([5, 300, -2, 7] : List Int) (by decide)⟩

end SlaCalculator
